import Mathlib

/-!
# Ray-marching renderer (main.go): shallow embedding and verified properties

The Go program renders a scene of boxes and ellipsoids by fixed-step ray marching.
This development embeds its vector and matrix arithmetic, the containment tests, the ray
marcher `Raycast` and the per-pixel shading of `Camera.Render`, and proves properties of them.

Modelling conventions

* The `float64` code is embedded twice.  The first embedding computes in exact real
  arithmetic: `float64` is `ℝ`, `math.Sqrt`, `math.Cos`, `math.Sin` are `Real.sqrt`,
  `Real.cos`, `Real.sin`, and `math.Pow(t, 2)` is `t ^ 2`; rounding, infinities and NaN are
  outside of it, and results that depend on a division by zero are never relied on.  It
  carries the properties that do not depend on rounding (the list order of the inner loop, the
  shape of the returned triple, the colour written per pixel) and the statements made over
  the reals.
* The second embedding (`Arith`, namespace `Generic`) is the same transliteration of
  `Raycast`, the vector operations and the containment tests with the `float64` operations
  left as parameters, so that what is proved of it holds in every arithmetic.  `binary64`
  instantiates it with IEEE 754 double precision (round to nearest, ties to even, gradual
  underflow, overflow to infinity, NaN); it evaluates the code at concrete inputs where
  rounding, infinities or NaN decide the result.
* `uint8` colour channels and `darkFactor` are natural numbers; the only operation on them is
  division, which cannot overflow.  Integer division by zero is a run-time panic in Go and is
  modelled as such.
* The package-level variables `darkFactor`, `width`, `height`, `step`, `camRot` are passed
  explicitly (structure `Globals`).
* The `for x := 0.0; x < distance; x += step` loop of `Raycast` need not terminate (for
  instance when `step` is `0`), so it is modelled with a fuel argument counting evaluations of
  the loop condition; `none` means that the fuel ran out before the function returned.
-/

noncomputable section

namespace RayMarch

/-! ## Data model -/

/-- Go `Vector3`: three `float64` coordinates. -/
@[ext]
structure Vector3 where
  x : ℝ
  y : ℝ
  z : ℝ

/-- Go `Matrix`: three row vectors. -/
structure Matrix where
  r1 : Vector3
  r2 : Vector3
  r3 : Vector3

/-- Go `color.RGBA`: four `uint8` channels. -/
structure RGBA where
  R : Nat
  G : Nat
  B : Nat
  A : Nat
deriving DecidableEq

/-- Go `Cube`: minimum corner, colour and the three extents. -/
structure Cube where
  position : Vector3
  surfaceColour : RGBA
  xLen : ℝ
  yLen : ℝ
  zLen : ℝ

/-- Go `Sphere`: centre, the three semi-axes and the colour. -/
structure Sphere where
  centre : Vector3
  a : ℝ
  b : ℝ
  c : ℝ
  surfaceColour : RGBA

/-- Go interface `Object`; `Cube` and `Sphere` are its two implementations. -/
inductive Object where
  | cube (c : Cube)
  | sphere (s : Sphere)

/-- Go `Light`. -/
structure Light where
  position : Vector3

/-- Go `Scene`: the ordered object slice and the light. -/
structure Scene where
  objects : List Object
  light : Light

/-- Go `Camera`. -/
structure Camera where
  position : Vector3

/-- The package-level variables of main.go. -/
structure Globals where
  darkFactor : Nat
  width : Nat
  height : Nat
  step : ℝ
  camRot : Matrix

/-! ## Vector and matrix arithmetic -/

/-- Go `Vector3.Dot`. -/
def Vector3.Dot (vec vec2 : Vector3) : ℝ :=
  (vec.x * vec2.x) + (vec.y * vec2.y) + (vec.z * vec2.z)

/-- Go `Vector3.Add`. -/
def Vector3.Add (vec vec2 : Vector3) : Vector3 :=
  ⟨vec.x + vec2.x, vec.y + vec2.y, vec.z + vec2.z⟩

/-- Go `Vector3.Scale`. -/
def Vector3.Scale (vec : Vector3) (scalar : ℝ) : Vector3 :=
  ⟨vec.x * scalar, vec.y * scalar, vec.z * scalar⟩

/-- Go `Vector3.Magnitude`. -/
def Vector3.Magnitude (vec : Vector3) : ℝ :=
  Real.sqrt (vec.x ^ 2 + vec.y ^ 2 + vec.z ^ 2)

/-- Go `Vector3.Normalise`. -/
def Vector3.Normalise (vec : Vector3) : Vector3 :=
  vec.Scale (1 / vec.Magnitude)

/-- Go `Matrix.Transform`. -/
def Matrix.Transform (m : Matrix) (v : Vector3) : Vector3 :=
  ⟨v.Dot m.r1, v.Dot m.r2, v.Dot m.r3⟩

/-- Go `Matrix.Multiply`.  The result starts as the zero matrix; each of the nine assignments
of the source writes the `x` field of a row, so of the three assignments to one row only the
last one (the dot product with the third column of `m2`) survives. -/
def Matrix.Multiply (m m2 : Matrix) : Matrix :=
  let m3 : Matrix := ⟨⟨0, 0, 0⟩, ⟨0, 0, 0⟩, ⟨0, 0, 0⟩⟩
  let m3 : Matrix := { m3 with r1 := { m3.r1 with x := m.r1.Dot ⟨m2.r1.x, m2.r2.x, m2.r3.x⟩ } }
  let m3 : Matrix := { m3 with r2 := { m3.r2 with x := m.r2.Dot ⟨m2.r1.x, m2.r2.x, m2.r3.x⟩ } }
  let m3 : Matrix := { m3 with r3 := { m3.r3 with x := m.r3.Dot ⟨m2.r1.x, m2.r2.x, m2.r3.x⟩ } }
  let m3 : Matrix := { m3 with r1 := { m3.r1 with x := m.r1.Dot ⟨m2.r1.y, m2.r2.y, m2.r3.y⟩ } }
  let m3 : Matrix := { m3 with r2 := { m3.r2 with x := m.r2.Dot ⟨m2.r1.y, m2.r2.y, m2.r3.y⟩ } }
  let m3 : Matrix := { m3 with r3 := { m3.r3 with x := m.r3.Dot ⟨m2.r1.y, m2.r2.y, m2.r3.y⟩ } }
  let m3 : Matrix := { m3 with r1 := { m3.r1 with x := m.r1.Dot ⟨m2.r1.z, m2.r2.z, m2.r3.z⟩ } }
  let m3 : Matrix := { m3 with r2 := { m3.r2 with x := m.r2.Dot ⟨m2.r1.z, m2.r2.z, m2.r3.z⟩ } }
  let m3 : Matrix := { m3 with r3 := { m3.r3 with x := m.r3.Dot ⟨m2.r1.z, m2.r2.z, m2.r3.z⟩ } }
  m3

/-- Go `Camera.RotateY`. -/
def Camera.RotateY (_c : Camera) (theta : ℝ) : Matrix :=
  ⟨⟨1, 0, 0⟩, ⟨0, Real.cos theta, -Real.sin theta⟩, ⟨0, Real.sin theta, Real.cos theta⟩⟩

/-- Go `Camera.RotateX`. -/
def Camera.RotateX (_c : Camera) (theta : ℝ) : Matrix :=
  ⟨⟨Real.cos theta, 0, Real.sin theta⟩, ⟨0, 1, 0⟩, ⟨-Real.sin theta, 0, Real.cos theta⟩⟩

/-- Go `Camera.Rotate`. -/
def Camera.Rotate (c : Camera) (thetaX thetaY : ℝ) : Matrix :=
  let mx := c.RotateX thetaX
  let my := c.RotateY thetaY
  mx.Multiply my

/-! ## Containment tests -/

/-- Go `Cube.CheckIfInside`. -/
def Cube.CheckIfInside (c : Cube) (point : Vector3) : Bool :=
  if c.position.x < point.x ∧ point.x < c.position.x + c.xLen ∧
      c.position.y < point.y ∧ point.y < c.position.y + c.yLen ∧
      c.position.z < point.z ∧ point.z < c.position.z + c.zLen then
    true
  else
    false

/-- Go `Cube.GetSurfaceColour`. -/
def Cube.GetSurfaceColour (c : Cube) : RGBA :=
  c.surfaceColour

/-- Go `Sphere.CheckIfInside`. -/
def Sphere.CheckIfInside (s : Sphere) (p : Vector3) : Bool :=
  if ((p.x - s.centre.x) / s.a) ^ 2 + ((p.y - s.centre.y) / s.b) ^ 2 +
      ((p.z - s.centre.z) / s.c) ^ 2 < 1 then
    true
  else
    false

/-- Go `Sphere.GetSurfaceColour`. -/
def Sphere.GetSurfaceColour (s : Sphere) : RGBA :=
  s.surfaceColour

/-- Interface dispatch of `CheckIfInside`. -/
def Object.CheckIfInside : Object → Vector3 → Bool
  | .cube c, p => c.CheckIfInside p
  | .sphere s, p => s.CheckIfInside p

/-- Interface dispatch of `GetSurfaceColour`. -/
def Object.GetSurfaceColour : Object → RGBA
  | .cube c => c.GetSurfaceColour
  | .sphere s => s.GetSurfaceColour

/-! ## The ray marcher -/

/-- The inner loop of `Raycast`, `for i := 0; i < len(scene.objects); i++`, from index `i` on
(the list is the slice from `i`): the first object whose test succeeds is returned. -/
def scanObjects : List Object → Vector3 → Option Object
  | [], _ => none
  | o :: rest, rayPosition =>
    if o.CheckIfInside rayPosition then some o else scanObjects rest rayPosition

/-- The outer loop of Go `Raycast`, entered with loop variable `x` and current `rayPosition`.
The fuel counts evaluations of the loop condition `x < distance`; `none` is fuel exhaustion.
The result is Go's triple `(bool, Object, Vector3)`, a nil `Object` being `none`. -/
def RaycastLoop (direction : Vector3) (distance : ℝ) (scene : Scene) (step initalstep : ℝ) :
    Nat → ℝ → Vector3 → Option (Bool × Option Object × Vector3)
  | 0, _, _ => none
  | fuel + 1, x, rayPosition =>
    if x < distance then
      let tStep : ℝ := if x = 0 then initalstep else step
      let rayPosition := rayPosition.Add (direction.Normalise.Scale tStep)
      match scanObjects scene.objects rayPosition with
      | some o => some (true, some o, rayPosition)
      | none => RaycastLoop direction distance scene step initalstep fuel (x + step) rayPosition
    else
      some (false, none, ⟨0, 0, 0⟩)

/-- Go `Raycast`, run with the given fuel. -/
def Raycast (fuel : Nat) (origin direction : Vector3) (distance : ℝ) (scene : Scene)
    (step initalstep : ℝ) : Option (Bool × Option Object × Vector3) :=
  RaycastLoop direction distance scene step initalstep fuel 0 origin

/-- The call `Raycast(origin, direction, distance, scene, step, initalstep)` returns `r`. -/
def RaycastReturns (origin direction : Vector3) (distance : ℝ) (scene : Scene)
    (step initalstep : ℝ) (r : Bool × Option Object × Vector3) : Prop :=
  ∃ fuel, Raycast fuel origin direction distance scene step initalstep = some r

/-- The `k`-th sample of a ray, in the words of the specification: the origin advanced along
the unit direction by the initial step and `k` further regular steps. -/
def samplePoint (origin direction : Vector3) (step initalstep : ℝ) (k : Nat) : Vector3 :=
  origin.Add (direction.Normalise.Scale (initalstep + (k : ℝ) * step))

/-! ## Rendering -/

/-- How a run of program code ends. -/
inductive Run (α : Type) where
  /-- Normal completion with a value. -/
  | ret (a : α)
  /-- Go run-time panic (integer division by zero, method call on a nil interface). -/
  | panic
  /-- Some `Raycast` loop did not finish within the fuel. -/
  | outOfFuel

/-- The direction of the primary ray of pixel `(x, y)`: the second argument of the first
`Raycast` call in `Render`. -/
def primaryDirection (g : Globals) (x y : ℝ) : Vector3 :=
  g.camRot.Transform ⟨x / ((g.width : ℝ) / 2) - 1, y / ((g.height : ℝ) / 2) - 1, 1⟩

/-- The direction of the shadow ray from `hitPos`: the second argument of the second `Raycast`
call in `Render`. -/
def shadowDirection (scene : Scene) (hitPos : Vector3) : Vector3 :=
  scene.light.position.Add (hitPos.Scale (-1))

/-- The darkened colour built in the `lHit` branch of `Render`: each of `R`, `G`, `B` divided
by `darkFactor` (`uint8` division), `A` kept.  A nil `objHit` panics at the method call, a zero
`darkFactor` at the division. -/
def darkSurface (objHit : Option Object) (darkFactor : Nat) : Run RGBA :=
  match objHit with
  | none => .panic
  | some o =>
    if darkFactor = 0 then
      .panic
    else
      .ret ⟨o.GetSurfaceColour.R / darkFactor, o.GetSurfaceColour.G / darkFactor,
        o.GetSurfaceColour.B / darkFactor, o.GetSurfaceColour.A⟩

/-- The body of the pixel loops of `Render` for the loop variables `x`, `y`: the colour handed
to `img.Set(int(x), int(y), ·)`. -/
def pixelColour (fuel : Nat) (g : Globals) (cam : Camera) (scene : Scene) (skybox : RGBA)
    (x y : ℝ) : Run RGBA :=
  match Raycast fuel cam.position (primaryDirection g x y) 50 scene g.step g.step with
  | none => .outOfFuel
  | some (hit, objHit, hitPos) =>
    if hit then
      match Raycast fuel hitPos (shadowDirection scene hitPos) 50 scene g.step (g.step * 10) with
      | none => .outOfFuel
      | some (lHit, _, _) =>
        if lHit then
          darkSurface objHit g.darkFactor
        else
          match objHit with
          | none => .panic
          | some o => .ret o.GetSurfaceColour
    else
      .ret skybox

/-- Pixel buffer of `image.RGBA`, indexed by column and row. -/
abbrev Image := Nat → Nat → RGBA

/-- Result of `image.NewRGBA`: every pixel is the zero colour. -/
def newRGBA : Image := fun _ _ => ⟨0, 0, 0, 0⟩

/-- Go `img.Set(x, y, c)`. -/
def Image.Set (img : Image) (x y : Nat) (c : RGBA) : Image :=
  fun a b => if a = x ∧ b = y then c else img a b

/-- The inner pixel loop of `Render` (`for x := 0.0; x < float64(width); x++`) over the
columns still to be visited in row `y`. -/
def renderCols (fuel : Nat) (g : Globals) (cam : Camera) (scene : Scene) (skybox : RGBA)
    (y : Nat) : List Nat → Image → Run Image
  | [], img => .ret img
  | x :: xs, img =>
    match pixelColour fuel g cam scene skybox (x : ℝ) (y : ℝ) with
    | .ret c => renderCols fuel g cam scene skybox y xs (img.Set x y c)
    | .panic => .panic
    | .outOfFuel => .outOfFuel

/-- The outer pixel loop of `Render` (`for y := 0.0; y < float64(height); y++`) over the rows
still to be visited. -/
def renderRows (fuel : Nat) (g : Globals) (cam : Camera) (scene : Scene) (skybox : RGBA) :
    List Nat → Image → Run Image
  | [], img => .ret img
  | y :: ys, img =>
    match renderCols fuel g cam scene skybox y (List.range g.width) img with
    | .ret img2 => renderRows fuel g cam scene skybox ys img2
    | .panic => .panic
    | .outOfFuel => .outOfFuel

/-- Go `Camera.Render`. -/
def Camera.Render (fuel : Nat) (g : Globals) (cam : Camera) (scene : Scene) (skybox : RGBA) :
    Run Image :=
  renderRows fuel g cam scene skybox (List.range g.height) newRGBA

/-! ## Specification-side notions and test data -/

/-- Rows of a matrix are orthonormal: unit length and pairwise orthogonal. -/
def Matrix.Orthonormal (m : Matrix) : Prop :=
  m.r1.Dot m.r1 = 1 ∧ m.r2.Dot m.r2 = 1 ∧ m.r3.Dot m.r3 = 1 ∧
  m.r1.Dot m.r2 = 0 ∧ m.r1.Dot m.r3 = 0 ∧ m.r2.Dot m.r3 = 0

/-- The identity matrix. -/
def identityMatrix : Matrix := ⟨⟨1, 0, 0⟩, ⟨0, 1, 0⟩, ⟨0, 0, 1⟩⟩

/-- The cube of the containment test of the specification: corner `(0,0,0)`, extents `2`. -/
def testCube (col : RGBA) : Cube := ⟨⟨0, 0, 0⟩, col, 2, 2, 2⟩

/-- The sphere of the containment test of the specification: centre `(0,0,0)`, semi-axes `1`. -/
def testSphere (col : RGBA) : Sphere := ⟨⟨0, 0, 0⟩, 1, 1, 1, col⟩

/-- A cube spanning `z ∈ (1.5, 3.5)` around the `z` axis. -/
def farCube : Cube := ⟨⟨-1, -1, 3 / 2⟩, ⟨0, 255, 0, 255⟩, 2, 2, 2⟩

/-- A cube spanning `z ∈ (0.5, 2.5)` around the `z` axis; it overlaps `farCube` and starts
nearer to the origin. -/
def nearCube : Cube := ⟨⟨-1, -1, 1 / 2⟩, ⟨0, 0, 255, 255⟩, 2, 2, 2⟩

/-- Two overlapping cubes, the farther one first in the list. -/
def overlapScene : Scene := ⟨[.cube farCube, .cube nearCube], ⟨⟨0, 0, -3⟩⟩⟩

/-- A cube spanning `z ∈ (3, 5)` around the `z` axis. -/
def beyondCube : Cube := ⟨⟨-1, -1, 3⟩, ⟨0, 255, 0, 255⟩, 2, 2, 2⟩

/-- A scene whose only object lies beyond distance `3` from the origin along the `z` axis. -/
def beyondScene : Scene := ⟨[.cube beyondCube], ⟨⟨0, 0, -3⟩⟩⟩

/-- Globals of a small render: `darkFactor = 3`, a `2 × 2` image, step `1`, no rotation. -/
def demoGlobals : Globals := ⟨3, 2, 2, 1, identityMatrix⟩

/-- A camera at the origin. -/
def demoCamera : Camera := ⟨⟨0, 0, 0⟩⟩

/-- A green cube spanning `z ∈ (0.5, 1.5)` around the `z` axis, in front of the camera. -/
def frontCube : Cube := ⟨⟨-1, -1, 1 / 2⟩, ⟨0, 255, 0, 255⟩, 2, 2, 1⟩

/-- A blue cube spanning `z ∈ (-9.5, -8.5)` around the `z` axis, behind the camera. -/
def backCube : Cube := ⟨⟨-1, -1, -19 / 2⟩, ⟨0, 0, 255, 255⟩, 2, 2, 1⟩

/-- The two cubes with the light at the origin, between them. -/
def behindLightScene : Scene := ⟨[.cube frontCube, .cube backCube], ⟨⟨0, 0, 0⟩⟩⟩

/-- The device coordinates of pixel `(px, py)` in the words of the specification:
`ndcX = px/(width/2) - 1`, `ndcY = py/(height/2) - 1`, forward component `1`. -/
def deviceCoordinates (width height : Nat) (px py : ℝ) : Vector3 :=
  ⟨px / ((width : ℝ) / 2) - 1, py / ((height : ℝ) / 2) - 1, 1⟩

/-- The Go zero value of a `Matrix`, the value of `camRot` before `main` assigns it. -/
def zeroMatrix : Matrix := ⟨⟨0, 0, 0⟩, ⟨0, 0, 0⟩, ⟨0, 0, 0⟩⟩

/-- The demo globals with the zero-valued `darkFactor`. -/
def zeroDarkGlobals : Globals := ⟨0, 2, 2, 1, identityMatrix⟩

/-- The demo globals with `camRot` produced by `Rotate(0, 0)`. -/
def rotateGlobals : Globals := ⟨3, 2, 2, 1, demoCamera.Rotate 0 0⟩

/-- A scene whose light sits inside `frontCube`, at `(0,0,1)`. -/
def lightInCubeScene : Scene := ⟨[.cube frontCube], ⟨⟨0, 0, 1⟩⟩⟩

/-- The statement `scene.objects = append(scene.objects, o)` by which `main` builds the scene;
there is no other scene construction in the program. -/
def addObject (scene : Scene) (o : Object) : Scene :=
  { scene with objects := scene.objects ++ [o] }

/-- A cube with a negative `x` extent. -/
def negativeCube : Cube := ⟨⟨0, 0, 0⟩, ⟨0, 255, 0, 255⟩, -1, 2, 2⟩

/-- The loop of `Raycast` instrumented with a counter of march increments (executions of
`rayPosition = rayPosition.Add(...)`): apart from the counter `n` it is `RaycastLoop`. -/
def RaycastLoopCount (direction : Vector3) (distance : ℝ) (scene : Scene)
    (step initalstep : ℝ) :
    Nat → ℝ → Vector3 → Nat → Option ((Bool × Option Object × Vector3) × Nat)
  | 0, _, _, _ => none
  | fuel + 1, x, rayPosition, n =>
    if x < distance then
      let tStep : ℝ := if x = 0 then initalstep else step
      let rayPosition := rayPosition.Add (direction.Normalise.Scale tStep)
      match scanObjects scene.objects rayPosition with
      | some o => some ((true, some o, rayPosition), n + 1)
      | none =>
        RaycastLoopCount direction distance scene step initalstep fuel (x + step) rayPosition
          (n + 1)
    else
      some ((false, none, ⟨0, 0, 0⟩), n)

/-- Go `Raycast` together with the number of march increments it performed. -/
def RaycastCount (fuel : Nat) (origin direction : Vector3) (distance : ℝ) (scene : Scene)
    (step initalstep : ℝ) : Option ((Bool × Option Object × Vector3) × Nat) :=
  RaycastLoopCount direction distance scene step initalstep fuel 0 origin 0

/-! ## Operation-parametric embedding and float64

The definitions above compute in exact real arithmetic.  The definitions of this section are
the same transliteration with the `float64` operations left as parameters (`Arith`), so that
what is proved of them holds for every arithmetic, in particular for IEEE binary64; `binary64`
is a model of that arithmetic (round to nearest, ties to even, gradual underflow, overflow to
infinity, NaN), used to evaluate the code at concrete inputs. -/

/-- The `float64` operations `Raycast` and the containment tests use: the constants `0` and
`1`, `+`, `-`, `*`, `/`, `math.Sqrt`, `math.Pow(·, 2)`, `<` and `==`. -/
structure Arith (S : Type) where
  zero : S
  one : S
  add : S → S → S
  sub : S → S → S
  mul : S → S → S
  div : S → S → S
  sqrt : S → S
  sq : S → S
  lt : S → S → Bool
  eq : S → S → Bool

/-- IEEE binary64 values, the two zeros identified: `fin m` is the finite value
`m · 2^-1074` (every finite `float64` is such a multiple, with `|m| < 2^2098` and at most 53
significant bits), then the two infinities and NaN. -/
inductive F64 where
  | fin (m : ℤ)
  | posInf
  | negInf
  | nan
deriving DecidableEq

/-- Binary search for `⌊log₂ n⌋`, deciding the bits of the result from bit `i - 1` down. -/
def F64.log2Aux : Nat → Nat → Nat → Nat
  | 0, _, acc => acc
  | i + 1, n, acc =>
    if (1 <<< (1 <<< i)) ≤ n then F64.log2Aux i (n >>> (1 <<< i)) (acc + (1 <<< i))
    else F64.log2Aux i n acc

/-- The value `⌊log₂ n⌋` for `0 < n < 2^8192` (`0` for `n = 0`). -/
def F64.ilog2 (n : Nat) : Nat := F64.log2Aux 13 n 0

/-- Nearest natural number to `n / d`, ties to the even one. -/
def F64.roundEven (n d : Nat) : Nat :=
  let f := n / d
  let r := n % d
  if 2 * r < d then f else if d < 2 * r then f + 1 else if f % 2 = 0 then f else f + 1

/-- The magnitude `n / d` (in units of `2^-1074`) rounded to the binary64 grid: below `2^53`
units the grid is the integers (subnormal numbers and the first normal binade), above it
numbers of 53 significant bits. -/
def F64.roundUnits (n d : Nat) : Nat :=
  let f := n / d
  if f < 1 <<< 53 then F64.roundEven n d
  else
    let s := F64.ilog2 f - 52
    F64.roundEven n (d <<< s) <<< s

/-- Rounding of the real number `± n / d` (in units of `2^-1074`) to binary64: to nearest,
ties to even, overflow to infinity from `2^1024` on. -/
def F64.round64 (neg : Bool) (n d : Nat) : F64 :=
  let u := F64.roundUnits n d
  if 1 <<< 2098 ≤ u then (if neg then .negInf else .posInf)
  else .fin (if neg then -(u : ℤ) else (u : ℤ))

/-- The magnitude `n / d` rounded to 53 significant bits with unbounded exponent, as a
fraction. -/
def F64.round53 (n d : Nat) : Nat × Nat :=
  let e0 : ℤ := (F64.ilog2 n : ℤ) - (F64.ilog2 d : ℤ)
  let ge : Bool :=
    if 0 ≤ e0 then decide (d <<< e0.toNat ≤ n) else decide (d ≤ n <<< (-e0).toNat)
  let e : ℤ := if ge then e0 else e0 - 1
  let s : ℤ := e - 52
  if 0 ≤ s then (F64.roundEven n (d <<< s.toNat) <<< s.toNat, 1)
  else (F64.roundEven (n <<< (-s).toNat) d, 1 <<< (-s).toNat)

/-- The `float64` nearest to the rational `n / d`: the conversion of a decimal constant. -/
def F64.ofRat (n : ℤ) (d : Nat) : F64 :=
  F64.round64 (decide (n < 0)) (n.natAbs <<< 1074) d

/-- Binary64 `+`. -/
def F64.add : F64 → F64 → F64
  | .nan, _ => .nan
  | _, .nan => .nan
  | .posInf, .negInf => .nan
  | .negInf, .posInf => .nan
  | .posInf, _ => .posInf
  | _, .posInf => .posInf
  | .negInf, _ => .negInf
  | _, .negInf => .negInf
  | .fin a, .fin b => F64.round64 (decide (a + b < 0)) (a + b).natAbs 1

/-- Binary64 unary `-`. -/
def F64.neg : F64 → F64
  | .nan => .nan
  | .posInf => .negInf
  | .negInf => .posInf
  | .fin a => .fin (-a)

/-- Binary64 `-`. -/
def F64.sub (a b : F64) : F64 := F64.add a (F64.neg b)

/-- Binary64 `*`. -/
def F64.mul : F64 → F64 → F64
  | .nan, _ => .nan
  | _, .nan => .nan
  | .fin a, .fin b => F64.round64 (decide (a * b < 0)) (a * b).natAbs (1 <<< 1074)
  | .fin a, .posInf => if a = 0 then .nan else if 0 < a then .posInf else .negInf
  | .fin a, .negInf => if a = 0 then .nan else if 0 < a then .negInf else .posInf
  | .posInf, .fin b => if b = 0 then .nan else if 0 < b then .posInf else .negInf
  | .negInf, .fin b => if b = 0 then .nan else if 0 < b then .negInf else .posInf
  | .posInf, .posInf => .posInf
  | .negInf, .negInf => .posInf
  | .posInf, .negInf => .negInf
  | .negInf, .posInf => .negInf

/-- Binary64 `/`.  A zero divisor counts as `+0`: no divisor of the program can be `-0`
except a sphere semi-axis, whose quotient is squared. -/
def F64.div : F64 → F64 → F64
  | .nan, _ => .nan
  | _, .nan => .nan
  | .fin a, .fin b =>
    if b = 0 then (if a = 0 then .nan else if 0 < a then .posInf else .negInf)
    else F64.round64 (decide (a * b < 0)) (a.natAbs <<< 1074) b.natAbs
  | .fin _, .posInf => .fin 0
  | .fin _, .negInf => .fin 0
  | .posInf, .fin b => if 0 ≤ b then .posInf else .negInf
  | .negInf, .fin b => if 0 ≤ b then .negInf else .posInf
  | .posInf, .posInf => .nan
  | .negInf, .negInf => .nan
  | .posInf, .negInf => .nan
  | .negInf, .posInf => .nan

/-- Bitwise computation of `⌊√n⌋` from bit `b - 1` down. -/
def F64.isqrtAux (n : Nat) : Nat → Nat → Nat
  | 0, r => r
  | b + 1, r =>
    let c := r + (1 <<< b)
    if c * c ≤ n then F64.isqrtAux n b c else F64.isqrtAux n b r

/-- The value `⌊√n⌋`. -/
def F64.isqrt (n : Nat) : Nat := F64.isqrtAux n (F64.ilog2 n / 2 + 1) 0

/-- Go `math.Sqrt`: the correctly rounded square root.  For `a > 0` units the root is
`√(a · 2^1074)` units; `k0` is its leading 53 bits truncated and the comparison of `4·N` with
`(2·k0 + 1)² · 4^s` decides the rounding. -/
def F64.sqrt : F64 → F64
  | .nan => .nan
  | .posInf => .posInf
  | .negInf => .nan
  | .fin a =>
    if a < 0 then .nan
    else if a = 0 then .fin 0
    else
      let N := a.natAbs <<< 1074
      let s := F64.ilog2 N / 2 - 52
      let k0 := F64.isqrt (N >>> (2 * s))
      let lhs := N <<< 2
      let rhs := ((2 * k0 + 1) * (2 * k0 + 1)) <<< (2 * s)
      let k :=
        if rhs < lhs then k0 + 1
        else if rhs = lhs then (if k0 % 2 = 0 then k0 else k0 + 1)
        else k0
      .fin ((k <<< s : Nat) : ℤ)

/-- Go `math.Pow(x, 2)`: for finite `x` the library squares the 53-bit mantissa of `x`
(one rounding to 53 bits) and scales the result with `Ldexp` (a second rounding when the
result is subnormal, overflow to `+Inf`). -/
def F64.sq : F64 → F64
  | .nan => .nan
  | .posInf => .posInf
  | .negInf => .posInf
  | .fin a =>
    let p := F64.round53 (a * a).natAbs (1 <<< 1074)
    F64.round64 false p.1 p.2

/-- Binary64 `<`. -/
def F64.lt : F64 → F64 → Bool
  | .nan, _ => false
  | _, .nan => false
  | .fin a, .fin b => decide (a < b)
  | .negInf, .negInf => false
  | .negInf, _ => true
  | _, .negInf => false
  | .posInf, _ => false
  | _, .posInf => true

/-- Binary64 `==`. -/
def F64.eq : F64 → F64 → Bool
  | .nan, _ => false
  | _, .nan => false
  | a, b => decide (a = b)

/-- The arithmetic of Go's `float64`. -/
def binary64 : Arith F64 where
  zero := .fin 0
  one := F64.ofRat 1 1
  add := F64.add
  sub := F64.sub
  mul := F64.mul
  div := F64.div
  sqrt := F64.sqrt
  sq := F64.sq
  lt := F64.lt
  eq := F64.eq

/-- The real number a finite `float64` stands for (`0` for the infinities and NaN). -/
def F64.toReal : F64 → ℝ
  | .fin m => (m : ℝ) / 2 ^ 1074
  | _ => 0

namespace Generic

/-- Go `Vector3` over the scalars `S`. -/
structure Vector3 (S : Type) where
  x : S
  y : S
  z : S
deriving DecidableEq

/-- Go `Cube` over the scalars `S`. -/
structure Cube (S : Type) where
  position : Vector3 S
  surfaceColour : RGBA
  xLen : S
  yLen : S
  zLen : S
deriving DecidableEq

/-- Go `Sphere` over the scalars `S`. -/
structure Sphere (S : Type) where
  centre : Vector3 S
  a : S
  b : S
  c : S
  surfaceColour : RGBA
deriving DecidableEq

/-- Go interface `Object` with its two implementations. -/
inductive Object (S : Type) where
  | cube (c : Cube S)
  | sphere (s : Sphere S)
deriving DecidableEq

/-- Go `Light`. -/
structure Light (S : Type) where
  position : Vector3 S

/-- Go `Scene`. -/
structure Scene (S : Type) where
  objects : List (Object S)
  light : Light S

/-- Go `Vector3.Add`. -/
def Vector3.Add {S : Type} (A : Arith S) (vec vec2 : Vector3 S) : Vector3 S :=
  ⟨A.add vec.x vec2.x, A.add vec.y vec2.y, A.add vec.z vec2.z⟩

/-- Go `Vector3.Scale`. -/
def Vector3.Scale {S : Type} (A : Arith S) (vec : Vector3 S) (scalar : S) : Vector3 S :=
  ⟨A.mul vec.x scalar, A.mul vec.y scalar, A.mul vec.z scalar⟩

/-- Go `Vector3.Magnitude`. -/
def Vector3.Magnitude {S : Type} (A : Arith S) (vec : Vector3 S) : S :=
  A.sqrt (A.add (A.add (A.sq vec.x) (A.sq vec.y)) (A.sq vec.z))

/-- Go `Vector3.Normalise`. -/
def Vector3.Normalise {S : Type} (A : Arith S) (vec : Vector3 S) : Vector3 S :=
  Vector3.Scale A vec (A.div A.one (Vector3.Magnitude A vec))

/-- Go `Cube.CheckIfInside`. -/
def Cube.CheckIfInside {S : Type} (A : Arith S) (c : Cube S) (point : Vector3 S) : Bool :=
  if A.lt c.position.x point.x = true ∧ A.lt point.x (A.add c.position.x c.xLen) = true ∧
      A.lt c.position.y point.y = true ∧ A.lt point.y (A.add c.position.y c.yLen) = true ∧
      A.lt c.position.z point.z = true ∧ A.lt point.z (A.add c.position.z c.zLen) = true then
    true
  else
    false

/-- Go `Sphere.CheckIfInside`. -/
def Sphere.CheckIfInside {S : Type} (A : Arith S) (s : Sphere S) (p : Vector3 S) : Bool :=
  if A.lt
      (A.add
        (A.add (A.sq (A.div (A.sub p.x s.centre.x) s.a))
          (A.sq (A.div (A.sub p.y s.centre.y) s.b)))
        (A.sq (A.div (A.sub p.z s.centre.z) s.c)))
      A.one = true then
    true
  else
    false

/-- Interface dispatch of `CheckIfInside`. -/
def Object.CheckIfInside {S : Type} (A : Arith S) : Object S → Vector3 S → Bool
  | .cube c, p => Cube.CheckIfInside A c p
  | .sphere s, p => Sphere.CheckIfInside A s p

/-- The inner loop of `Raycast` from the current index on. -/
def scanObjects {S : Type} (A : Arith S) : List (Object S) → Vector3 S → Option (Object S)
  | [], _ => none
  | o :: rest, rayPosition =>
    if Object.CheckIfInside A o rayPosition then some o else scanObjects A rest rayPosition

/-- The outer loop of Go `Raycast` with a fuel for the evaluations of the loop condition and
a counter `n` of the march increments performed so far. -/
def RaycastLoopCount {S : Type} (A : Arith S) (direction : Vector3 S) (distance : S)
    (scene : Scene S) (step initalstep : S) :
    Nat → S → Vector3 S → Nat → Option ((Bool × Option (Object S) × Vector3 S) × Nat)
  | 0, _, _, _ => none
  | fuel + 1, x, rayPosition, n =>
    if A.lt x distance then
      let tStep : S := if A.eq x A.zero then initalstep else step
      let rayPosition :=
        Vector3.Add A rayPosition (Vector3.Scale A (Vector3.Normalise A direction) tStep)
      match scanObjects A scene.objects rayPosition with
      | some o => some ((true, some o, rayPosition), n + 1)
      | none =>
        RaycastLoopCount A direction distance scene step initalstep fuel (A.add x step)
          rayPosition (n + 1)
    else
      some ((false, none, ⟨A.zero, A.zero, A.zero⟩), n)

/-- Go `Raycast` together with the number of march increments it performed. -/
def RaycastCount {S : Type} (A : Arith S) (fuel : Nat) (origin direction : Vector3 S)
    (distance : S) (scene : Scene S) (step initalstep : S) :
    Option ((Bool × Option (Object S) × Vector3 S) × Nat) :=
  RaycastLoopCount A direction distance scene step initalstep fuel A.zero origin 0

/-- Go `Raycast`: the triple `RaycastCount` returns. -/
def Raycast {S : Type} (A : Arith S) (fuel : Nat) (origin direction : Vector3 S)
    (distance : S) (scene : Scene S) (step initalstep : S) :
    Option (Bool × Option (Object S) × Vector3 S) :=
  (RaycastCount A fuel origin direction distance scene step initalstep).map Prod.fst

/-- The loop variable `x` of `Raycast` at the start of round `k`: `0`, then `step` added once
per round, as the code accumulates it. -/
def loopVariable {S : Type} (A : Arith S) (step : S) : Nat → S
  | 0 => A.zero
  | k + 1 => A.add (loopVariable A step k) step

/-- The ray position after `k` rounds of `Raycast`: the origin, then one increment added per
round as the code accumulates it, the increment being the initial step when the loop variable
equals `0` and the step otherwise. -/
def rayPositionAfter {S : Type} (A : Arith S) (origin direction : Vector3 S)
    (step initalstep : S) : Nat → Vector3 S
  | 0 => origin
  | k + 1 =>
    Vector3.Add A (rayPositionAfter A origin direction step initalstep k)
      (Vector3.Scale A (Vector3.Normalise A direction)
        (if A.eq (loopVariable A step k) A.zero then initalstep else step))

/-- The position `Raycast` tests in round `k` (counted from `0`). -/
def testedPosition {S : Type} (A : Arith S) (origin direction : Vector3 S)
    (step initalstep : S) (k : Nat) : Vector3 S :=
  rayPositionAfter A origin direction step initalstep (k + 1)

end Generic

namespace Generic

/-- A `float64` vector read as a vector of real numbers. -/
def Vector3.toReal (v : Vector3 F64) : RayMarch.Vector3 :=
  ⟨v.x.toReal, v.y.toReal, v.z.toReal⟩

/-- A `float64` cube read as a cube over the reals. -/
def Cube.toReal (c : Cube F64) : RayMarch.Cube :=
  ⟨c.position.toReal, c.surfaceColour, c.xLen.toReal, c.yLen.toReal, c.zLen.toReal⟩

/-- A `float64` sphere read as a sphere over the reals. -/
def Sphere.toReal (s : Sphere F64) : RayMarch.Sphere :=
  ⟨s.centre.toReal, s.a.toReal, s.b.toReal, s.c.toReal, s.surfaceColour⟩

/-- A `float64` object read as an object over the reals. -/
def Object.toReal : Object F64 → RayMarch.Object
  | .cube c => .cube c.toReal
  | .sphere s => .sphere s.toReal

/-- A `float64` scene read as a scene over the reals. -/
def Scene.toReal (s : Scene F64) : RayMarch.Scene :=
  ⟨s.objects.map Object.toReal, ⟨s.light.position.toReal⟩⟩

/-- The `float64` origin `(0,0,0)`. -/
def floatOrigin : Vector3 F64 := ⟨.fin 0, .fin 0, .fin 0⟩

/-- The `float64` direction `(0,0,1)`. -/
def floatZAxis : Vector3 F64 := ⟨.fin 0, .fin 0, F64.ofRat 1 1⟩

/-- A `float64` cube spanning `z` from `1.05` to `1.05 + 0.1` around the `z` axis. -/
def tenthCube : Cube F64 :=
  ⟨⟨F64.ofRat (-1) 1, F64.ofRat (-1) 1, F64.ofRat 105 100⟩, ⟨0, 255, 0, 255⟩,
    F64.ofRat 2 1, F64.ofRat 2 1, F64.ofRat 1 10⟩

/-- The scene of `tenthCube`. -/
def tenthScene : Scene F64 := ⟨[.cube tenthCube], ⟨⟨.fin 0, .fin 0, F64.ofRat (-3) 1⟩⟩⟩

/-- A `float64` scene without objects. -/
def emptyScene : Scene F64 := ⟨[], ⟨⟨.fin 0, .fin 0, F64.ofRat (-3) 1⟩⟩⟩

/-- A `float64` cube spanning `(-1, 1)` on every axis. -/
def centredCube : Cube F64 :=
  ⟨⟨F64.ofRat (-1) 1, F64.ofRat (-1) 1, F64.ofRat (-1) 1⟩, ⟨0, 255, 0, 255⟩,
    F64.ofRat 2 1, F64.ofRat 2 1, F64.ofRat 2 1⟩

/-- The scene of `centredCube`. -/
def centredScene : Scene F64 := ⟨[.cube centredCube], ⟨⟨.fin 0, .fin 0, F64.ofRat (-3) 1⟩⟩⟩

/-- A `float64` cube spanning `z` from `3` to `5` around the `z` axis. -/
def farFloatCube : Cube F64 :=
  ⟨⟨F64.ofRat (-1) 1, F64.ofRat (-1) 1, F64.ofRat 3 1⟩, ⟨0, 255, 0, 255⟩,
    F64.ofRat 2 1, F64.ofRat 2 1, F64.ofRat 2 1⟩

/-- The scene of `farFloatCube`. -/
def farFloatScene : Scene F64 := ⟨[.cube farFloatCube], ⟨⟨.fin 0, .fin 0, F64.ofRat (-3) 1⟩⟩⟩

/-- The `float64` sphere of radius `7` around the origin. -/
def sevenSphere : Sphere F64 :=
  ⟨⟨.fin 0, .fin 0, .fin 0⟩, F64.ofRat 7 1, F64.ofRat 7 1, F64.ofRat 7 1, ⟨0, 0, 255, 255⟩⟩

end Generic

/-- The values `+Inf` and NaN. -/
def F64.IsTop (x : F64) : Prop := x = .posInf ∨ x = .nan

/-- The values `+Inf`, NaN and the finite values that are not negative. -/
def F64.IsNonNeg (x : F64) : Prop := x = .posInf ∨ x = .nan ∨ ∃ u : Nat, x = .fin (u : ℤ)

namespace Generic

/-- Go `Vector3.Dot`. -/
def Vector3.Dot {S : Type} (A : Arith S) (vec vec2 : Vector3 S) : S :=
  A.add (A.add (A.mul vec.x vec2.x) (A.mul vec.y vec2.y)) (A.mul vec.z vec2.z)

/-- A `float64` sphere around the origin whose semi-axis `a` is `0`. -/
def zeroAxisSphere : Sphere F64 :=
  ⟨⟨.fin 0, .fin 0, .fin 0⟩, .fin 0, F64.ofRat 1 1, F64.ofRat 1 1, ⟨0, 0, 255, 255⟩⟩

/-- The `float64` vector of three NaN components. -/
def nanVector : Vector3 F64 := ⟨.nan, .nan, .nan⟩

end Generic

/-- The values `+Inf`, NaN and the finite values from `0` up to the overflow bound. -/
def F64.IsBounded (x : F64) : Prop :=
  x = .posInf ∨ x = .nan ∨ ∃ u : Nat, x = .fin (u : ℤ) ∧ u < 2 ^ 2098

/-- The values `+Inf`, NaN and the finite values from `0` up to the overflow bound that, when
below `1` (`2^1074` units), are at most `1 - 2^-53` (`2^1074 - 2^1021` units), the largest
`float64` below `1`. -/
def F64.IsRounded (x : F64) : Prop :=
  x = .posInf ∨ x = .nan ∨
    ∃ u : Nat, x = .fin (u : ℤ) ∧ u < 2 ^ 2098 ∧ (u < 2 ^ 1074 → u + 2 ^ 1021 ≤ 2 ^ 1074)

/-! ## Lemmas on the inner loop -/

theorem scanObjects_eq_find (objs : List Object) (p : Vector3) :
    scanObjects objs p = objs.find? (fun o => o.CheckIfInside p) := by
  induction objs with
  | nil => rfl
  | cons o rest ih =>
    by_cases h : o.CheckIfInside p = true
    · simp [scanObjects, List.find?, h]
    · simp [scanObjects, List.find?, h, ih]

theorem scanObjects_some_index (objs : List Object) (p : Vector3) (o : Object)
    (h : scanObjects objs p = some o) :
    ∃ i : Nat, objs[i]? = some o ∧ o.CheckIfInside p = true ∧
      ∀ j : Nat, j < i → ∀ o2 : Object, objs[j]? = some o2 → o2.CheckIfInside p = false := by
  induction objs with
  | nil => simp [scanObjects] at h
  | cons a rest ih =>
    by_cases ha : a.CheckIfInside p = true
    · simp only [scanObjects, ha, if_true, Option.some.injEq] at h
      subst h
      exact ⟨0, by simp, ha, fun j hj => absurd hj (Nat.not_lt_zero j)⟩
    · simp only [scanObjects, ha] at h
      obtain ⟨i, hi, hin, hlt⟩ := ih h
      refine ⟨i + 1, by simpa using hi, hin, ?_⟩
      intro j hj o2 ho2
      cases j with
      | zero =>
        simp only [List.getElem?_cons_zero, Option.some.injEq] at ho2
        subst ho2
        simpa using ha
      | succ j =>
        simp only [List.getElem?_cons_succ] at ho2
        exact hlt j (Nat.lt_of_succ_lt_succ hj) o2 ho2

theorem scanObjects_none_iff (objs : List Object) (p : Vector3) :
    scanObjects objs p = none ↔ ∀ o, o ∈ objs → o.CheckIfInside p = false := by
  induction objs with
  | nil => simp [scanObjects]
  | cons a rest ih =>
    by_cases ha : a.CheckIfInside p = true
    · simp [scanObjects, ha]
    · simp [scanObjects, ha, ih]

theorem scanObjects_isSome_iff (objs : List Object) (p : Vector3) :
    (scanObjects objs p).isSome = true ↔ ∃ o, o ∈ objs ∧ o.CheckIfInside p = true := by
  rw [← Option.ne_none_iff_isSome, Ne, scanObjects_none_iff]
  push_neg
  simp

/-! ## Lemmas on the outer loop -/

theorem add_scale_add_scale (pos u : Vector3) (a b : ℝ) :
    (pos.Add (u.Scale a)).Add (u.Scale b) = pos.Add (u.Scale (a + b)) := by
  ext <;> simp [Vector3.Add, Vector3.Scale] <;> ring

/-- The loop condition fails: the function returns the miss triple. -/
theorem RaycastLoop_stop (direction : Vector3) (distance : ℝ) (scene : Scene)
    (step initalstep : ℝ) (fuel : Nat) (x : ℝ) (pos : Vector3) (hx : ¬ x < distance) :
    RaycastLoop direction distance scene step initalstep (fuel + 1) x pos =
      some (false, none, ⟨0, 0, 0⟩) := by
  rw [RaycastLoop]
  simp [hx]

/-- The loop condition holds and the inner loop finds an object: the function returns it. -/
theorem RaycastLoop_found (direction : Vector3) (distance : ℝ) (scene : Scene)
    (step initalstep : ℝ) (fuel : Nat) (x : ℝ) (pos : Vector3) (o : Object) (hx : x < distance)
    (ho : scanObjects scene.objects
      (pos.Add (direction.Normalise.Scale (if x = 0 then initalstep else step))) = some o) :
    RaycastLoop direction distance scene step initalstep (fuel + 1) x pos =
      some (true, some o,
        pos.Add (direction.Normalise.Scale (if x = 0 then initalstep else step))) := by
  rw [RaycastLoop]
  simp only [hx, if_true, ho]

/-- The loop condition holds and the inner loop finds nothing: the loop goes round. -/
theorem RaycastLoop_next (direction : Vector3) (distance : ℝ) (scene : Scene)
    (step initalstep : ℝ) (fuel : Nat) (x : ℝ) (pos : Vector3) (hx : x < distance)
    (ho : scanObjects scene.objects
      (pos.Add (direction.Normalise.Scale (if x = 0 then initalstep else step))) = none) :
    RaycastLoop direction distance scene step initalstep (fuel + 1) x pos =
      RaycastLoop direction distance scene step initalstep fuel (x + step)
        (pos.Add (direction.Normalise.Scale (if x = 0 then initalstep else step))) := by
  rw [RaycastLoop]
  simp only [hx, if_true, ho]

/-- The three ways one round of the loop can go. -/
theorem RaycastLoop_cases (direction : Vector3) (distance : ℝ) (scene : Scene)
    (step initalstep : ℝ) (fuel : Nat) (x : ℝ) (pos : Vector3) :
    (¬ x < distance ∧
      RaycastLoop direction distance scene step initalstep (fuel + 1) x pos =
        some (false, none, ⟨0, 0, 0⟩)) ∨
    (x < distance ∧ ∃ o, scanObjects scene.objects
        (pos.Add (direction.Normalise.Scale (if x = 0 then initalstep else step))) = some o ∧
      RaycastLoop direction distance scene step initalstep (fuel + 1) x pos =
        some (true, some o,
          pos.Add (direction.Normalise.Scale (if x = 0 then initalstep else step)))) ∨
    (x < distance ∧ scanObjects scene.objects
        (pos.Add (direction.Normalise.Scale (if x = 0 then initalstep else step))) = none ∧
      RaycastLoop direction distance scene step initalstep (fuel + 1) x pos =
        RaycastLoop direction distance scene step initalstep fuel (x + step)
          (pos.Add (direction.Normalise.Scale (if x = 0 then initalstep else step)))) := by
  by_cases hx : x < distance
  · cases ho : scanObjects scene.objects
        (pos.Add (direction.Normalise.Scale (if x = 0 then initalstep else step))) with
    | none => exact Or.inr (Or.inr ⟨hx, rfl, RaycastLoop_next _ _ _ _ _ _ _ _ hx ho⟩)
    | some o => exact Or.inr (Or.inl ⟨hx, o, rfl, RaycastLoop_found _ _ _ _ _ _ _ _ o hx ho⟩)
  · exact Or.inl ⟨hx, RaycastLoop_stop _ _ _ _ _ _ _ _ hx⟩

/-- Whatever the fuel and the entry state, a returned hit carries the object found by the
inner loop at the returned position. -/
theorem RaycastLoop_hit (direction : Vector3) (distance : ℝ) (scene : Scene)
    (step initalstep : ℝ) (fuel : Nat) :
    ∀ (x : ℝ) (pos : Vector3) (ob : Option Object) (p : Vector3),
      RaycastLoop direction distance scene step initalstep fuel x pos = some (true, ob, p) →
      ob.isSome = true ∧ scanObjects scene.objects p = ob := by
  induction fuel with
  | zero => intro x pos ob p h; simp [RaycastLoop] at h
  | succ n ih =>
    intro x pos ob p h
    rcases RaycastLoop_cases direction distance scene step initalstep n x pos with
      ⟨_, e⟩ | ⟨_, o, ho, e⟩ | ⟨_, _, e⟩
    · rw [e] at h; simp at h
    · rw [e] at h
      simp only [Option.some.injEq, Prod.mk.injEq, true_and] at h
      obtain ⟨h1, h2⟩ := h
      subst h1 h2
      exact ⟨rfl, ho⟩
    · rw [e] at h
      exact ih _ _ _ _ h

/-- Whatever the fuel and the entry state, a returned miss is `(false, nil, (0,0,0))`. -/
theorem RaycastLoop_miss (direction : Vector3) (distance : ℝ) (scene : Scene)
    (step initalstep : ℝ) (fuel : Nat) :
    ∀ (x : ℝ) (pos : Vector3) (ob : Option Object) (p : Vector3),
      RaycastLoop direction distance scene step initalstep fuel x pos = some (false, ob, p) →
      ob = none ∧ p = ⟨0, 0, 0⟩ := by
  induction fuel with
  | zero => intro x pos ob p h; simp [RaycastLoop] at h
  | succ n ih =>
    intro x pos ob p h
    rcases RaycastLoop_cases direction distance scene step initalstep n x pos with
      ⟨_, e⟩ | ⟨_, o, ho, e⟩ | ⟨_, _, e⟩
    · rw [e] at h
      simp only [Option.some.injEq, Prod.mk.injEq, true_and] at h
      exact ⟨h.1.symm, h.2.symm⟩
    · rw [e] at h; simp at h
    · rw [e] at h
      exact ih _ _ _ _ h

/-- More fuel does not change a result. -/
theorem RaycastLoop_fuel_succ (direction : Vector3) (distance : ℝ) (scene : Scene)
    (step initalstep : ℝ) (fuel : Nat) :
    ∀ (x : ℝ) (pos : Vector3) (r : Bool × Option Object × Vector3),
      RaycastLoop direction distance scene step initalstep fuel x pos = some r →
      RaycastLoop direction distance scene step initalstep (fuel + 1) x pos = some r := by
  induction fuel with
  | zero => intro x pos r h; simp [RaycastLoop] at h
  | succ n ih =>
    intro x pos r h
    rcases RaycastLoop_cases direction distance scene step initalstep n x pos with
      ⟨hx, e⟩ | ⟨hx, o, ho, e⟩ | ⟨hx, ho, e⟩
    · rw [e] at h
      rw [RaycastLoop_stop _ _ _ _ _ _ _ _ hx]
      exact h
    · rw [e] at h
      rw [RaycastLoop_found _ _ _ _ _ _ _ _ o hx ho]
      exact h
    · rw [e] at h
      rw [RaycastLoop_next _ _ _ _ _ _ _ _ hx ho]
      exact ih _ _ _ h

theorem RaycastLoop_fuel_mono (direction : Vector3) (distance : ℝ) (scene : Scene)
    (step initalstep : ℝ) (fuel fuel2 : Nat) (hle : fuel ≤ fuel2) (x : ℝ) (pos : Vector3)
    (r : Bool × Option Object × Vector3)
    (h : RaycastLoop direction distance scene step initalstep fuel x pos = some r) :
    RaycastLoop direction distance scene step initalstep fuel2 x pos = some r := by
  induction hle with
  | refl => exact h
  | step _ ih => exact RaycastLoop_fuel_succ _ _ _ _ _ _ _ _ _ ih

/-- The result of a call does not depend on the fuel that was enough for it. -/
theorem RaycastReturns_unique (origin direction : Vector3) (distance : ℝ) (scene : Scene)
    (step initalstep : ℝ) (r r2 : Bool × Option Object × Vector3)
    (h : RaycastReturns origin direction distance scene step initalstep r)
    (h2 : RaycastReturns origin direction distance scene step initalstep r2) : r = r2 := by
  obtain ⟨f, hf⟩ := h
  obtain ⟨f2, hf2⟩ := h2
  have a := RaycastLoop_fuel_mono _ _ _ _ _ f (max f f2) (le_max_left _ _) _ _ _ hf
  have b := RaycastLoop_fuel_mono _ _ _ _ _ f2 (max f f2) (le_max_right _ _) _ _ _ hf2
  rw [a] at b
  exact Option.some.inj b

/-- The loop entered with `x > 0` (so every further increment is `step`): a hit is the first
of the points `pos + (j+1)·step·u` with `x + j·step < distance` that some object contains, and
a miss means that none of them is contained. -/
theorem RaycastLoop_tail (direction : Vector3) (distance : ℝ) (scene : Scene)
    (step initalstep : ℝ) (hstep : 0 < step) (fuel : Nat) :
    ∀ (x : ℝ) (pos : Vector3) (r : Bool × Option Object × Vector3), 0 < x →
      RaycastLoop direction distance scene step initalstep fuel x pos = some r →
      (∃ j : Nat, x + (j : ℝ) * step < distance ∧
        (∃ o, scanObjects scene.objects
            (pos.Add (direction.Normalise.Scale (((j : ℝ) + 1) * step))) = some o ∧
          r = (true, some o, pos.Add (direction.Normalise.Scale (((j : ℝ) + 1) * step)))) ∧
        ∀ i : Nat, i < j → scanObjects scene.objects
          (pos.Add (direction.Normalise.Scale (((i : ℝ) + 1) * step))) = none) ∨
      (r = (false, none, ⟨0, 0, 0⟩) ∧
        ∀ j : Nat, x + (j : ℝ) * step < distance → scanObjects scene.objects
          (pos.Add (direction.Normalise.Scale (((j : ℝ) + 1) * step))) = none) := by
  induction fuel with
  | zero => intro x pos r _ h; simp [RaycastLoop] at h
  | succ n ih =>
    intro x pos r hx0 h
    have hne : x ≠ 0 := ne_of_gt hx0
    have hP : ∀ j : Nat,
        (pos.Add (direction.Normalise.Scale step)).Add
            (direction.Normalise.Scale (((j : ℝ) + 1) * step)) =
          pos.Add (direction.Normalise.Scale ((((j + 1 : Nat) : ℝ) + 1) * step)) := by
      intro j
      rw [add_scale_add_scale]
      congr 2
      push_cast
      ring
    have hP0 : pos.Add (direction.Normalise.Scale step) =
        pos.Add (direction.Normalise.Scale ((((0 : Nat) : ℝ) + 1) * step)) := by
      congr 2
      push_cast
      ring
    rcases RaycastLoop_cases direction distance scene step initalstep n x pos with
      ⟨hx, e⟩ | ⟨hx, o, ho, e⟩ | ⟨hx, ho, e⟩
    · rw [e] at h
      refine Or.inr ⟨(Option.some.inj h).symm, ?_⟩
      intro j hj
      exfalso
      have : 0 ≤ (j : ℝ) * step := mul_nonneg (Nat.cast_nonneg j) hstep.le
      linarith
    · rw [e] at h
      simp only [hne, if_false] at h ho
      refine Or.inl ⟨0, by simpa using hx, ⟨o, ?_, ?_⟩, fun i hi => absurd hi (Nat.not_lt_zero i)⟩
      · rw [← hP0]; exact ho
      · rw [← hP0]; exact (Option.some.inj h).symm
    · rw [e] at h
      simp only [hne, if_false] at h ho
      rcases ih (x + step) _ r (by linarith) h with ⟨j, hj, ⟨o, hso, hr⟩, hbefore⟩ | ⟨hr, hall⟩
      · refine Or.inl ⟨j + 1, ?_, ⟨o, ?_, ?_⟩, ?_⟩
        · push_cast; linarith
        · rw [← hP]; exact hso
        · rw [← hP]; exact hr
        · intro i hi
          cases i with
          | zero => rw [← hP0]; exact ho
          | succ i => rw [← hP]; exact hbefore i (Nat.lt_of_succ_lt_succ hi)
      · refine Or.inr ⟨hr, ?_⟩
        intro j hj
        cases j with
        | zero => rw [← hP0]; exact ho
        | succ j =>
          rw [← hP]
          apply hall j
          push_cast at hj
          linarith

/-- With a positive step a call that returns is described by the sample points: a hit is
reported at the first sample `k` (with `k·step < distance`) that some object contains, and a
miss means that no such sample is contained. -/
theorem Raycast_samples (origin direction : Vector3) (distance : ℝ) (scene : Scene)
    (step initalstep : ℝ) (hstep : 0 < step) (fuel : Nat) (r : Bool × Option Object × Vector3)
    (h : Raycast fuel origin direction distance scene step initalstep = some r) :
    (∃ k : Nat, (k : ℝ) * step < distance ∧
      (∃ o, scanObjects scene.objects (samplePoint origin direction step initalstep k) = some o ∧
        r = (true, some o, samplePoint origin direction step initalstep k)) ∧
      ∀ i : Nat, i < k →
        scanObjects scene.objects (samplePoint origin direction step initalstep i) = none) ∨
    (r = (false, none, ⟨0, 0, 0⟩) ∧
      ∀ k : Nat, (k : ℝ) * step < distance →
        scanObjects scene.objects (samplePoint origin direction step initalstep k) = none) := by
  unfold Raycast at h
  cases fuel with
  | zero => simp [RaycastLoop] at h
  | succ n =>
    have hQ0 : origin.Add (direction.Normalise.Scale initalstep) =
        samplePoint origin direction step initalstep 0 := by
      unfold samplePoint
      congr 2
      push_cast
      ring
    have hQ : ∀ j : Nat,
        (origin.Add (direction.Normalise.Scale initalstep)).Add
            (direction.Normalise.Scale (((j : ℝ) + 1) * step)) =
          samplePoint origin direction step initalstep (j + 1) := by
      intro j
      unfold samplePoint
      rw [add_scale_add_scale]
      congr 2
      push_cast
      ring
    rcases RaycastLoop_cases direction distance scene step initalstep n 0 origin with
      ⟨hx, e⟩ | ⟨hx, o, ho, e⟩ | ⟨hx, ho, e⟩
    · rw [e] at h
      refine Or.inr ⟨(Option.some.inj h).symm, ?_⟩
      intro k hk
      exfalso
      have : 0 ≤ (k : ℝ) * step := mul_nonneg (Nat.cast_nonneg k) hstep.le
      linarith
    · rw [e] at h
      simp only [if_true] at h ho
      refine Or.inl ⟨0, by simpa using hx, ⟨o, ?_, ?_⟩, fun i hi => absurd hi (Nat.not_lt_zero i)⟩
      · rw [← hQ0]; exact ho
      · rw [← hQ0]; exact (Option.some.inj h).symm
    · rw [e] at h
      simp only [if_true] at h ho
      rcases RaycastLoop_tail direction distance scene step initalstep hstep n (0 + step) _ r
          (by linarith) h with ⟨j, hj, ⟨o, hso, hr⟩, hbefore⟩ | ⟨hr, hall⟩
      · refine Or.inl ⟨j + 1, ?_, ⟨o, ?_, ?_⟩, ?_⟩
        · push_cast; linarith
        · rw [← hQ]; exact hso
        · rw [← hQ]; exact hr
        · intro i hi
          cases i with
          | zero => rw [← hQ0]; exact ho
          | succ i => rw [← hQ]; exact hbefore i (Nat.lt_of_succ_lt_succ hi)
      · refine Or.inr ⟨hr, ?_⟩
        intro k hk
        cases k with
        | zero => rw [← hQ0]; exact ho
        | succ k =>
          rw [← hQ]
          apply hall k
          push_cast at hk
          linarith

/-- With a positive step the loop returns once the fuel exceeds the number of rounds left. -/
theorem RaycastLoop_returns (direction : Vector3) (distance : ℝ) (scene : Scene)
    (step initalstep : ℝ) (n : Nat) :
    ∀ (fuel : Nat) (x : ℝ) (pos : Vector3), distance ≤ x + (n : ℝ) * step → n < fuel →
      ∃ r, RaycastLoop direction distance scene step initalstep fuel x pos = some r := by
  induction n with
  | zero =>
    intro fuel x pos hd hf
    obtain ⟨m, rfl⟩ : ∃ m, fuel = m + 1 := ⟨fuel - 1, by omega⟩
    have hx : ¬ x < distance := by
      simp only [Nat.cast_zero, zero_mul, add_zero] at hd
      exact not_lt.mpr hd
    exact ⟨_, RaycastLoop_stop _ _ _ _ _ _ _ _ hx⟩
  | succ n ih =>
    intro fuel x pos hd hf
    obtain ⟨m, rfl⟩ : ∃ m, fuel = m + 1 := ⟨fuel - 1, by omega⟩
    rcases RaycastLoop_cases direction distance scene step initalstep m x pos with
      ⟨_, e⟩ | ⟨_, o, _, e⟩ | ⟨_, _, e⟩
    · exact ⟨_, e⟩
    · exact ⟨_, e⟩
    · rw [e]
      apply ih
      · push_cast at hd
        linarith
      · omega

/-- With a positive step `Raycast` returns: fuel `⌈distance / step⌉ + 1` is enough. -/
theorem Raycast_returns (origin direction : Vector3) (distance : ℝ) (scene : Scene)
    (step initalstep : ℝ) (hstep : 0 < step) (fuel : Nat)
    (hfuel : Nat.ceil (distance / step) < fuel) :
    ∃ r, Raycast fuel origin direction distance scene step initalstep = some r := by
  unfold Raycast
  apply RaycastLoop_returns direction distance scene step initalstep (Nat.ceil (distance / step))
  · have h1 : distance / step ≤ (Nat.ceil (distance / step) : ℝ) := Nat.le_ceil _
    have h2 : distance ≤ (Nat.ceil (distance / step) : ℝ) * step := by
      rwa [div_le_iff₀ hstep] at h1
    linarith
  · exact hfuel

/-- With a positive step, if no object contains any sample point `k` with
`k·step < distance`, the call returns the miss triple. -/
theorem Raycast_miss_of_samples (scene : Scene) (origin direction : Vector3)
    (distance step initalstep : ℝ) (hstep : 0 < step)
    (hnone : ∀ k : Nat, (k : ℝ) * step < distance → ∀ o, o ∈ scene.objects →
      o.CheckIfInside (samplePoint origin direction step initalstep k) = false) :
    RaycastReturns origin direction distance scene step initalstep
      (false, none, ⟨0, 0, 0⟩) := by
  obtain ⟨r, hr⟩ := Raycast_returns origin direction distance scene step initalstep hstep
    (Nat.ceil (distance / step) + 1) (Nat.lt_succ_self _)
  rcases Raycast_samples origin direction distance scene step initalstep hstep _ r hr with
    ⟨k, hk, ⟨o, hso, _⟩, _⟩ | ⟨hmiss, _⟩
  · exfalso
    have hnone2 := (scanObjects_none_iff _ _).mpr (hnone k hk)
    rw [hnone2] at hso
    simp at hso
  · subst hmiss
    exact ⟨_, hr⟩

/-! ## Containment tests (C5, C6) -/

/-- C5: a cube contains a point exactly when the point is strictly between the minimum corner
and the minimum corner plus the extent on each of the three axes (six strict inequalities); a
point on a face is outside; for the cube at the origin with extents 2 the points `(0,0,0)` and
`(2,2,2)` are outside and `(1,1,1)` is inside. -/
theorem cube_inside_iff_strict (c : Cube) (p : Vector3) :
    (c.CheckIfInside p = true ↔
      (c.position.x < p.x ∧ p.x < c.position.x + c.xLen) ∧
      (c.position.y < p.y ∧ p.y < c.position.y + c.yLen) ∧
      (c.position.z < p.z ∧ p.z < c.position.z + c.zLen)) ∧
    ((p.x = c.position.x ∨ p.x = c.position.x + c.xLen ∨
      p.y = c.position.y ∨ p.y = c.position.y + c.yLen ∨
      p.z = c.position.z ∨ p.z = c.position.z + c.zLen) → c.CheckIfInside p = false) ∧
    (∀ col : RGBA, (testCube col).CheckIfInside ⟨0, 0, 0⟩ = false ∧
      (testCube col).CheckIfInside ⟨2, 2, 2⟩ = false ∧
      (testCube col).CheckIfInside ⟨1, 1, 1⟩ = true) := by
  refine ⟨?_, ?_, ?_⟩
  · unfold Cube.CheckIfInside
    constructor
    · intro h
      split_ifs at h with hc
      tauto
    · intro h
      rw [if_pos (by tauto)]
  · intro h
    unfold Cube.CheckIfInside
    rw [if_neg]
    rintro ⟨h1, h2, h3, h4, h5, h6⟩
    rcases h with h | h | h | h | h | h
    · rw [h] at h1; exact lt_irrefl _ h1
    · rw [h] at h2; exact lt_irrefl _ h2
    · rw [h] at h3; exact lt_irrefl _ h3
    · rw [h] at h4; exact lt_irrefl _ h4
    · rw [h] at h5; exact lt_irrefl _ h5
    · rw [h] at h6; exact lt_irrefl _ h6
  · intro col
    refine ⟨?_, ?_, ?_⟩ <;> simp [Cube.CheckIfInside, testCube]

/-- C5 at a concrete input: the point `(0,1,1)` lies on the minimum `x` face of the test cube
and is outside. -/
theorem cube_inside_iff_strict_witness :
    (testCube ⟨0, 255, 0, 255⟩).CheckIfInside ⟨0, 1, 1⟩ = false :=
  (cube_inside_iff_strict (testCube ⟨0, 255, 0, 255⟩) ⟨0, 1, 1⟩).2.1 (Or.inl rfl)

/-- C6: for a sphere with non-zero semi-axes `a`, `b`, `c`, a point is inside exactly when
`((p.x-centre.x)/a)² + ((p.y-centre.y)/b)² + ((p.z-centre.z)/c)² < 1`; a point where the sum is
`1` is outside; for the unit sphere at the origin `(0,0,0)` and `(0.99,0,0)` are inside and
`(1,0,0)` is outside. -/
theorem sphere_inside_iff_sum_lt_one (s : Sphere) (p : Vector3)
    (_ha : s.a ≠ 0) (_hb : s.b ≠ 0) (_hc : s.c ≠ 0) :
    (s.CheckIfInside p = true ↔
      ((p.x - s.centre.x) / s.a) ^ 2 + ((p.y - s.centre.y) / s.b) ^ 2 +
        ((p.z - s.centre.z) / s.c) ^ 2 < 1) ∧
    (((p.x - s.centre.x) / s.a) ^ 2 + ((p.y - s.centre.y) / s.b) ^ 2 +
        ((p.z - s.centre.z) / s.c) ^ 2 = 1 → s.CheckIfInside p = false) ∧
    (∀ col : RGBA, (testSphere col).CheckIfInside ⟨0, 0, 0⟩ = true ∧
      (testSphere col).CheckIfInside ⟨0.99, 0, 0⟩ = true ∧
      (testSphere col).CheckIfInside ⟨1, 0, 0⟩ = false) := by
  refine ⟨?_, ?_, ?_⟩
  · unfold Sphere.CheckIfInside
    constructor
    · intro h
      split_ifs at h with hc
      exact hc
    · intro h
      rw [if_pos h]
  · intro h
    unfold Sphere.CheckIfInside
    rw [if_neg]
    rw [h]
    exact lt_irrefl _
  · intro col
    refine ⟨?_, ?_, ?_⟩
    · simp [Sphere.CheckIfInside, testSphere]
    · simp only [Sphere.CheckIfInside, testSphere]
      norm_num
    · simp [Sphere.CheckIfInside, testSphere]

/-- C6 at a concrete input: the ellipsoid of the program's scene (centre `(0,1,0)`, semi-axes
`1, 1, 2`) contains the point `(0,1,1)`. -/
theorem sphere_inside_iff_sum_lt_one_witness :
    (⟨⟨0, 1, 0⟩, 1, 1, 2, ⟨0, 0, 255, 255⟩⟩ : Sphere).CheckIfInside ⟨0, 1, 1⟩ = true :=
  (sphere_inside_iff_sum_lt_one ⟨⟨0, 1, 0⟩, 1, 1, 2, ⟨0, 0, 255, 255⟩⟩ ⟨0, 1, 1⟩
    (by norm_num) (by norm_num) (by norm_num)).1.mpr (by norm_num)

/-! ## Matrix product (C9, C10) -/

/-- C9 fails on the code: the identity matrix has orthonormal rows, yet `Multiply` of the
identity with itself maps `(1,0,0)` to `(0,0,1)`, while applying the identity twice gives
`(1,0,0)`. -/
theorem multiply_identity_not_composition :
    identityMatrix.Orthonormal ∧
    (identityMatrix.Multiply identityMatrix).Transform ⟨1, 0, 0⟩ = ⟨0, 0, 1⟩ ∧
    identityMatrix.Transform (identityMatrix.Transform ⟨1, 0, 0⟩) = ⟨1, 0, 0⟩ ∧
    (identityMatrix.Multiply identityMatrix).Transform ⟨1, 0, 0⟩ ≠
      identityMatrix.Transform (identityMatrix.Transform ⟨1, 0, 0⟩) := by
  refine ⟨?_, ?_, ?_, ?_⟩
  · simp [Matrix.Orthonormal, identityMatrix, Vector3.Dot]
  · simp [Matrix.Multiply, Matrix.Transform, identityMatrix, Vector3.Dot]
  · simp [Matrix.Transform, identityMatrix, Vector3.Dot]
  · simp [Matrix.Multiply, Matrix.Transform, identityMatrix, Vector3.Dot]

/-- C10: `Multiply(m, m2)` fills one column only: the `x` component of row `i` is `m.r_i`
dotted with the third column of `m2`, and the `y` and `z` components of all rows are `0`;
hence `Rotate(thetaX, thetaY)` has zero second and third columns. -/
theorem multiply_only_first_column (m m2 : Matrix) :
    ((m.Multiply m2).r1.x = m.r1.Dot ⟨m2.r1.z, m2.r2.z, m2.r3.z⟩ ∧
      (m.Multiply m2).r2.x = m.r2.Dot ⟨m2.r1.z, m2.r2.z, m2.r3.z⟩ ∧
      (m.Multiply m2).r3.x = m.r3.Dot ⟨m2.r1.z, m2.r2.z, m2.r3.z⟩) ∧
    ((m.Multiply m2).r1.y = 0 ∧ (m.Multiply m2).r2.y = 0 ∧ (m.Multiply m2).r3.y = 0) ∧
    ((m.Multiply m2).r1.z = 0 ∧ (m.Multiply m2).r2.z = 0 ∧ (m.Multiply m2).r3.z = 0) ∧
    (∀ (c : Camera) (thetaX thetaY : ℝ),
      (c.Rotate thetaX thetaY = (c.RotateX thetaX).Multiply (c.RotateY thetaY)) ∧
      ((c.Rotate thetaX thetaY).r1.y = 0 ∧ (c.Rotate thetaX thetaY).r2.y = 0 ∧
        (c.Rotate thetaX thetaY).r3.y = 0) ∧
      ((c.Rotate thetaX thetaY).r1.z = 0 ∧ (c.Rotate thetaX thetaY).r2.z = 0 ∧
        (c.Rotate thetaX thetaY).r3.z = 0)) := by
  refine ⟨⟨rfl, rfl, rfl⟩, ⟨rfl, rfl, rfl⟩, ⟨rfl, rfl, rfl⟩, ?_⟩
  intro c thetaX thetaY
  exact ⟨rfl, ⟨rfl, rfl, rfl⟩, ⟨rfl, rfl, rfl⟩⟩

/-! ## Evaluation helpers for concrete rays -/

theorem normalise_zAxis : (⟨0, 0, 1⟩ : Vector3).Normalise = ⟨0, 0, 1⟩ := by
  simp [Vector3.Normalise, Vector3.Magnitude, Vector3.Scale]

theorem zAxis_ne_zero : (⟨0, 0, 1⟩ : Vector3) ≠ ⟨0, 0, 0⟩ := by
  intro h
  have hz := congrArg Vector3.z h
  norm_num at hz

/-- The first round of the march from the origin along the `z` axis with step `2` in
`overlapScene` returns the first cube of the list at `(0,0,2)`. -/
theorem overlapScene_raycast :
    Raycast 1 ⟨0, 0, 0⟩ ⟨0, 0, 1⟩ 50 overlapScene 2 2 =
      some (true, some (.cube farCube), ⟨0, 0, 2⟩) := by
  have hp : (⟨0, 0, 0⟩ : Vector3).Add
      ((⟨0, 0, 1⟩ : Vector3).Normalise.Scale (if (0 : ℝ) = 0 then 2 else 2)) = ⟨0, 0, 2⟩ := by
    rw [normalise_zAxis]
    simp [Vector3.Add, Vector3.Scale]
  have hs : scanObjects overlapScene.objects ⟨0, 0, 2⟩ = some (.cube farCube) := by
    simp only [overlapScene, scanObjects, Object.CheckIfInside, Cube.CheckIfInside, farCube]
    norm_num
  unfold Raycast
  rw [RaycastLoop_found _ _ _ _ _ _ _ _ (.cube farCube) (by norm_num) (by rw [hp]; exact hs), hp]

/-- The march from the origin along the `z` axis with distance `3` and step `2` in
`beyondScene` reports a hit at `(0,0,4)`, in its second round. -/
theorem beyondScene_raycast :
    Raycast 2 ⟨0, 0, 0⟩ ⟨0, 0, 1⟩ 3 beyondScene 2 2 =
      some (true, some (.cube beyondCube), ⟨0, 0, 4⟩) := by
  have hp : (⟨0, 0, 0⟩ : Vector3).Add
      ((⟨0, 0, 1⟩ : Vector3).Normalise.Scale (if (0 : ℝ) = 0 then 2 else 2)) = ⟨0, 0, 2⟩ := by
    rw [normalise_zAxis]
    simp [Vector3.Add, Vector3.Scale]
  have hp2 : (⟨0, 0, 2⟩ : Vector3).Add
      ((⟨0, 0, 1⟩ : Vector3).Normalise.Scale (if (0 : ℝ) + 2 = 0 then 2 else 2)) =
        ⟨0, 0, 4⟩ := by
    rw [normalise_zAxis]
    simp only [Vector3.Add, Vector3.Scale]
    norm_num
  have hs : scanObjects beyondScene.objects ⟨0, 0, 2⟩ = none := by
    simp only [beyondScene, scanObjects, Object.CheckIfInside, Cube.CheckIfInside, beyondCube]
    norm_num
  have hs2 : scanObjects beyondScene.objects ⟨0, 0, 4⟩ = some (.cube beyondCube) := by
    simp only [beyondScene, scanObjects, Object.CheckIfInside, Cube.CheckIfInside, beyondCube]
    norm_num
  unfold Raycast
  rw [RaycastLoop_next _ _ _ _ _ _ _ _ (by norm_num) (by rw [hp]; exact hs), hp,
    RaycastLoop_found _ _ _ _ _ _ _ _ (.cube beyondCube) (by norm_num) (by rw [hp2]; exact hs2),
    hp2]

/-! ## The ray marcher (C1 to C4) -/

/-- C1: whenever `Raycast` (non-zero direction, positive step) reports a hit with object `O`
at position `p`, `O` is the lowest-index object of the scene list that contains `p`: it is the
entry at some index `i`, it contains `p`, and no entry at an index below `i` contains `p`. -/
theorem raycast_hit_is_first_in_list (scene : Scene) (origin direction : Vector3)
    (distance step initalstep : ℝ) (_hdir : direction ≠ ⟨0, 0, 0⟩) (_hstep : 0 < step)
    (ob : Option Object) (p : Vector3)
    (h : RaycastReturns origin direction distance scene step initalstep (true, ob, p)) :
    ∃ O : Object, ob = some O ∧ ∃ i : Nat, scene.objects[i]? = some O ∧
      O.CheckIfInside p = true ∧
      ∀ j : Nat, j < i → ∀ o2 : Object, scene.objects[j]? = some o2 →
        o2.CheckIfInside p = false := by
  obtain ⟨fuel, hf⟩ := h
  obtain ⟨hsome, hscan⟩ := RaycastLoop_hit _ _ _ _ _ fuel _ _ _ _ hf
  obtain ⟨O, rfl⟩ := Option.isSome_iff_exists.mp hsome
  exact ⟨O, rfl, scanObjects_some_index _ _ _ hscan⟩

/-- C1 at a concrete input: in `overlapScene` the march along the `z` axis returns `farCube`,
first in the list, although `nearCube` also contains the hit point and starts nearer to the
origin. -/
theorem raycast_hit_is_first_in_list_witness :
    nearCube.CheckIfInside ⟨0, 0, 2⟩ = true ∧
    ∃ O : Object, some (Object.cube farCube) = some O ∧ ∃ i : Nat,
      overlapScene.objects[i]? = some O ∧ O.CheckIfInside ⟨0, 0, 2⟩ = true ∧
      ∀ j : Nat, j < i → ∀ o2 : Object, overlapScene.objects[j]? = some o2 →
        o2.CheckIfInside ⟨0, 0, 2⟩ = false :=
  ⟨by simp only [Cube.CheckIfInside, nearCube]; norm_num,
    raycast_hit_is_first_in_list overlapScene ⟨0, 0, 0⟩ ⟨0, 0, 1⟩ 50 2 2 zAxis_ne_zero
      (by norm_num) (some (.cube farCube)) ⟨0, 0, 2⟩ ⟨1, overlapScene_raycast⟩⟩

/-- The sampling of the march in exact real arithmetic (`float64` rounding left out): for a
non-zero direction and a positive step, with sample points
`q_k = origin + (s0 + k·step)·Normalise(d)`, `Raycast` returns, it reports a hit iff some `q_k`
with `k·step < distance` lies inside some scene object, and the position returned with a hit
is `q_k` for the least such `k` (no object contains an earlier sample); the first increment is
`s0` and every later increment is `step`. -/
theorem raycast_hit_iff_sample_inside (scene : Scene) (origin direction : Vector3)
    (distance step initalstep : ℝ) (_hdir : direction ≠ ⟨0, 0, 0⟩) (hstep : 0 < step) :
    (samplePoint origin direction step initalstep 0 =
        origin.Add (direction.Normalise.Scale initalstep) ∧
      ∀ k : Nat, samplePoint origin direction step initalstep (k + 1) =
        (samplePoint origin direction step initalstep k).Add (direction.Normalise.Scale step)) ∧
    ∃ r : Bool × Option Object × Vector3,
      RaycastReturns origin direction distance scene step initalstep r ∧
      (r.1 = true ↔ ∃ k : Nat, (k : ℝ) * step < distance ∧ ∃ o, o ∈ scene.objects ∧
        o.CheckIfInside (samplePoint origin direction step initalstep k) = true) ∧
      (r.1 = true → ∃ k : Nat, (k : ℝ) * step < distance ∧
        r.2.2 = samplePoint origin direction step initalstep k ∧
        (∃ o, o ∈ scene.objects ∧
          o.CheckIfInside (samplePoint origin direction step initalstep k) = true) ∧
        ∀ j : Nat, j < k → ∀ o, o ∈ scene.objects →
          o.CheckIfInside (samplePoint origin direction step initalstep j) = false) := by
  refine ⟨⟨?_, ?_⟩, ?_⟩
  · unfold samplePoint
    congr 2
    push_cast
    ring
  · intro k
    unfold samplePoint
    rw [add_scale_add_scale]
    congr 2
    push_cast
    ring
  · obtain ⟨r, hr⟩ := Raycast_returns origin direction distance scene step initalstep hstep
      (Nat.ceil (distance / step) + 1) (Nat.lt_succ_self _)
    refine ⟨r, ⟨_, hr⟩, ?_⟩
    rcases Raycast_samples origin direction distance scene step initalstep hstep _ r hr with
      ⟨k, hk, ⟨o, hso, hro⟩, hbefore⟩ | ⟨hmiss, hall⟩
    · have hin : ∃ o, o ∈ scene.objects ∧
          o.CheckIfInside (samplePoint origin direction step initalstep k) = true :=
        (scanObjects_isSome_iff _ _).mp (by rw [hso]; rfl)
      subst hro
      refine ⟨⟨fun _ => ⟨k, hk, hin⟩, fun _ => rfl⟩, fun _ => ⟨k, hk, rfl, hin, ?_⟩⟩
      intro j hj o ho
      exact (scanObjects_none_iff _ _).mp (hbefore j hj) o ho
    · subst hmiss
      refine ⟨⟨fun h => by simp at h, ?_⟩, fun h => by simp at h⟩
      rintro ⟨k, hk, o, ho, hin⟩
      have := (scanObjects_none_iff _ _).mp (hall k hk) o ho
      rw [this] at hin
      simp at hin

/-- The sampling property over the reals at a concrete input: the march along the `z` axis in
`overlapScene` with step `2`. -/
theorem raycast_hit_iff_sample_inside_witness :
    ∃ r : Bool × Option Object × Vector3,
      RaycastReturns ⟨0, 0, 0⟩ ⟨0, 0, 1⟩ 50 overlapScene 2 2 r ∧
      (r.1 = true ↔ ∃ k : Nat, (k : ℝ) * 2 < 50 ∧ ∃ o, o ∈ overlapScene.objects ∧
        o.CheckIfInside (samplePoint ⟨0, 0, 0⟩ ⟨0, 0, 1⟩ 2 2 k) = true) ∧
      (r.1 = true → ∃ k : Nat, (k : ℝ) * 2 < 50 ∧
        r.2.2 = samplePoint ⟨0, 0, 0⟩ ⟨0, 0, 1⟩ 2 2 k ∧
        (∃ o, o ∈ overlapScene.objects ∧
          o.CheckIfInside (samplePoint ⟨0, 0, 0⟩ ⟨0, 0, 1⟩ 2 2 k) = true) ∧
        ∀ j : Nat, j < k → ∀ o, o ∈ overlapScene.objects →
          o.CheckIfInside (samplePoint ⟨0, 0, 0⟩ ⟨0, 0, 1⟩ 2 2 j) = false) :=
  (raycast_hit_iff_sample_inside overlapScene ⟨0, 0, 0⟩ ⟨0, 0, 1⟩ 50 2 2 zAxis_ne_zero
    (by norm_num)).2

/-- C3 fails as stated: in `beyondScene` no object contains a point `origin + t·Normalise(d)`
with `0 < t ≤ 3` on the ray from the origin along the `z` axis, the direction is non-zero and
the step `2` is positive, yet `Raycast` with distance `3` returns a hit at `(0,0,4)`, and so
does not return the miss triple. -/
theorem raycast_hit_beyond_distance :
    ((⟨0, 0, 1⟩ : Vector3) ≠ ⟨0, 0, 0⟩ ∧ (0 : ℝ) < 2) ∧
    (∀ t : ℝ, 0 < t → t ≤ 3 → ∀ o, o ∈ beyondScene.objects →
      o.CheckIfInside ((⟨0, 0, 0⟩ : Vector3).Add ((⟨0, 0, 1⟩ : Vector3).Normalise.Scale t)) =
        false) ∧
    RaycastReturns ⟨0, 0, 0⟩ ⟨0, 0, 1⟩ 3 beyondScene 2 2
      (true, some (.cube beyondCube), ⟨0, 0, 4⟩) ∧
    ¬ RaycastReturns ⟨0, 0, 0⟩ ⟨0, 0, 1⟩ 3 beyondScene 2 2 (false, none, ⟨0, 0, 0⟩) := by
  refine ⟨⟨zAxis_ne_zero, by norm_num⟩, ?_, ⟨2, beyondScene_raycast⟩, ?_⟩
  · intro t _ ht o ho
    rw [normalise_zAxis]
    simp only [beyondScene, List.mem_singleton] at ho
    subst ho
    simp only [Object.CheckIfInside, Cube.CheckIfInside, beyondCube, Vector3.Add, Vector3.Scale]
    rw [if_neg]
    intro hc
    have h5 := hc.2.2.2.2.1
    linarith
  · intro hmiss
    have := RaycastReturns_unique _ _ _ _ _ _ _ _ hmiss ⟨2, beyondScene_raycast⟩
    simp at this

/-- The miss of a clear ray in exact real arithmetic (`float64` rounding left out): for a
non-zero direction and a positive step, if no scene object contains any point
`origin + t·Normalise(d)` with `initialStep ≤ t < initialStep + maxDistance`, then `Raycast`
returns no-hit, a nil object and the position `(0,0,0)`. -/
theorem raycast_miss_of_clear_ray (scene : Scene) (origin direction : Vector3)
    (maxDistance step initalstep : ℝ) (_hdir : direction ≠ ⟨0, 0, 0⟩) (hstep : 0 < step)
    (hclear : ∀ t : ℝ, initalstep ≤ t → t < initalstep + maxDistance →
      ∀ o, o ∈ scene.objects →
        o.CheckIfInside (origin.Add (direction.Normalise.Scale t)) = false) :
    RaycastReturns origin direction maxDistance scene step initalstep
      (false, none, ⟨0, 0, 0⟩) := by
  apply Raycast_miss_of_samples scene origin direction maxDistance step initalstep hstep
  intro k hk o ho
  have hk0 : 0 ≤ (k : ℝ) * step := mul_nonneg (Nat.cast_nonneg k) hstep.le
  exact hclear (initalstep + (k : ℝ) * step) (by linarith) (by linarith) o ho

/-- The miss of a clear ray over the reals at a concrete input: the ray from `(5,5,0)` along
the `z` axis passes beside both cubes of `overlapScene`, so the march of distance `3` with
step `2` misses. -/
theorem raycast_miss_of_clear_ray_witness :
    RaycastReturns ⟨5, 5, 0⟩ ⟨0, 0, 1⟩ 3 overlapScene 2 2 (false, none, ⟨0, 0, 0⟩) :=
  raycast_miss_of_clear_ray overlapScene ⟨5, 5, 0⟩ ⟨0, 0, 1⟩ 3 2 2 zAxis_ne_zero
    (by norm_num) (by
      intro t _ _ o ho
      simp only [overlapScene, List.mem_cons, List.mem_singleton, List.not_mem_nil,
        or_false] at ho
      rcases ho with rfl | rfl
      · simp only [normalise_zAxis, Object.CheckIfInside, Cube.CheckIfInside,
          farCube, Vector3.Add, Vector3.Scale]
        rw [if_neg]
        intro hc
        have h2 := hc.2.1
        norm_num at h2
      · simp only [normalise_zAxis, Object.CheckIfInside, Cube.CheckIfInside,
          nearCube, Vector3.Add, Vector3.Scale]
        rw [if_neg]
        intro hc
        have h2 := hc.2.1
        norm_num at h2)

/-- C4: whenever `Raycast` returns with first result `false`, the returned object is nil and
the returned position is `(0,0,0)`; when the object list is empty or `distance ≤ 0` every
result `Raycast` returns is that miss triple, and `Raycast` does return it when
`distance ≤ 0`, and when the list is empty and the step is positive. -/
theorem raycast_miss_is_nil_zero (scene : Scene) (origin direction : Vector3)
    (distance step initalstep : ℝ) :
    (∀ (ob : Option Object) (p : Vector3),
      RaycastReturns origin direction distance scene step initalstep (false, ob, p) →
      ob = none ∧ p = ⟨0, 0, 0⟩) ∧
    ((scene.objects = [] ∨ distance ≤ 0) → ∀ r : Bool × Option Object × Vector3,
      RaycastReturns origin direction distance scene step initalstep r →
      r = (false, none, ⟨0, 0, 0⟩)) ∧
    (distance ≤ 0 →
      RaycastReturns origin direction distance scene step initalstep (false, none, ⟨0, 0, 0⟩)) ∧
    (scene.objects = [] → 0 < step →
      RaycastReturns origin direction distance scene step initalstep
        (false, none, ⟨0, 0, 0⟩)) := by
  have hmissform : ∀ r : Bool × Option Object × Vector3,
      RaycastReturns origin direction distance scene step initalstep r → r.1 = false →
      r = (false, none, ⟨0, 0, 0⟩) := by
    rintro ⟨b, ob, p⟩ ⟨fuel, hf⟩ hb
    simp only at hb
    subst hb
    obtain ⟨h1, h2⟩ := RaycastLoop_miss _ _ _ _ _ fuel _ _ _ _ hf
    rw [h1, h2]
  have hnohit : (scene.objects = [] ∨ distance ≤ 0) → ∀ r : Bool × Option Object × Vector3,
      RaycastReturns origin direction distance scene step initalstep r → r.1 = false := by
    rintro hcase ⟨b, ob, p⟩ ⟨fuel, hf⟩
    cases b with
    | false => rfl
    | true =>
      exfalso
      obtain ⟨hsome, hscan⟩ := RaycastLoop_hit _ _ _ _ _ fuel _ _ _ _ hf
      rcases hcase with hempty | hdist
      · rw [hempty] at hscan
        simp only [scanObjects] at hscan
        rw [← hscan] at hsome
        simp at hsome
      · cases fuel with
        | zero => simp [Raycast, RaycastLoop] at hf
        | succ n =>
          unfold Raycast at hf
          rw [RaycastLoop_stop _ _ _ _ _ _ _ _ (not_lt.mpr hdist)] at hf
          simp at hf
  refine ⟨?_, ?_, ?_, ?_⟩
  · intro ob p h
    have := hmissform _ h rfl
    simp only [Prod.mk.injEq, true_and] at this
    exact this
  · intro hcase r hr
    exact hmissform r hr (hnohit hcase r hr)
  · intro hdist
    exact ⟨1, RaycastLoop_stop _ _ _ _ _ _ _ _ (not_lt.mpr hdist)⟩
  · intro hempty hstep
    obtain ⟨r, hr⟩ := Raycast_returns origin direction distance scene step initalstep hstep
      (Nat.ceil (distance / step) + 1) (Nat.lt_succ_self _)
    have hrr : RaycastReturns origin direction distance scene step initalstep r := ⟨_, hr⟩
    rw [hmissform r hrr (hnohit (Or.inl hempty) r hrr)] at hrr
    exact hrr

/-- C4 at concrete inputs: with distance `0` the march in `overlapScene` returns the miss
triple, and so does the march of distance `50` in the empty scene. -/
theorem raycast_miss_is_nil_zero_witness :
    RaycastReturns ⟨0, 0, 0⟩ ⟨0, 0, 1⟩ 0 overlapScene 2 2 (false, none, ⟨0, 0, 0⟩) ∧
    RaycastReturns ⟨0, 0, 0⟩ ⟨0, 0, 1⟩ 50 ⟨[], ⟨⟨0, 0, -3⟩⟩⟩ 2 2 (false, none, ⟨0, 0, 0⟩) :=
  ⟨(raycast_miss_is_nil_zero overlapScene ⟨0, 0, 0⟩ ⟨0, 0, 1⟩ 0 2 2).2.2.1 (le_refl 0),
    (raycast_miss_is_nil_zero ⟨[], ⟨⟨0, 0, -3⟩⟩⟩ ⟨0, 0, 0⟩ ⟨0, 0, 1⟩ 50 2 2).2.2.2 rfl
      (by norm_num)⟩

/-! ## Rendering (C7) -/

/-- The colour `Render` computes for a pixel, in terms of the two `Raycast` calls. -/
theorem pixelColour_ret (fuel : Nat) (g : Globals) (cam : Camera) (scene : Scene)
    (skybox : RGBA) (x y : ℝ) (c : RGBA)
    (h : pixelColour fuel g cam scene skybox x y = .ret c) :
    ∃ r : Bool × Option Object × Vector3,
      Raycast fuel cam.position (primaryDirection g x y) 50 scene g.step g.step = some r ∧
      ((r.1 = false ∧ c = skybox) ∨
        (r.1 = true ∧ ∃ O : Object, r.2.1 = some O ∧
          ∃ r2 : Bool × Option Object × Vector3,
            Raycast fuel r.2.2 (shadowDirection scene r.2.2) 50 scene g.step (g.step * 10) =
              some r2 ∧
            ((r2.1 = true ∧ g.darkFactor ≠ 0 ∧
                c = ⟨O.GetSurfaceColour.R / g.darkFactor, O.GetSurfaceColour.G / g.darkFactor,
                  O.GetSurfaceColour.B / g.darkFactor, O.GetSurfaceColour.A⟩) ∨
              (r2.1 = false ∧ c = O.GetSurfaceColour)))) := by
  unfold pixelColour at h
  cases hprim : Raycast fuel cam.position (primaryDirection g x y) 50 scene g.step g.step with
  | none => rw [hprim] at h; simp at h
  | some r =>
    obtain ⟨hit, objHit, hitPos⟩ := r
    rw [hprim] at h
    refine ⟨_, rfl, ?_⟩
    cases hit with
    | false =>
      simp only [Bool.false_eq_true, if_false, Run.ret.injEq] at h
      exact Or.inl ⟨rfl, h.symm⟩
    | true =>
      simp only [if_true] at h
      cases hsh : Raycast fuel hitPos (shadowDirection scene hitPos) 50 scene g.step
          (g.step * 10) with
      | none => rw [hsh] at h; simp at h
      | some r2 =>
        obtain ⟨lHit, ob2, p2⟩ := r2
        rw [hsh] at h
        cases objHit with
        | none =>
          cases lHit <;> simp [darkSurface] at h
        | some O =>
          refine Or.inr ⟨rfl, O, rfl, _, rfl, ?_⟩
          cases lHit with
          | false =>
            simp only [Bool.false_eq_true, if_false, Run.ret.injEq] at h
            exact Or.inr ⟨rfl, h.symm⟩
          | true =>
            simp only [if_true, darkSurface] at h
            by_cases hd : g.darkFactor = 0
            · simp [hd] at h
            · simp only [hd, if_false, Run.ret.injEq] at h
              exact Or.inl ⟨rfl, hd, h.symm⟩

/-- With a positive step, a non-zero `darkFactor` and enough fuel the pixel body completes. -/
theorem pixelColour_returns (fuel : Nat) (g : Globals) (cam : Camera) (scene : Scene)
    (skybox : RGBA) (x y : ℝ) (hstep : 0 < g.step) (hd : g.darkFactor ≠ 0)
    (hfuel : Nat.ceil (50 / g.step) < fuel) :
    ∃ c, pixelColour fuel g cam scene skybox x y = .ret c := by
  obtain ⟨r, hr⟩ := Raycast_returns cam.position (primaryDirection g x y) 50 scene g.step g.step
    hstep fuel hfuel
  obtain ⟨hit, objHit, hitPos⟩ := r
  obtain ⟨r2, hr2⟩ := Raycast_returns hitPos (shadowDirection scene hitPos) 50 scene g.step
    (g.step * 10) hstep fuel hfuel
  obtain ⟨lHit, ob2, p2⟩ := r2
  unfold pixelColour
  rw [hr]
  cases hit with
  | false => exact ⟨skybox, by simp⟩
  | true =>
    obtain ⟨hsome, _⟩ := RaycastLoop_hit _ _ _ _ _ fuel _ _ _ _ hr
    obtain ⟨O, rfl⟩ := Option.isSome_iff_exists.mp hsome
    simp only [if_true]
    rw [hr2]
    cases lHit with
    | false => exact ⟨O.GetSurfaceColour, by simp⟩
    | true =>
      exact ⟨⟨O.GetSurfaceColour.R / g.darkFactor, O.GetSurfaceColour.G / g.darkFactor,
        O.GetSurfaceColour.B / g.darkFactor, O.GetSurfaceColour.A⟩, by simp [darkSurface, hd]⟩

/-- The column loop writes the colour of every visited pixel of its row and nothing else. -/
theorem renderCols_ret (fuel : Nat) (g : Globals) (cam : Camera) (scene : Scene)
    (skybox : RGBA) (y : Nat) (xs : List Nat) :
    ∀ (img img2 : Image), renderCols fuel g cam scene skybox y xs img = .ret img2 →
      (∀ a b : Nat, (b ≠ y ∨ a ∉ xs) → img2 a b = img a b) ∧
      (∀ x : Nat, x ∈ xs →
        pixelColour fuel g cam scene skybox (x : ℝ) (y : ℝ) = .ret (img2 x y)) := by
  induction xs with
  | nil =>
    intro img img2 h
    simp only [renderCols, Run.ret.injEq] at h
    subst h
    exact ⟨fun _ _ _ => rfl, fun x hx => absurd hx (List.not_mem_nil x)⟩
  | cons x xs ih =>
    intro img img2 h
    rw [renderCols] at h
    cases hpc : pixelColour fuel g cam scene skybox (x : ℝ) (y : ℝ) with
    | panic => rw [hpc] at h; simp at h
    | outOfFuel => rw [hpc] at h; simp at h
    | ret c =>
      rw [hpc] at h
      simp only at h
      obtain ⟨hframe, hpix⟩ := ih _ _ h
      have hframe2 : ∀ a b : Nat, (b ≠ y ∨ a ∉ x :: xs) → img2 a b = img a b := by
        intro a b hab
        have h1 : b ≠ y ∨ a ∉ xs := by
          rcases hab with hb | ha
          · exact Or.inl hb
          · exact Or.inr (fun hm => ha (List.mem_cons_of_mem _ hm))
        rw [hframe a b h1]
        unfold Image.Set
        rw [if_neg]
        rintro ⟨rfl, rfl⟩
        rcases hab with hb | ha
        · exact hb rfl
        · exact ha (List.mem_cons_self _ _)
      refine ⟨hframe2, ?_⟩
      intro x2 hx2
      by_cases hmem : x2 ∈ xs
      · exact hpix x2 hmem
      · have hx : x2 = x := by
          rcases List.mem_cons.mp hx2 with e | e
          · exact e
          · exact absurd e hmem
        subst hx
        rw [hframe x2 y (Or.inr hmem)]
        unfold Image.Set
        rw [if_pos ⟨rfl, rfl⟩]
        exact hpc

/-- The row loop writes the colour of every pixel of every visited row and nothing else. -/
theorem renderRows_ret (fuel : Nat) (g : Globals) (cam : Camera) (scene : Scene)
    (skybox : RGBA) (ys : List Nat) :
    ∀ (img img2 : Image), renderRows fuel g cam scene skybox ys img = .ret img2 →
      (∀ a b : Nat, b ∉ ys → img2 a b = img a b) ∧
      (∀ y : Nat, y ∈ ys → ∀ x : Nat, x < g.width →
        pixelColour fuel g cam scene skybox (x : ℝ) (y : ℝ) = .ret (img2 x y)) := by
  induction ys with
  | nil =>
    intro img img2 h
    simp only [renderRows, Run.ret.injEq] at h
    subst h
    exact ⟨fun _ _ _ => rfl, fun y hy => absurd hy (List.not_mem_nil y)⟩
  | cons y ys ih =>
    intro img img2 h
    rw [renderRows] at h
    cases hrow : renderCols fuel g cam scene skybox y (List.range g.width) img with
    | panic => rw [hrow] at h; simp at h
    | outOfFuel => rw [hrow] at h; simp at h
    | ret img1 =>
      rw [hrow] at h
      simp only at h
      obtain ⟨hframe, hpix⟩ := ih _ _ h
      obtain ⟨hcframe, hcpix⟩ := renderCols_ret fuel g cam scene skybox y _ _ _ hrow
      refine ⟨?_, ?_⟩
      · intro a b hb
        have hb1 : b ∉ ys := fun hm => hb (List.mem_cons_of_mem _ hm)
        have hb2 : b ≠ y := fun e => hb (e ▸ List.mem_cons_self _ _)
        rw [hframe a b hb1, hcframe a b (Or.inl hb2)]
      · intro y2 hy2 x hx
        by_cases hmem : y2 ∈ ys
        · exact hpix y2 hmem x hx
        · have hy : y2 = y := by
            rcases List.mem_cons.mp hy2 with e | e
            · exact e
            · exact absurd e hmem
          subst hy
          rw [hframe x y2 hmem]
          exact hcpix x (List.mem_range.mpr hx)

theorem renderCols_returns (fuel : Nat) (g : Globals) (cam : Camera) (scene : Scene)
    (skybox : RGBA) (y : Nat)
    (hpix : ∀ x y : ℝ, ∃ c, pixelColour fuel g cam scene skybox x y = .ret c) (xs : List Nat) :
    ∀ img : Image, ∃ img2, renderCols fuel g cam scene skybox y xs img = .ret img2 := by
  induction xs with
  | nil => intro img; exact ⟨img, rfl⟩
  | cons x xs ih =>
    intro img
    obtain ⟨c, hc⟩ := hpix (x : ℝ) (y : ℝ)
    rw [renderCols, hc]
    exact ih _

theorem renderRows_returns (fuel : Nat) (g : Globals) (cam : Camera) (scene : Scene)
    (skybox : RGBA)
    (hpix : ∀ x y : ℝ, ∃ c, pixelColour fuel g cam scene skybox x y = .ret c) (ys : List Nat) :
    ∀ img : Image, ∃ img2, renderRows fuel g cam scene skybox ys img = .ret img2 := by
  induction ys with
  | nil => intro img; exact ⟨img, rfl⟩
  | cons y ys ih =>
    intro img
    obtain ⟨img1, h1⟩ := renderCols_returns fuel g cam scene skybox y hpix (List.range g.width) img
    rw [renderRows, h1]
    exact ih _

/-- C7: for `darkFactor ≠ 0` and a pixel `(px, py)` inside the image, the colour `Render`
writes at `(px, py)` is the sky colour if the primary `Raycast` (from the camera position,
distance 50, step, initial step = step) misses; otherwise, with `O` the object hit and `h` the
hit position, if the shadow `Raycast` from `h` in direction `light.position - h` (distance 50,
step, initial step = 10·step) hits, it is `O`'s colour with `R`, `G`, `B` divided by
`darkFactor` (truncating) and `A` unchanged, and otherwise `O`'s colour.  With a positive step
and enough fuel `Render` does return an image. -/
theorem render_pixel_colour (g : Globals) (cam : Camera) (scene : Scene) (skybox : RGBA)
    (px py : Nat) (hd : g.darkFactor ≠ 0) (hx : px < g.width) (hy : py < g.height) :
    (∀ (fuel : Nat) (img : Image), cam.Render fuel g scene skybox = .ret img →
      ∃ r : Bool × Option Object × Vector3,
        RaycastReturns cam.position (primaryDirection g px py) 50 scene g.step g.step r ∧
        ((r.1 = false ∧ img px py = skybox) ∨
          (r.1 = true ∧ ∃ O : Object, r.2.1 = some O ∧
            ∃ r2 : Bool × Option Object × Vector3,
              RaycastReturns r.2.2 (shadowDirection scene r.2.2) 50 scene g.step
                (g.step * 10) r2 ∧
              ((r2.1 = true ∧
                  img px py =
                    ⟨O.GetSurfaceColour.R / g.darkFactor, O.GetSurfaceColour.G / g.darkFactor,
                      O.GetSurfaceColour.B / g.darkFactor, O.GetSurfaceColour.A⟩) ∨
                (r2.1 = false ∧ img px py = O.GetSurfaceColour))))) ∧
    (0 < g.step → ∀ fuel : Nat, Nat.ceil (50 / g.step) < fuel →
      ∃ img : Image, cam.Render fuel g scene skybox = .ret img) ∧
    (∀ h : Vector3, shadowDirection scene h =
      ⟨scene.light.position.x - h.x, scene.light.position.y - h.y,
        scene.light.position.z - h.z⟩) := by
  refine ⟨?_, ?_, ?_⟩
  · intro fuel img himg
    unfold Camera.Render at himg
    obtain ⟨_, hpix⟩ := renderRows_ret fuel g cam scene skybox _ _ _ himg
    have hc := hpix py (List.mem_range.mpr hy) px hx
    obtain ⟨r, hr, hcases⟩ := pixelColour_ret fuel g cam scene skybox _ _ _ hc
    refine ⟨r, ⟨fuel, hr⟩, ?_⟩
    rcases hcases with ⟨hmiss, hcol⟩ | ⟨hhit, O, hO, r2, hr2, hsh⟩
    · exact Or.inl ⟨hmiss, hcol⟩
    · refine Or.inr ⟨hhit, O, hO, r2, ⟨fuel, hr2⟩, ?_⟩
      rcases hsh with ⟨h1, _, h3⟩ | ⟨h1, h2⟩
      · exact Or.inl ⟨h1, h3⟩
      · exact Or.inr ⟨h1, h2⟩
  · intro hstep fuel hfuel
    unfold Camera.Render
    exact renderRows_returns fuel g cam scene skybox
      (fun x y => pixelColour_returns fuel g cam scene skybox x y hstep hd hfuel) _ _
  · intro h
    ext <;> simp [shadowDirection, Vector3.Add, Vector3.Scale] <;> ring

/-! ### A concrete render -/

theorem normalise_negZAxis : (⟨0, 0, -1⟩ : Vector3).Normalise = ⟨0, 0, -1⟩ := by
  simp [Vector3.Normalise, Vector3.Magnitude, Vector3.Scale]

theorem demo_primaryDirection :
    primaryDirection demoGlobals ((1 : Nat) : ℝ) ((1 : Nat) : ℝ) = ⟨0, 0, 1⟩ := by
  simp [primaryDirection, demoGlobals, identityMatrix, Matrix.Transform, Vector3.Dot]

theorem demo_shadowDirection : shadowDirection behindLightScene ⟨0, 0, 1⟩ = ⟨0, 0, -1⟩ := by
  simp [shadowDirection, behindLightScene, Vector3.Add, Vector3.Scale]

/-- The primary march of the demo pixel hits `frontCube` at `(0,0,1)` in its first round. -/
theorem demo_primary_raycast :
    Raycast 1 ⟨0, 0, 0⟩ ⟨0, 0, 1⟩ 50 behindLightScene 1 1 =
      some (true, some (.cube frontCube), ⟨0, 0, 1⟩) := by
  have hp : (⟨0, 0, 0⟩ : Vector3).Add
      ((⟨0, 0, 1⟩ : Vector3).Normalise.Scale (if (0 : ℝ) = 0 then 1 else 1)) = ⟨0, 0, 1⟩ := by
    rw [normalise_zAxis]
    simp [Vector3.Add, Vector3.Scale]
  have hs : scanObjects behindLightScene.objects ⟨0, 0, 1⟩ = some (.cube frontCube) := by
    simp only [behindLightScene, scanObjects, Object.CheckIfInside, Cube.CheckIfInside,
      frontCube]
    norm_num
  unfold Raycast
  rw [RaycastLoop_found _ _ _ _ _ _ _ _ (.cube frontCube) (by norm_num) (by rw [hp]; exact hs),
    hp]

/-- The shadow march from `(0,0,1)` towards the light at the origin starts `10` steps away,
beyond the light, and hits `backCube` at `(0,0,-9)` in its first round. -/
theorem demo_shadow_raycast :
    Raycast 1 ⟨0, 0, 1⟩ ⟨0, 0, -1⟩ 50 behindLightScene 1 (1 * 10) =
      some (true, some (.cube backCube), ⟨0, 0, -9⟩) := by
  have hp : (⟨0, 0, 1⟩ : Vector3).Add
      ((⟨0, 0, -1⟩ : Vector3).Normalise.Scale (if (0 : ℝ) = 0 then 1 * 10 else 1)) =
        ⟨0, 0, -9⟩ := by
    rw [normalise_negZAxis]
    simp only [Vector3.Add, Vector3.Scale]
    norm_num
  have hs : scanObjects behindLightScene.objects ⟨0, 0, -9⟩ = some (.cube backCube) := by
    simp only [behindLightScene, scanObjects, Object.CheckIfInside, Cube.CheckIfInside,
      frontCube, backCube]
    norm_num
  unfold Raycast
  rw [RaycastLoop_found _ _ _ _ _ _ _ _ (.cube backCube) (by norm_num) (by rw [hp]; exact hs),
    hp]

/-- C7 at a concrete input: the `2 × 2` demo render returns an image, and its pixel `(1,1)`,
whose primary ray hits the green `frontCube` and whose shadow ray hits `backCube`, is the
green of `frontCube` divided by `darkFactor = 3`. -/
theorem render_pixel_colour_witness :
    ∃ img : Image,
      demoCamera.Render 51 demoGlobals behindLightScene ⟨0, 255, 255, 255⟩ = .ret img ∧
      img 1 1 = ⟨0, 85, 0, 255⟩ := by
  have hthm := render_pixel_colour demoGlobals demoCamera behindLightScene ⟨0, 255, 255, 255⟩
    1 1 (by decide) (by decide) (by decide)
  obtain ⟨img, himg⟩ := hthm.2.1 (by norm_num [demoGlobals]) 51 (by norm_num [demoGlobals])
  refine ⟨img, himg, ?_⟩
  obtain ⟨r, hr, hcases⟩ := hthm.1 51 img himg
  rw [demo_primaryDirection] at hr
  have e1 := RaycastReturns_unique _ _ _ _ _ _ _ _ hr ⟨1, demo_primary_raycast⟩
  subst e1
  rcases hcases with ⟨hmiss, _⟩ | ⟨_, O, hO, r2, hr2, hsh⟩
  · simp at hmiss
  · simp only [Option.some.injEq] at hO
    subst hO
    rw [demo_shadowDirection] at hr2
    have e2 := RaycastReturns_unique _ _ _ _ _ _ _ _ hr2 ⟨1, demo_shadow_raycast⟩
    subst e2
    rcases hsh with ⟨_, hcol⟩ | ⟨hfalse, _⟩
    · rw [hcol]
      simp [Object.GetSurfaceColour, Cube.GetSurfaceColour, frontCube, demoGlobals]
    · simp at hfalse

/-! ## The segment from a hit point to the light -/

/-- The set of parameters `t` at which an object contains the point `h + t·(L - h)` of the
line through `h` and `L` is open: both containment tests are strict inequalities between
continuous functions. -/
theorem isOpen_inside_along_line (O : Object) (h L : Vector3) :
    IsOpen {t : ℝ | O.CheckIfInside (h.Add ((L.Add (h.Scale (-1))).Scale t)) = true} := by
  cases O with
  | cube c =>
    have hset : {t : ℝ | (Object.cube c).CheckIfInside
          (h.Add ((L.Add (h.Scale (-1))).Scale t)) = true} =
        {t : ℝ | c.position.x < h.x + (L.x + h.x * -1) * t} ∩
        ({t : ℝ | h.x + (L.x + h.x * -1) * t < c.position.x + c.xLen} ∩
        ({t : ℝ | c.position.y < h.y + (L.y + h.y * -1) * t} ∩
        ({t : ℝ | h.y + (L.y + h.y * -1) * t < c.position.y + c.yLen} ∩
        ({t : ℝ | c.position.z < h.z + (L.z + h.z * -1) * t} ∩
        {t : ℝ | h.z + (L.z + h.z * -1) * t < c.position.z + c.zLen})))) := by
      ext t
      simp [Object.CheckIfInside, Cube.CheckIfInside, Vector3.Add, Vector3.Scale]
    rw [hset]
    refine IsOpen.inter ?_ (IsOpen.inter ?_ (IsOpen.inter ?_ (IsOpen.inter ?_
      (IsOpen.inter ?_ ?_)))) <;> exact isOpen_lt (by fun_prop) (by fun_prop)
  | sphere s =>
    have hset : {t : ℝ | (Object.sphere s).CheckIfInside
          (h.Add ((L.Add (h.Scale (-1))).Scale t)) = true} =
        {t : ℝ | ((h.x + (L.x + h.x * -1) * t - s.centre.x) / s.a) ^ 2 +
          ((h.y + (L.y + h.y * -1) * t - s.centre.y) / s.b) ^ 2 +
          ((h.z + (L.z + h.z * -1) * t - s.centre.z) / s.c) ^ 2 < 1} := by
      ext t
      simp [Object.CheckIfInside, Sphere.CheckIfInside, Vector3.Add, Vector3.Scale]
    rw [hset]
    exact isOpen_lt (by fun_prop) (by fun_prop)

/-- An object that contains the hit point `h` also contains a point strictly between `h` and
the light position `L` on the segment joining them.  So, after a primary hit, it is never the
case that no scene object contains a point strictly between the hit point and the light. -/
theorem hit_object_contains_segment_point (O : Object) (h L : Vector3)
    (hin : O.CheckIfInside h = true) :
    ∃ t : ℝ, 0 < t ∧ t < 1 ∧
      O.CheckIfInside (h.Add ((L.Add (h.Scale (-1))).Scale t)) = true := by
  have h0 : (0 : ℝ) ∈ {t : ℝ | O.CheckIfInside (h.Add ((L.Add (h.Scale (-1))).Scale t)) = true} := by
    have hpt : h.Add ((L.Add (h.Scale (-1))).Scale 0) = h := by
      ext <;> simp [Vector3.Add, Vector3.Scale]
    simp only [Set.mem_setOf_eq, hpt]
    exact hin
  obtain ⟨ε, hε, hball⟩ := Metric.isOpen_iff.mp (isOpen_inside_along_line O h L) 0 h0
  refine ⟨min (ε / 2) (1 / 2), ?_, ?_, ?_⟩
  · exact lt_min (by linarith) (by norm_num)
  · exact lt_of_le_of_lt (min_le_right _ _) (by norm_num)
  · apply hball
    rw [Metric.mem_ball, Real.dist_eq, sub_zero, abs_of_pos (lt_min (by linarith) (by norm_num))]
    exact lt_of_le_of_lt (min_le_left _ _) (by linarith)

/-- After a hit of object `O` at `h` it is impossible that no scene object contains any point
strictly between `h` and the light position: `O` itself contains such points. -/
theorem clear_segment_impossible_after_hit (scene : Scene) (origin direction : Vector3)
    (distance step initalstep : ℝ) (O : Object) (h : Vector3)
    (hhit : RaycastReturns origin direction distance scene step initalstep (true, some O, h)) :
    ¬ ∀ t : ℝ, 0 < t → t < 1 → ∀ o, o ∈ scene.objects →
      o.CheckIfInside (h.Add ((shadowDirection scene h).Scale t)) = false := by
  intro hclear
  obtain ⟨fuel, hf⟩ := hhit
  obtain ⟨_, hscan⟩ := RaycastLoop_hit _ _ _ _ _ fuel _ _ _ _ hf
  rw [scanObjects_eq_find] at hscan
  have hmem : O ∈ scene.objects := List.mem_of_find?_eq_some hscan
  have hin : O.CheckIfInside h = true := by
    have := List.find?_some hscan
    simpa using this
  obtain ⟨t, ht0, ht1, hcontains⟩ :=
    hit_object_contains_segment_point O h scene.light.position hin
  have hfalse := hclear t ht0 ht1 O hmem
  unfold shadowDirection at hfalse
  rw [hcontains] at hfalse
  simp at hfalse

/-! ## Rotation constructors, magnitude and normalisation over the reals (C12) -/

theorem dot_comm (a b : Vector3) : a.Dot b = b.Dot a := by
  unfold Vector3.Dot
  ring

/-- Over the reals, with the exact cosine and sine, the matrices `RotateX` and `RotateY`
build have orthonormal rows for every angle: each row has dot product `1` with itself and `0`
with each of the other two rows.  The code fills the matrices with the `float64` results of
`math.Cos` and `math.Sin`, for which this holds only up to rounding. -/
theorem rotation_constructors_orthonormal (c : Camera) (theta : ℝ) :
    ((c.RotateX theta).Orthonormal ∧ (c.RotateY theta).Orthonormal) ∧
    ((c.RotateX theta).r2.Dot (c.RotateX theta).r1 = 0 ∧
      (c.RotateX theta).r3.Dot (c.RotateX theta).r1 = 0 ∧
      (c.RotateX theta).r3.Dot (c.RotateX theta).r2 = 0) ∧
    ((c.RotateY theta).r2.Dot (c.RotateY theta).r1 = 0 ∧
      (c.RotateY theta).r3.Dot (c.RotateY theta).r1 = 0 ∧
      (c.RotateY theta).r3.Dot (c.RotateY theta).r2 = 0) := by
  have hcs : Real.cos theta * Real.cos theta + Real.sin theta * Real.sin theta = 1 := by
    have := Real.cos_sq_add_sin_sq theta
    nlinarith [this]
  have hX : (c.RotateX theta).Orthonormal := by
    simp only [Matrix.Orthonormal, Camera.RotateX, Vector3.Dot]
    refine ⟨?_, ?_, ?_, ?_, ?_, ?_⟩ <;> linarith
  have hY : (c.RotateY theta).Orthonormal := by
    simp only [Matrix.Orthonormal, Camera.RotateY, Vector3.Dot]
    refine ⟨?_, ?_, ?_, ?_, ?_, ?_⟩ <;> linarith
  refine ⟨⟨hX, hY⟩, ⟨?_, ?_, ?_⟩, ⟨?_, ?_, ?_⟩⟩
  · rw [dot_comm]; exact hX.2.2.2.1
  · rw [dot_comm]; exact hX.2.2.2.2.1
  · rw [dot_comm]; exact hX.2.2.2.2.2
  · rw [dot_comm]; exact hY.2.2.2.1
  · rw [dot_comm]; exact hY.2.2.2.2.1
  · rw [dot_comm]; exact hY.2.2.2.2.2

theorem magnitude_nonneg (v : Vector3) : 0 ≤ v.Magnitude :=
  Real.sqrt_nonneg _

theorem magnitude_scale (v : Vector3) (k : ℝ) : (v.Scale k).Magnitude = |k| * v.Magnitude := by
  unfold Vector3.Magnitude Vector3.Scale
  have h : (v.x * k) ^ 2 + (v.y * k) ^ 2 + (v.z * k) ^ 2 =
      k ^ 2 * (v.x ^ 2 + v.y ^ 2 + v.z ^ 2) := by ring
  simp only [h]
  rw [Real.sqrt_mul (sq_nonneg k), Real.sqrt_sq_eq_abs]

/-- C12: for every vector `v` with `Magnitude(v) > 0`, `Magnitude(Normalise(v)) = 1`, where
`Normalise(v) = Scale(v, 1 / Magnitude(v))` and
`Magnitude(v) = sqrt(x² + y² + z²) ≥ 0`. -/
theorem normalise_has_unit_magnitude (v : Vector3) (h : 0 < v.Magnitude) :
    v.Normalise.Magnitude = 1 ∧
    v.Normalise = v.Scale (1 / v.Magnitude) ∧
    v.Magnitude = Real.sqrt (v.x ^ 2 + v.y ^ 2 + v.z ^ 2) ∧
    0 ≤ v.Magnitude := by
  refine ⟨?_, rfl, rfl, magnitude_nonneg v⟩
  unfold Vector3.Normalise
  rw [magnitude_scale, abs_of_pos (one_div_pos.mpr h)]
  field_simp

/-- C12 at a concrete input: `(3,4,0)` has positive magnitude and its normalisation has
magnitude `1`. -/
theorem normalise_has_unit_magnitude_witness :
    (⟨3, 4, 0⟩ : Vector3).Normalise.Magnitude = 1 :=
  (normalise_has_unit_magnitude ⟨3, 4, 0⟩
    (Real.sqrt_pos.mpr (by norm_num))).1

/-- Over the reals (exact arithmetic, `float64` rounding left out), for a sphere whose three
semi-axes all equal the same non-zero `r`, a point `p` is inside iff
`Magnitude(p - centre) < |r|`: the test is the open ball of radius `|r|` around the centre. -/
theorem sphere_ball_over_reals (s : Sphere) (r : ℝ) (p : Vector3) (hr : r ≠ 0)
    (ha : s.a = r) (hb : s.b = r) (hc : s.c = r) :
    s.CheckIfInside p = true ↔ (p.Add (s.centre.Scale (-1))).Magnitude < |r| := by
  have hr2 : 0 < r ^ 2 := by positivity
  have hsum : ((p.x - s.centre.x) / r) ^ 2 + ((p.y - s.centre.y) / r) ^ 2 +
      ((p.z - s.centre.z) / r) ^ 2 =
      ((p.x - s.centre.x) ^ 2 + (p.y - s.centre.y) ^ 2 + (p.z - s.centre.z) ^ 2) / r ^ 2 := by
    field_simp
  have hmag : (p.Add (s.centre.Scale (-1))).Magnitude =
      Real.sqrt ((p.x - s.centre.x) ^ 2 + (p.y - s.centre.y) ^ 2 + (p.z - s.centre.z) ^ 2) := by
    unfold Vector3.Magnitude Vector3.Add Vector3.Scale
    congr 1
    ring
  have hin : s.CheckIfInside p = true ↔
      ((p.x - s.centre.x) / r) ^ 2 + ((p.y - s.centre.y) / r) ^ 2 +
        ((p.z - s.centre.z) / r) ^ 2 < 1 := by
    unfold Sphere.CheckIfInside
    rw [ha, hb, hc]
    constructor
    · intro h
      split_ifs at h with hlt
      exact hlt
    · intro h
      rw [if_pos h]
  rw [hin, hsum, hmag, div_lt_one hr2, Real.sqrt_lt' (abs_pos.mpr hr), sq_abs]

/-- Over the reals the sphere of radius `2` around `(0,1,0)` contains `(1,1,1)`, whose
distance from the centre is `sqrt 2 < 2`. -/
theorem sphere_ball_over_reals_witness :
    (⟨⟨0, 1, 0⟩, 2, 2, 2, ⟨0, 0, 255, 255⟩⟩ : Sphere).CheckIfInside ⟨1, 1, 1⟩ = true ∧
    ((⟨1, 1, 1⟩ : Vector3).Add ((⟨0, 1, 0⟩ : Vector3).Scale (-1))).Magnitude < |(2 : ℝ)| := by
  have h := sphere_ball_over_reals ⟨⟨0, 1, 0⟩, 2, 2, 2, ⟨0, 0, 255, 255⟩⟩ 2 ⟨1, 1, 1⟩
    (by norm_num) rfl rfl rfl
  have hin : (⟨⟨0, 1, 0⟩, 2, 2, 2, ⟨0, 0, 255, 255⟩⟩ : Sphere).CheckIfInside ⟨1, 1, 1⟩ = true := by
    simp only [Sphere.CheckIfInside]
    norm_num
  exact ⟨hin, h.mp hin⟩

/-- Scaling a direction by a positive factor does not change its normalisation. -/
theorem normalise_scale (d : Vector3) (k : ℝ) (hk : 0 < k) :
    (d.Scale k).Normalise = d.Normalise := by
  unfold Vector3.Normalise
  rw [magnitude_scale, abs_of_pos hk]
  by_cases hM : d.Magnitude = 0
  · simp [hM]
    simp [Vector3.Scale]
  · have hk0 : k ≠ 0 := ne_of_gt hk
    ext <;> simp only [Vector3.Scale] <;> field_simp <;> ring

/-- The loop of `Raycast` uses its direction only through `Normalise`. -/
theorem RaycastLoop_congr_direction (d d2 : Vector3) (hd : d.Normalise = d2.Normalise)
    (distance : ℝ) (scene : Scene) (step initalstep : ℝ) (fuel : Nat) :
    ∀ (x : ℝ) (pos : Vector3),
      RaycastLoop d distance scene step initalstep fuel x pos =
        RaycastLoop d2 distance scene step initalstep fuel x pos := by
  induction fuel with
  | zero => intro x pos; rfl
  | succ n ih =>
    intro x pos
    rw [RaycastLoop, RaycastLoop, hd]
    simp only [ih]

/-- Scale invariance of the march in exact real arithmetic (`float64` rounding left out):
for a non-zero direction `d`, a positive step and every scalar `k > 0`,
`Raycast(origin, Scale(d, k), …)` returns the same triple as `Raycast(origin, d, …)`; the
result depends on the direction only through its unit vector, so a direction is handled like
its normalised form. -/
theorem raycast_direction_scale_invariant (scene : Scene) (origin d : Vector3)
    (distance step initalstep k : ℝ) (hd : d ≠ ⟨0, 0, 0⟩) (_hstep : 0 < step) (hk : 0 < k) :
    (∀ fuel : Nat, Raycast fuel origin (d.Scale k) distance scene step initalstep =
      Raycast fuel origin d distance scene step initalstep) ∧
    (∀ r : Bool × Option Object × Vector3,
      RaycastReturns origin (d.Scale k) distance scene step initalstep r ↔
        RaycastReturns origin d distance scene step initalstep r) ∧
    (∀ fuel : Nat, Raycast fuel origin d.Normalise distance scene step initalstep =
      Raycast fuel origin d distance scene step initalstep) := by
  have h1 : ∀ fuel : Nat, Raycast fuel origin (d.Scale k) distance scene step initalstep =
      Raycast fuel origin d distance scene step initalstep := by
    intro fuel
    unfold Raycast
    exact RaycastLoop_congr_direction _ _ (normalise_scale d k hk) _ _ _ _ _ _ _
  have hmag : 0 < d.Magnitude := by
    unfold Vector3.Magnitude
    apply Real.sqrt_pos.mpr
    by_contra hneg
    have hsum : d.x ^ 2 + d.y ^ 2 + d.z ^ 2 = 0 :=
      le_antisymm (not_lt.mp hneg) (by positivity)
    have hx : d.x = 0 := by nlinarith [sq_nonneg d.x, sq_nonneg d.y, sq_nonneg d.z]
    have hy : d.y = 0 := by nlinarith [sq_nonneg d.x, sq_nonneg d.y, sq_nonneg d.z]
    have hz : d.z = 0 := by nlinarith [sq_nonneg d.x, sq_nonneg d.y, sq_nonneg d.z]
    apply hd
    ext
    · exact hx
    · exact hy
    · exact hz
  refine ⟨h1, ?_, ?_⟩
  · intro r
    unfold RaycastReturns
    simp only [h1]
  · intro fuel
    unfold Raycast
    apply RaycastLoop_congr_direction
    show (d.Scale (1 / d.Magnitude)).Normalise = d.Normalise
    exact normalise_scale d _ (one_div_pos.mpr hmag)

/-- Scale invariance over the reals at a concrete input: the direction `(0,0,1)` scaled by
`2` gives the same hit in `overlapScene` as `(0,0,1)` itself. -/
theorem raycast_direction_scale_invariant_witness :
    Raycast 1 ⟨0, 0, 0⟩ ((⟨0, 0, 1⟩ : Vector3).Scale 2) 50 overlapScene 2 2 =
      some (true, some (.cube farCube), ⟨0, 0, 2⟩) :=
  ((raycast_direction_scale_invariant overlapScene ⟨0, 0, 0⟩ ⟨0, 0, 1⟩ 50 2 2 2 zAxis_ne_zero
    (by norm_num) (by norm_num)).1 1).trans overlapScene_raycast

/-! ## Primary ray direction (C13) -/

/-- C13: for `width > 0`, `height > 0` and a pixel `(px, py)` inside the image, the direction
`Render` passes to the primary `Raycast` is `Transform(camRot, n)` with
`n = (px/(width/2) - 1, py/(height/2) - 1, 1)` in real division (so
`n.x = (2·px - width)/width`, also for odd `width`), where
`Transform(m, n) = (Dot(n, m.r1), Dot(n, m.r2), Dot(n, m.r3))`; `n.x` and `n.y` lie in
`[-1, 1)`. -/
theorem primary_direction_device_coordinates (g : Globals) (px py : Nat)
    (hw : 0 < g.width) (hh : 0 < g.height) (hx : px < g.width) (hy : py < g.height) :
    primaryDirection g px py = g.camRot.Transform (deviceCoordinates g.width g.height px py) ∧
    (∀ (fuel : Nat) (cam : Camera) (scene : Scene) (skybox c : RGBA),
      pixelColour fuel g cam scene skybox px py = .ret c →
      ∃ r, Raycast fuel cam.position
        (g.camRot.Transform (deviceCoordinates g.width g.height px py)) 50 scene g.step g.step =
          some r) ∧
    (∀ (m : Matrix) (n : Vector3), m.Transform n = ⟨n.Dot m.r1, n.Dot m.r2, n.Dot m.r3⟩) ∧
    ((deviceCoordinates g.width g.height px py).x = (2 * (px : ℝ) - g.width) / g.width ∧
      (deviceCoordinates g.width g.height px py).y = (2 * (py : ℝ) - g.height) / g.height ∧
      (deviceCoordinates g.width g.height px py).z = 1) ∧
    (-1 ≤ (deviceCoordinates g.width g.height px py).x ∧
      (deviceCoordinates g.width g.height px py).x < 1) ∧
    (-1 ≤ (deviceCoordinates g.width g.height px py).y ∧
      (deviceCoordinates g.width g.height px py).y < 1) := by
  have hw0 : (0 : ℝ) < g.width := Nat.cast_pos.mpr hw
  have hh0 : (0 : ℝ) < g.height := Nat.cast_pos.mpr hh
  have hx0 : (px : ℝ) < g.width := Nat.cast_lt.mpr hx
  have hy0 : (py : ℝ) < g.height := Nat.cast_lt.mpr hy
  have hpx : (0 : ℝ) ≤ px := Nat.cast_nonneg px
  have hpy : (0 : ℝ) ≤ py := Nat.cast_nonneg py
  have ex : (deviceCoordinates g.width g.height px py).x = (2 * (px : ℝ) - g.width) / g.width := by
    simp only [deviceCoordinates]
    field_simp
    ring
  have ey : (deviceCoordinates g.width g.height px py).y =
      (2 * (py : ℝ) - g.height) / g.height := by
    simp only [deviceCoordinates]
    field_simp
    ring
  refine ⟨rfl, ?_, fun _ _ => rfl, ⟨ex, ey, rfl⟩, ?_, ?_⟩
  · intro fuel cam scene skybox c hc
    obtain ⟨r, hr, _⟩ := pixelColour_ret fuel g cam scene skybox _ _ _ hc
    exact ⟨r, hr⟩
  · rw [ex]
    constructor
    · rw [le_div_iff₀ hw0]; linarith
    · rw [div_lt_one hw0]; linarith
  · rw [ey]
    constructor
    · rw [le_div_iff₀ hh0]; linarith
    · rw [div_lt_one hh0]; linarith

/-- C13 at a concrete input: in a `3 × 3` image the pixel `(1, 2)` has device coordinates
`(-1/3, 1/3, 1)`; truncating `3/2` to `1` would have given `(0, 1, 1)`. -/
theorem primary_direction_device_coordinates_witness :
    (deviceCoordinates 3 3 ((1 : Nat) : ℝ) ((2 : Nat) : ℝ)).x = -1 / 3 ∧
    (deviceCoordinates 3 3 ((1 : Nat) : ℝ) ((2 : Nat) : ℝ)).y = 1 / 3 := by
  have h := primary_direction_device_coordinates ⟨3, 3, 3, 1, identityMatrix⟩ 1 2
    (by decide) (by decide) (by decide) (by decide)
  obtain ⟨hx, hy, _⟩ := h.2.2.2.1
  constructor
  · rw [hx]; norm_num
  · rw [hy]; norm_num

/-! ## Division by `darkFactor` (C19) -/

/-- With a non-zero `darkFactor` the pixel body never panics: the object of a primary hit is
never nil and the divisions are defined. -/
theorem pixelColour_ne_panic (fuel : Nat) (g : Globals) (cam : Camera) (scene : Scene)
    (skybox : RGBA) (x y : ℝ) (hd : g.darkFactor ≠ 0) :
    pixelColour fuel g cam scene skybox x y ≠ .panic := by
  unfold pixelColour
  cases hprim : Raycast fuel cam.position (primaryDirection g x y) 50 scene g.step g.step with
  | none => simp
  | some r =>
    obtain ⟨hit, objHit, hitPos⟩ := r
    cases hit with
    | false => simp
    | true =>
      obtain ⟨hsome, _⟩ := RaycastLoop_hit _ _ _ _ _ fuel _ _ _ _ hprim
      obtain ⟨O, rfl⟩ := Option.isSome_iff_exists.mp hsome
      simp only [if_true]
      cases hsh : Raycast fuel hitPos (shadowDirection scene hitPos) 50 scene g.step
          (g.step * 10) with
      | none => simp
      | some r2 =>
        obtain ⟨lHit, ob2, p2⟩ := r2
        cases lHit <;> simp [darkSurface, hd]

/-- C19: when `darkFactor ≠ 0` the channel divisions of `Render` do not divide by zero (the
pixel body does not panic) and each darkened channel is at most the original channel; when
`darkFactor = 0`, a pixel whose primary march and shadow march both hit reaches the integer
division by zero (the pixel body panics), and `Render` then returns no image. -/
theorem dark_factor_division (fuel : Nat) (g : Globals) (cam : Camera) (scene : Scene)
    (skybox : RGBA) (x y : ℝ) :
    (g.darkFactor ≠ 0 →
      pixelColour fuel g cam scene skybox x y ≠ .panic ∧
      ∀ O : Object,
        darkSurface (some O) g.darkFactor =
          .ret ⟨O.GetSurfaceColour.R / g.darkFactor, O.GetSurfaceColour.G / g.darkFactor,
            O.GetSurfaceColour.B / g.darkFactor, O.GetSurfaceColour.A⟩ ∧
        O.GetSurfaceColour.R / g.darkFactor ≤ O.GetSurfaceColour.R ∧
        O.GetSurfaceColour.G / g.darkFactor ≤ O.GetSurfaceColour.G ∧
        O.GetSurfaceColour.B / g.darkFactor ≤ O.GetSurfaceColour.B) ∧
    (g.darkFactor = 0 →
      ∀ (O : Object) (h : Vector3) (r2 : Bool × Option Object × Vector3),
        Raycast fuel cam.position (primaryDirection g x y) 50 scene g.step g.step =
          some (true, some O, h) →
        Raycast fuel h (shadowDirection scene h) 50 scene g.step (g.step * 10) = some r2 →
        r2.1 = true →
        darkSurface (some O) g.darkFactor = .panic ∧
        pixelColour fuel g cam scene skybox x y = .panic) ∧
    (∀ px py : Nat, px < g.width → py < g.height →
      pixelColour fuel g cam scene skybox (px : ℝ) (py : ℝ) = .panic →
      ∀ img : Image, cam.Render fuel g scene skybox ≠ .ret img) := by
  refine ⟨?_, ?_, ?_⟩
  · intro hd
    refine ⟨pixelColour_ne_panic fuel g cam scene skybox x y hd, ?_⟩
    intro O
    exact ⟨by simp [darkSurface, hd], Nat.div_le_self _ _, Nat.div_le_self _ _,
      Nat.div_le_self _ _⟩
  · intro hd O h r2 hprim hsh hr2
    obtain ⟨lHit, ob2, p2⟩ := r2
    simp only at hr2
    subst hr2
    refine ⟨by simp [darkSurface, hd], ?_⟩
    unfold pixelColour
    rw [hprim]
    simp only [if_true]
    rw [hsh]
    simp [darkSurface, hd]
  · intro px py hx hy hpanic img himg
    unfold Camera.Render at himg
    obtain ⟨_, hpix⟩ := renderRows_ret fuel g cam scene skybox _ _ _ himg
    have hc := hpix py (List.mem_range.mpr hy) px hx
    rw [hpanic] at hc
    simp at hc

theorem zeroDark_primaryDirection :
    primaryDirection zeroDarkGlobals ((1 : Nat) : ℝ) ((1 : Nat) : ℝ) = ⟨0, 0, 1⟩ := by
  simp [primaryDirection, zeroDarkGlobals, identityMatrix, Matrix.Transform, Vector3.Dot]

/-- C19 at a concrete input: with `darkFactor = 0` the body of pixel `(1,1)` of the demo
render, whose primary and shadow marches both hit, panics, and `Render` returns no image. -/
theorem dark_factor_division_witness :
    pixelColour 1 zeroDarkGlobals demoCamera behindLightScene ⟨0, 255, 255, 255⟩
      ((1 : Nat) : ℝ) ((1 : Nat) : ℝ) = .panic ∧
    ∀ img : Image,
      demoCamera.Render 1 zeroDarkGlobals behindLightScene ⟨0, 255, 255, 255⟩ ≠ .ret img := by
  have hthm := dark_factor_division 1 zeroDarkGlobals demoCamera behindLightScene
    ⟨0, 255, 255, 255⟩ ((1 : Nat) : ℝ) ((1 : Nat) : ℝ)
  have hprim : Raycast 1 demoCamera.position
      (primaryDirection zeroDarkGlobals ((1 : Nat) : ℝ) ((1 : Nat) : ℝ)) 50 behindLightScene
      zeroDarkGlobals.step zeroDarkGlobals.step =
        some (true, some (.cube frontCube), ⟨0, 0, 1⟩) := by
    rw [zeroDark_primaryDirection]
    exact demo_primary_raycast
  have hsh : Raycast 1 ⟨0, 0, 1⟩ (shadowDirection behindLightScene ⟨0, 0, 1⟩) 50
      behindLightScene zeroDarkGlobals.step (zeroDarkGlobals.step * 10) =
        some (true, some (.cube backCube), ⟨0, 0, -9⟩) := by
    rw [demo_shadowDirection]
    exact demo_shadow_raycast
  have hpanic := (hthm.2.1 rfl (.cube frontCube) ⟨0, 0, 1⟩ _ hprim hsh rfl).2
  exact ⟨hpanic, hthm.2.2 1 1 (by decide) (by decide) hpanic⟩

/-! ## Zero-length directions over the reals (C14) -/

theorem magnitude_eq_zero_iff (v : Vector3) : v.Magnitude = 0 ↔ v = ⟨0, 0, 0⟩ := by
  constructor
  · intro h
    unfold Vector3.Magnitude at h
    have hsum : v.x ^ 2 + v.y ^ 2 + v.z ^ 2 = 0 :=
      (Real.sqrt_eq_zero (by positivity)).mp h
    have hx : v.x = 0 := by nlinarith [sq_nonneg v.x, sq_nonneg v.y, sq_nonneg v.z]
    have hy : v.y = 0 := by nlinarith [sq_nonneg v.x, sq_nonneg v.y, sq_nonneg v.z]
    have hz : v.z = 0 := by nlinarith [sq_nonneg v.x, sq_nonneg v.y, sq_nonneg v.z]
    ext
    · exact hx
    · exact hy
    · exact hz
  · intro h
    rw [h]
    simp [Vector3.Magnitude]

/-- A matrix with orthonormal rows maps no vector with a non-zero `z` component to the zero
vector: its determinant squares to `1`, and the determinant times `n.z` is a combination of
the three components of the image. -/
theorem transform_ne_zero_of_orthonormal (m : Matrix) (n : Vector3) (horth : m.Orthonormal)
    (hz : n.z ≠ 0) : m.Transform n ≠ ⟨0, 0, 0⟩ := by
  obtain ⟨h11, h22, h33, h12, h13, h23⟩ := horth
  simp only [Vector3.Dot] at h11 h22 h33 h12 h13 h23
  intro hzero
  have e1 : n.x * m.r1.x + n.y * m.r1.y + n.z * m.r1.z = 0 := by
    have := congrArg Vector3.x hzero
    simpa [Matrix.Transform, Vector3.Dot] using this
  have e2 : n.x * m.r2.x + n.y * m.r2.y + n.z * m.r2.z = 0 := by
    have := congrArg Vector3.y hzero
    simpa [Matrix.Transform, Vector3.Dot] using this
  have e3 : n.x * m.r3.x + n.y * m.r3.y + n.z * m.r3.z = 0 := by
    have := congrArg Vector3.z hzero
    simpa [Matrix.Transform, Vector3.Dot] using this
  have hdet2 : (m.r1.x * (m.r2.y * m.r3.z - m.r2.z * m.r3.y)
      - m.r1.y * (m.r2.x * m.r3.z - m.r2.z * m.r3.x)
      + m.r1.z * (m.r2.x * m.r3.y - m.r2.y * m.r3.x)) ^ 2 = 1 := by
    have hgram : (m.r1.x * (m.r2.y * m.r3.z - m.r2.z * m.r3.y)
        - m.r1.y * (m.r2.x * m.r3.z - m.r2.z * m.r3.x)
        + m.r1.z * (m.r2.x * m.r3.y - m.r2.y * m.r3.x)) ^ 2 =
        (m.r1.x * m.r1.x + m.r1.y * m.r1.y + m.r1.z * m.r1.z) *
          (m.r2.x * m.r2.x + m.r2.y * m.r2.y + m.r2.z * m.r2.z) *
          (m.r3.x * m.r3.x + m.r3.y * m.r3.y + m.r3.z * m.r3.z)
        + 2 * (m.r1.x * m.r2.x + m.r1.y * m.r2.y + m.r1.z * m.r2.z) *
          (m.r2.x * m.r3.x + m.r2.y * m.r3.y + m.r2.z * m.r3.z) *
          (m.r1.x * m.r3.x + m.r1.y * m.r3.y + m.r1.z * m.r3.z)
        - (m.r1.x * m.r1.x + m.r1.y * m.r1.y + m.r1.z * m.r1.z) *
          (m.r2.x * m.r3.x + m.r2.y * m.r3.y + m.r2.z * m.r3.z) ^ 2
        - (m.r2.x * m.r2.x + m.r2.y * m.r2.y + m.r2.z * m.r2.z) *
          (m.r1.x * m.r3.x + m.r1.y * m.r3.y + m.r1.z * m.r3.z) ^ 2
        - (m.r3.x * m.r3.x + m.r3.y * m.r3.y + m.r3.z * m.r3.z) *
          (m.r1.x * m.r2.x + m.r1.y * m.r2.y + m.r1.z * m.r2.z) ^ 2 := by
      ring
    rw [hgram, h11, h22, h33, h12, h13, h23]
    norm_num
  have hcramer : (m.r1.x * (m.r2.y * m.r3.z - m.r2.z * m.r3.y)
      - m.r1.y * (m.r2.x * m.r3.z - m.r2.z * m.r3.x)
      + m.r1.z * (m.r2.x * m.r3.y - m.r2.y * m.r3.x)) * n.z =
      (n.x * m.r1.x + n.y * m.r1.y + n.z * m.r1.z) * (m.r2.x * m.r3.y - m.r2.y * m.r3.x)
      - (n.x * m.r2.x + n.y * m.r2.y + n.z * m.r2.z) * (m.r1.x * m.r3.y - m.r1.y * m.r3.x)
      + (n.x * m.r3.x + n.y * m.r3.y + n.z * m.r3.z) * (m.r1.x * m.r2.y - m.r1.y * m.r2.x) := by
    ring
  rw [e1, e2, e3] at hcramer
  simp only [zero_mul, sub_zero, add_zero] at hcramer
  rcases mul_eq_zero.mp hcramer with hd | hn
  · rw [hd] at hdet2
    norm_num at hdet2
  · exact hz hn

theorem lightInCube_primary_raycast :
    Raycast 1 ⟨0, 0, 0⟩ ⟨0, 0, 1⟩ 50 lightInCubeScene 1 1 =
      some (true, some (.cube frontCube), ⟨0, 0, 1⟩) := by
  have hp : (⟨0, 0, 0⟩ : Vector3).Add
      ((⟨0, 0, 1⟩ : Vector3).Normalise.Scale (if (0 : ℝ) = 0 then 1 else 1)) = ⟨0, 0, 1⟩ := by
    rw [normalise_zAxis]
    simp [Vector3.Add, Vector3.Scale]
  have hs : scanObjects lightInCubeScene.objects ⟨0, 0, 1⟩ = some (.cube frontCube) := by
    simp only [lightInCubeScene, scanObjects, Object.CheckIfInside, Cube.CheckIfInside,
      frontCube]
    norm_num
  unfold Raycast
  rw [RaycastLoop_found _ _ _ _ _ _ _ _ (.cube frontCube) (by norm_num) (by rw [hp]; exact hs),
    hp]

/-- C14 fails as stated: with `camRot` the zero matrix every primary direction has magnitude
`0`; with `camRot = Rotate(0, 0)` the primary direction of pixel `(1,1)` of a `2 × 2` image
has magnitude `0`; and in `lightInCubeScene` the primary march of pixel `(1,1)` hits at the
light position `(0,0,1)`, so the shadow direction `light.position - h` has magnitude `0`. -/
theorem render_passes_zero_length_direction :
    (∀ x y : ℝ, (primaryDirection ⟨3, 2, 2, 1, zeroMatrix⟩ x y).Magnitude = 0) ∧
    (primaryDirection rotateGlobals ((1 : Nat) : ℝ) ((1 : Nat) : ℝ)).Magnitude = 0 ∧
    (RaycastReturns demoCamera.position
        (primaryDirection demoGlobals ((1 : Nat) : ℝ) ((1 : Nat) : ℝ)) 50 lightInCubeScene
        demoGlobals.step demoGlobals.step (true, some (.cube frontCube), ⟨0, 0, 1⟩) ∧
      (shadowDirection lightInCubeScene ⟨0, 0, 1⟩).Magnitude = 0) := by
  refine ⟨?_, ?_, ⟨?_, ?_⟩⟩
  · intro x y
    rw [magnitude_eq_zero_iff]
    simp [primaryDirection, zeroMatrix, Matrix.Transform, Vector3.Dot]
  · rw [magnitude_eq_zero_iff]
    simp [primaryDirection, rotateGlobals, Camera.Rotate, Camera.RotateX, Camera.RotateY,
      Matrix.Multiply, Matrix.Transform, Vector3.Dot]
  · rw [demo_primaryDirection]
    exact ⟨1, lightInCube_primary_raycast⟩
  · rw [magnitude_eq_zero_iff]
    simp [shadowDirection, lightInCubeScene, Vector3.Add, Vector3.Scale]

/-- Over the reals (exact arithmetic, `float64` rounding and underflow left out), if `camRot`
has orthonormal rows, the primary direction `Transform(camRot, (ndcX, ndcY, 1))` of every pixel
has non-zero magnitude; the shadow direction `light.position - h` has non-zero magnitude
exactly when the hit position `h` is not the light position. -/
theorem render_direction_nonzero_of_orthonormal (g : Globals) (scene : Scene) (x y : ℝ)
    (horth : g.camRot.Orthonormal) :
    (primaryDirection g x y).Magnitude ≠ 0 ∧
    (∀ h : Vector3, (shadowDirection scene h).Magnitude ≠ 0 ↔ h ≠ scene.light.position) := by
  constructor
  · rw [Ne, magnitude_eq_zero_iff]
    unfold primaryDirection
    exact transform_ne_zero_of_orthonormal _ _ horth (by norm_num)
  · intro h
    rw [Ne, magnitude_eq_zero_iff, not_iff_not]
    unfold shadowDirection
    constructor
    · intro hz
      have hx := congrArg Vector3.x hz
      have hy := congrArg Vector3.y hz
      have hzz := congrArg Vector3.z hz
      simp only [Vector3.Add, Vector3.Scale] at hx hy hzz
      ext <;> linarith
    · intro he
      rw [he]
      ext <;> simp [Vector3.Add, Vector3.Scale]

/-- The identity orientation has orthonormal rows, so over the reals the primary direction of
the demo pixel has non-zero magnitude. -/
theorem render_direction_nonzero_of_orthonormal_witness :
    (primaryDirection demoGlobals ((1 : Nat) : ℝ) ((1 : Nat) : ℝ)).Magnitude ≠ 0 :=
  (render_direction_nonzero_of_orthonormal demoGlobals behindLightScene _ _
    (by simp [Matrix.Orthonormal, demoGlobals, identityMatrix, Vector3.Dot])).1

/-! ## Degenerate objects (C15) -/

/-- C15 fails as stated: the cube with `xLen = -1` is appended to the scene like any other
object, and `CheckIfInside` produces the result `false` for it at `(1,1,1)`. -/
theorem degenerate_cube_accepted :
    negativeCube.xLen < 0 ∧
    (addObject ⟨[], ⟨⟨0, 0, -3⟩⟩⟩ (.cube negativeCube)).objects = [.cube negativeCube] ∧
    (Object.cube negativeCube).CheckIfInside ⟨1, 1, 1⟩ = false := by
  refine ⟨by norm_num [negativeCube], rfl, ?_⟩
  simp only [Object.CheckIfInside, Cube.CheckIfInside, negativeCube]
  norm_num

/-- The statement that builds the scene appends every object without validation, and for a
cube with a negative extent `CheckIfInside` returns `false` at every point. -/
theorem negative_cube_contains_nothing (scene : Scene) (c : Cube) (p : Vector3)
    (hneg : c.xLen < 0 ∨ c.yLen < 0 ∨ c.zLen < 0) :
    (addObject scene (.cube c)).objects = scene.objects ++ [.cube c] ∧
    Object.cube c ∈ (addObject scene (.cube c)).objects ∧
    (Object.cube c).CheckIfInside p = false := by
  refine ⟨rfl, by simp [addObject], ?_⟩
  simp only [Object.CheckIfInside, Cube.CheckIfInside]
  rw [if_neg]
  rintro ⟨h1, h2, h3, h4, h5, h6⟩
  rcases hneg with h | h | h <;> linarith

/-- The cube with `xLen = -1` is in the scene built from it and does not contain `(1,1,1)`. -/
theorem negative_cube_contains_nothing_witness :
    Object.cube negativeCube ∈
      (addObject ⟨[], ⟨⟨0, 0, -3⟩⟩⟩ (.cube negativeCube)).objects ∧
    (Object.cube negativeCube).CheckIfInside ⟨1, 1, 1⟩ = false :=
  (negative_cube_contains_nothing ⟨[], ⟨⟨0, 0, -3⟩⟩⟩ negativeCube ⟨1, 1, 1⟩
    (Or.inl (by norm_num [negativeCube]))).2

/-! ## Counting march increments over the reals (C17) -/

/-- The three ways one round of the instrumented loop can go. -/
theorem RaycastLoopCount_cases (direction : Vector3) (distance : ℝ) (scene : Scene)
    (step initalstep : ℝ) (fuel : Nat) (x : ℝ) (pos : Vector3) (n : Nat) :
    (¬ x < distance ∧
      RaycastLoopCount direction distance scene step initalstep (fuel + 1) x pos n =
        some ((false, none, ⟨0, 0, 0⟩), n)) ∨
    (x < distance ∧ ∃ o, scanObjects scene.objects
        (pos.Add (direction.Normalise.Scale (if x = 0 then initalstep else step))) = some o ∧
      RaycastLoopCount direction distance scene step initalstep (fuel + 1) x pos n =
        some ((true, some o,
          pos.Add (direction.Normalise.Scale (if x = 0 then initalstep else step))), n + 1)) ∨
    (x < distance ∧ scanObjects scene.objects
        (pos.Add (direction.Normalise.Scale (if x = 0 then initalstep else step))) = none ∧
      RaycastLoopCount direction distance scene step initalstep (fuel + 1) x pos n =
        RaycastLoopCount direction distance scene step initalstep fuel (x + step)
          (pos.Add (direction.Normalise.Scale (if x = 0 then initalstep else step)))
          (n + 1)) := by
  by_cases hx : x < distance
  · cases ho : scanObjects scene.objects
        (pos.Add (direction.Normalise.Scale (if x = 0 then initalstep else step))) with
    | none =>
      refine Or.inr (Or.inr ⟨hx, rfl, ?_⟩)
      rw [RaycastLoopCount]
      simp only [hx, if_true, ho]
    | some o =>
      refine Or.inr (Or.inl ⟨hx, o, rfl, ?_⟩)
      rw [RaycastLoopCount]
      simp only [hx, if_true, ho]
  · refine Or.inl ⟨hx, ?_⟩
    rw [RaycastLoopCount]
    simp [hx]

/-- Forgetting the counter gives `RaycastLoop`. -/
theorem RaycastLoopCount_fst (direction : Vector3) (distance : ℝ) (scene : Scene)
    (step initalstep : ℝ) (fuel : Nat) :
    ∀ (x : ℝ) (pos : Vector3) (n : Nat),
      (RaycastLoopCount direction distance scene step initalstep fuel x pos n).map Prod.fst =
        RaycastLoop direction distance scene step initalstep fuel x pos := by
  induction fuel with
  | zero => intro x pos n; rfl
  | succ k ih =>
    intro x pos n
    rcases RaycastLoopCount_cases direction distance scene step initalstep k x pos n with
      ⟨hx, e⟩ | ⟨hx, o, ho, e⟩ | ⟨hx, ho, e⟩
    · rw [e, RaycastLoop_stop _ _ _ _ _ _ _ _ hx]
      rfl
    · rw [e, RaycastLoop_found _ _ _ _ _ _ _ _ o hx ho]
      rfl
    · rw [e, RaycastLoop_next _ _ _ _ _ _ _ _ hx ho]
      exact ih _ _ _

/-- The instrumented `RaycastCount` returns exactly when `Raycast` does, with the same triple. -/
theorem RaycastCount_fst (fuel : Nat) (origin direction : Vector3) (distance : ℝ)
    (scene : Scene) (step initalstep : ℝ) :
    (RaycastCount fuel origin direction distance scene step initalstep).map Prod.fst =
      Raycast fuel origin direction distance scene step initalstep :=
  RaycastLoopCount_fst _ _ _ _ _ _ _ _ _

/-- One more round is due while `x < distance`. -/
theorem ceil_rounds_succ (distance x step : ℝ) (hstep : 0 < step) (hx : x < distance) :
    Nat.ceil ((distance - x) / step) = Nat.ceil ((distance - (x + step)) / step) + 1 := by
  have hsplit : (distance - x) / step = (distance - (x + step)) / step + 1 := by
    field_simp
    ring
  have hpos : 0 < (distance - x) / step := div_pos (by linarith) hstep
  by_cases ha : 0 ≤ (distance - (x + step)) / step
  · rw [hsplit, Nat.ceil_add_one ha]
  · have ha2 : (distance - (x + step)) / step < 0 := not_le.mp ha
    rw [Nat.ceil_eq_zero.mpr ha2.le, zero_add]
    rw [Nat.ceil_eq_iff (by norm_num)]
    constructor
    · simpa using hpos
    · rw [hsplit]
      push_cast
      linarith

/-- With a positive step, a miss is returned after exactly `⌈(distance - x)/step⌉` further
increments and a hit after at least one and at most that many. -/
theorem RaycastLoopCount_rounds (direction : Vector3) (distance : ℝ) (scene : Scene)
    (step initalstep : ℝ) (hstep : 0 < step) (fuel : Nat) :
    ∀ (x : ℝ) (pos : Vector3) (n : Nat) (r : Bool × Option Object × Vector3) (m : Nat),
      RaycastLoopCount direction distance scene step initalstep fuel x pos n = some (r, m) →
      (r.1 = false → m = n + Nat.ceil ((distance - x) / step)) ∧
      (r.1 = true → n + 1 ≤ m ∧ m ≤ n + Nat.ceil ((distance - x) / step)) := by
  induction fuel with
  | zero => intro x pos n r m h; simp [RaycastLoopCount] at h
  | succ k ih =>
    intro x pos n r m h
    rcases RaycastLoopCount_cases direction distance scene step initalstep k x pos n with
      ⟨hx, e⟩ | ⟨hx, o, ho, e⟩ | ⟨hx, ho, e⟩
    · rw [e] at h
      simp only [Option.some.injEq, Prod.mk.injEq] at h
      obtain ⟨hr, hm⟩ := h
      subst hr hm
      have hle : (distance - x) / step ≤ 0 :=
        div_nonpos_of_nonpos_of_nonneg (by linarith [not_lt.mp hx]) hstep.le
      refine ⟨fun _ => ?_, fun hc => by simp at hc⟩
      rw [Nat.ceil_eq_zero.mpr hle]
      rfl
    · rw [e] at h
      simp only [Option.some.injEq, Prod.mk.injEq] at h
      obtain ⟨hr, hm⟩ := h
      subst hr hm
      refine ⟨fun hc => by simp at hc, fun _ => ⟨le_refl _, ?_⟩⟩
      rw [ceil_rounds_succ distance x step hstep hx]
      omega
    · rw [e] at h
      obtain ⟨h1, h2⟩ := ih _ _ _ _ _ h
      rw [ceil_rounds_succ distance x step hstep hx]
      constructor
      · intro hf
        have := h1 hf
        omega
      · intro ht
        have := h2 ht
        omega

/-- The number of march increments in exact real arithmetic (`float64` rounding left out):
for every step `> 0` `Raycast` terminates (any fuel above `⌈distance/step⌉` is enough); when
nothing is hit it performs exactly `⌈distance/step⌉` march increments if `distance > 0` and
none if `distance ≤ 0`, whatever the initial step; a hit takes at least one and at most that
many increments. -/
theorem raycast_increment_count (scene : Scene) (origin direction : Vector3)
    (distance step initalstep : ℝ) (hstep : 0 < step) :
    (∀ fuel : Nat, Nat.ceil (distance / step) < fuel →
      ∃ (r : Bool × Option Object × Vector3) (n : Nat),
        RaycastCount fuel origin direction distance scene step initalstep = some (r, n) ∧
        Raycast fuel origin direction distance scene step initalstep = some r) ∧
    (∀ (fuel : Nat) (r : Bool × Option Object × Vector3) (n : Nat),
      RaycastCount fuel origin direction distance scene step initalstep = some (r, n) →
      (r.1 = false →
        n = Nat.ceil (distance / step) ∧
        (distance ≤ 0 → n = 0) ∧
        (0 < distance → (n : ℤ) = Int.ceil (distance / step))) ∧
      (r.1 = true → 1 ≤ n ∧ n ≤ Nat.ceil (distance / step))) ∧
    (∀ (initalstep2 : ℝ) (fuel fuel2 : Nat) (r r2 : Bool × Option Object × Vector3)
      (n n2 : Nat),
      RaycastCount fuel origin direction distance scene step initalstep = some (r, n) →
      RaycastCount fuel2 origin direction distance scene step initalstep2 = some (r2, n2) →
      r.1 = false → r2.1 = false → n = n2) := by
  have hcount : ∀ (s0 : ℝ) (fuel : Nat) (r : Bool × Option Object × Vector3) (n : Nat),
      RaycastCount fuel origin direction distance scene step s0 = some (r, n) →
      (r.1 = false → n = Nat.ceil (distance / step)) ∧
      (r.1 = true → 1 ≤ n ∧ n ≤ Nat.ceil (distance / step)) := by
    intro s0 fuel r n h
    unfold RaycastCount at h
    obtain ⟨h1, h2⟩ := RaycastLoopCount_rounds direction distance scene step s0 hstep fuel
      _ _ _ _ _ h
    simp only [sub_zero, zero_add] at h1 h2
    exact ⟨h1, fun ht => by have := h2 ht; omega⟩
  refine ⟨?_, ?_, ?_⟩
  · intro fuel hfuel
    obtain ⟨r, hr⟩ := Raycast_returns origin direction distance scene step initalstep hstep
      fuel hfuel
    have hfst := RaycastCount_fst fuel origin direction distance scene step initalstep
    rw [hr] at hfst
    cases hc : RaycastCount fuel origin direction distance scene step initalstep with
    | none => rw [hc] at hfst; simp at hfst
    | some rn =>
      obtain ⟨r2, n⟩ := rn
      rw [hc] at hfst
      simp only [Option.map_some', Option.some.injEq] at hfst
      subst hfst
      exact ⟨r2, n, rfl, hr⟩
  · intro fuel r n h
    obtain ⟨h1, h2⟩ := hcount initalstep fuel r n h
    refine ⟨fun hf => ⟨h1 hf, ?_, ?_⟩, h2⟩
    · intro hd
      rw [h1 hf]
      exact Nat.ceil_eq_zero.mpr (div_nonpos_of_nonpos_of_nonneg hd hstep.le)
    · intro hd
      rw [h1 hf]
      exact Int.natCast_ceil_eq_ceil (div_pos hd hstep).le
  · intro s2 fuel fuel2 r r2 n n2 h h2 hf hf2
    rw [(hcount initalstep fuel r n h).1 hf, (hcount s2 fuel2 r2 n2 h2).1 hf2]

/-- The number of march increments over the reals at a concrete input: the march of distance
`3` with step `2` beside the cubes of `overlapScene` returns, and if it misses it has made
`⌈3/2⌉ = 2` increments. -/
theorem raycast_increment_count_witness :
    ∃ (r : Bool × Option Object × Vector3) (n : Nat),
      RaycastCount 3 ⟨5, 5, 0⟩ ⟨0, 0, 1⟩ 3 overlapScene 2 2 = some (r, n) ∧
      (r.1 = false → n = 2) := by
  have hceil : Nat.ceil ((3 : ℝ) / 2) = 2 := by
    rw [Nat.ceil_eq_iff (by norm_num)]
    constructor <;> norm_num
  have hthm := raycast_increment_count overlapScene ⟨5, 5, 0⟩ ⟨0, 0, 1⟩ 3 2 2 (by norm_num)
  obtain ⟨r, n, hc, _⟩ := hthm.1 3 (by rw [hceil]; norm_num)
  refine ⟨r, n, hc, fun hf => ?_⟩
  rw [((hthm.2.1 3 r n hc).1 hf).1, hceil]

theorem scanObjects_append (objs extra : List Object) (p : Vector3) :
    scanObjects (objs ++ extra) p =
      match scanObjects objs p with
      | some o => some o
      | none => scanObjects extra p := by
  induction objs with
  | nil => simp [scanObjects]
  | cons a rest ih =>
    by_cases ha : a.CheckIfInside p = true
    · simp [scanObjects, ha]
    · simp only [List.cons_append, scanObjects, ha]
      exact ih

/-- A hit is counted at least one increment after the count at entry. -/
theorem RaycastLoopCount_hit_lower (direction : Vector3) (distance : ℝ) (scene : Scene)
    (step initalstep : ℝ) (fuel : Nat) :
    ∀ (x : ℝ) (pos : Vector3) (n : Nat) (ob : Option Object) (p : Vector3) (m : Nat),
      RaycastLoopCount direction distance scene step initalstep fuel x pos n =
        some ((true, ob, p), m) → n + 1 ≤ m := by
  induction fuel with
  | zero => intro x pos n ob p m h; simp [RaycastLoopCount] at h
  | succ k ih =>
    intro x pos n ob p m h
    rcases RaycastLoopCount_cases direction distance scene step initalstep k x pos n with
      ⟨_, e⟩ | ⟨_, o, _, e⟩ | ⟨_, _, e⟩
    · rw [e] at h
      simp at h
    · rw [e] at h
      simp only [Option.some.injEq, Prod.mk.injEq] at h
      omega
    · rw [e] at h
      have := ih _ _ _ _ _ _ h
      omega

/-- Simulation of a march in a scene by the march in the scene with objects appended: a hit
stays a hit, not later, and if at the same increment then with the same object and
position. -/
theorem RaycastLoopCount_append (direction : Vector3) (distance : ℝ) (scene : Scene)
    (extra : List Object) (step initalstep : ℝ) (fuel : Nat) :
    ∀ (x : ℝ) (pos : Vector3) (n : Nat) (ob : Option Object) (p : Vector3) (m : Nat),
      RaycastLoopCount direction distance scene step initalstep fuel x pos n =
        some ((true, ob, p), m) →
      ∃ (ob2 : Option Object) (p2 : Vector3) (m2 : Nat),
        RaycastLoopCount direction distance ⟨scene.objects ++ extra, scene.light⟩ step
          initalstep fuel x pos n = some ((true, ob2, p2), m2) ∧
        m2 ≤ m ∧ (m2 = m → ob2 = ob ∧ p2 = p) := by
  induction fuel with
  | zero => intro x pos n ob p m h; simp [RaycastLoopCount] at h
  | succ k ih =>
    intro x pos n ob p m h
    rcases RaycastLoopCount_cases direction distance scene step initalstep k x pos n with
      ⟨_, e⟩ | ⟨hx, o, ho, e⟩ | ⟨hx, ho, e⟩
    · rw [e] at h
      simp at h
    · rw [e] at h
      simp only [Option.some.injEq, Prod.mk.injEq, true_and] at h
      obtain ⟨⟨hob, hp⟩, hm⟩ := h
      subst hob hp hm
      have ho2 : scanObjects (scene.objects ++ extra)
          (pos.Add (direction.Normalise.Scale (if x = 0 then initalstep else step))) =
            some o := by
        rw [scanObjects_append, ho]
      rcases RaycastLoopCount_cases direction distance ⟨scene.objects ++ extra, scene.light⟩
          step initalstep k x pos n with ⟨hx2, _⟩ | ⟨_, o2, ho3, e2⟩ | ⟨_, ho3, _⟩
      · exact absurd hx hx2
      · simp only at ho3
        rw [ho2] at ho3
        simp only [Option.some.injEq] at ho3
        subst ho3
        exact ⟨_, _, _, e2, le_refl _, fun _ => ⟨rfl, rfl⟩⟩
      · simp only at ho3
        rw [ho2] at ho3
        simp at ho3
    · rw [e] at h
      have hlow := RaycastLoopCount_hit_lower _ _ _ _ _ _ _ _ _ _ _ _ h
      rcases RaycastLoopCount_cases direction distance ⟨scene.objects ++ extra, scene.light⟩
          step initalstep k x pos n with ⟨hx2, _⟩ | ⟨_, o2, _, e2⟩ | ⟨_, _, e2⟩
      · exact absurd hx hx2
      · refine ⟨_, _, _, e2, by omega, fun hm => ?_⟩
        omega
      · rw [e2]
        exact ih _ _ _ _ _ _ h

/-- C17: for a non-zero direction and a positive step, if `Raycast` on scene `S` reports a hit
at march increment `k`, then `Raycast` on the scene whose object list is `S`'s followed by `T`
also reports a hit, at an increment `k2 ≤ k`, and when `k2 = k` it returns the same object and
position as on `S`. -/
theorem raycast_append_objects_keeps_hit (scene : Scene) (extra : List Object)
    (origin direction : Vector3) (distance step initalstep : ℝ)
    (_hdir : direction ≠ ⟨0, 0, 0⟩) (_hstep : 0 < step) (fuel : Nat)
    (ob : Option Object) (p : Vector3) (k : Nat)
    (h : RaycastCount fuel origin direction distance scene step initalstep =
      some ((true, ob, p), k)) :
    Raycast fuel origin direction distance scene step initalstep = some (true, ob, p) ∧
    ∃ (ob2 : Option Object) (p2 : Vector3) (k2 : Nat),
      RaycastCount fuel origin direction distance ⟨scene.objects ++ extra, scene.light⟩ step
        initalstep = some ((true, ob2, p2), k2) ∧
      Raycast fuel origin direction distance ⟨scene.objects ++ extra, scene.light⟩ step
        initalstep = some (true, ob2, p2) ∧
      k2 ≤ k ∧ (k2 = k → ob2 = ob ∧ p2 = p) := by
  have hfst := RaycastCount_fst fuel origin direction distance scene step initalstep
  rw [h] at hfst
  refine ⟨hfst.symm, ?_⟩
  obtain ⟨ob2, p2, k2, h2, hle, heq⟩ :=
    RaycastLoopCount_append direction distance scene extra step initalstep fuel _ _ _ _ _ _ h
  have hfst2 := RaycastCount_fst fuel origin direction distance
    ⟨scene.objects ++ extra, scene.light⟩ step initalstep
  unfold RaycastCount at hfst2
  rw [h2] at hfst2
  exact ⟨ob2, p2, k2, h2, hfst2.symm, hle, heq⟩

theorem RaycastLoopCount_found (direction : Vector3) (distance : ℝ) (scene : Scene)
    (step initalstep : ℝ) (fuel : Nat) (x : ℝ) (pos : Vector3) (n : Nat) (o : Object)
    (hx : x < distance)
    (ho : scanObjects scene.objects
      (pos.Add (direction.Normalise.Scale (if x = 0 then initalstep else step))) = some o) :
    RaycastLoopCount direction distance scene step initalstep (fuel + 1) x pos n =
      some ((true, some o,
        pos.Add (direction.Normalise.Scale (if x = 0 then initalstep else step))), n + 1) := by
  rw [RaycastLoopCount]
  simp only [hx, if_true, ho]

theorem RaycastLoopCount_next (direction : Vector3) (distance : ℝ) (scene : Scene)
    (step initalstep : ℝ) (fuel : Nat) (x : ℝ) (pos : Vector3) (n : Nat) (hx : x < distance)
    (ho : scanObjects scene.objects
      (pos.Add (direction.Normalise.Scale (if x = 0 then initalstep else step))) = none) :
    RaycastLoopCount direction distance scene step initalstep (fuel + 1) x pos n =
      RaycastLoopCount direction distance scene step initalstep fuel (x + step)
        (pos.Add (direction.Normalise.Scale (if x = 0 then initalstep else step))) (n + 1) := by
  rw [RaycastLoopCount]
  simp only [hx, if_true, ho]

/-- The march of `beyondScene_raycast` hits in its second increment. -/
theorem beyondScene_raycastCount :
    RaycastCount 2 ⟨0, 0, 0⟩ ⟨0, 0, 1⟩ 3 beyondScene 2 2 =
      some ((true, some (.cube beyondCube), ⟨0, 0, 4⟩), 2) := by
  have hp : (⟨0, 0, 0⟩ : Vector3).Add
      ((⟨0, 0, 1⟩ : Vector3).Normalise.Scale (if (0 : ℝ) = 0 then 2 else 2)) = ⟨0, 0, 2⟩ := by
    rw [normalise_zAxis]
    simp [Vector3.Add, Vector3.Scale]
  have hp2 : (⟨0, 0, 2⟩ : Vector3).Add
      ((⟨0, 0, 1⟩ : Vector3).Normalise.Scale (if (0 : ℝ) + 2 = 0 then 2 else 2)) =
        ⟨0, 0, 4⟩ := by
    rw [normalise_zAxis]
    simp only [Vector3.Add, Vector3.Scale]
    norm_num
  have hs : scanObjects beyondScene.objects ⟨0, 0, 2⟩ = none := by
    simp only [beyondScene, scanObjects, Object.CheckIfInside, Cube.CheckIfInside, beyondCube]
    norm_num
  have hs2 : scanObjects beyondScene.objects ⟨0, 0, 4⟩ = some (.cube beyondCube) := by
    simp only [beyondScene, scanObjects, Object.CheckIfInside, Cube.CheckIfInside, beyondCube]
    norm_num
  unfold RaycastCount
  rw [RaycastLoopCount_next _ _ _ _ _ _ _ _ _ (by norm_num) (by rw [hp]; exact hs), hp,
    RaycastLoopCount_found _ _ _ _ _ _ _ _ _ (.cube beyondCube) (by norm_num)
      (by rw [hp2]; exact hs2), hp2]

/-- C17 at a concrete input: appending `nearCube` to `beyondScene`, whose march hits in its
second increment, gives a march that hits after at most two increments. -/
theorem raycast_append_objects_keeps_hit_witness :
    ∃ (ob2 : Option Object) (p2 : Vector3) (k2 : Nat),
      RaycastCount 2 ⟨0, 0, 0⟩ ⟨0, 0, 1⟩ 3
        ⟨beyondScene.objects ++ [.cube nearCube], beyondScene.light⟩ 2 2 =
          some ((true, ob2, p2), k2) ∧
      Raycast 2 ⟨0, 0, 0⟩ ⟨0, 0, 1⟩ 3
        ⟨beyondScene.objects ++ [.cube nearCube], beyondScene.light⟩ 2 2 =
          some (true, ob2, p2) ∧
      k2 ≤ 2 ∧ (k2 = 2 → ob2 = some (.cube beyondCube) ∧ p2 = ⟨0, 0, 4⟩) :=
  (raycast_append_objects_keeps_hit beyondScene [.cube nearCube] ⟨0, 0, 0⟩ ⟨0, 0, 1⟩ 3 2 2
    zAxis_ne_zero (by norm_num) 2 (some (.cube beyondCube)) ⟨0, 0, 4⟩ 2
    beyondScene_raycastCount).2

/-! ## The marcher in an arbitrary arithmetic -/

namespace Generic

theorem scan_none_iff_inside {S : Type} (A : Arith S) (objs : List (Object S))
    (p : Vector3 S) :
    scanObjects A objs p = none ↔ ∀ o, o ∈ objs → Object.CheckIfInside A o p = false := by
  induction objs with
  | nil => simp [scanObjects]
  | cons a rest ih =>
    by_cases ha : Object.CheckIfInside A a p = true
    · simp [scanObjects, ha]
    · simp [scanObjects, ha, ih]

theorem scan_isSome_iff_inside {S : Type} (A : Arith S) (objs : List (Object S))
    (p : Vector3 S) :
    (scanObjects A objs p).isSome = true ↔
      ∃ o, o ∈ objs ∧ Object.CheckIfInside A o p = true := by
  rw [← Option.ne_none_iff_isSome, Ne, scan_none_iff_inside]
  push_neg
  simp

/-- The three ways one round of the loop can go. -/
theorem loop_round_cases {S : Type} (A : Arith S) (direction : Vector3 S) (distance : S)
    (scene : Scene S) (step initalstep : S) (fuel : Nat) (x : S) (pos : Vector3 S) (n : Nat) :
    (A.lt x distance = false ∧
      RaycastLoopCount A direction distance scene step initalstep (fuel + 1) x pos n =
        some ((false, none, ⟨A.zero, A.zero, A.zero⟩), n)) ∨
    (A.lt x distance = true ∧ ∃ o, scanObjects A scene.objects
        (Vector3.Add A pos (Vector3.Scale A (Vector3.Normalise A direction)
          (if A.eq x A.zero then initalstep else step))) = some o ∧
      RaycastLoopCount A direction distance scene step initalstep (fuel + 1) x pos n =
        some ((true, some o,
          Vector3.Add A pos (Vector3.Scale A (Vector3.Normalise A direction)
            (if A.eq x A.zero then initalstep else step))), n + 1)) ∨
    (A.lt x distance = true ∧ scanObjects A scene.objects
        (Vector3.Add A pos (Vector3.Scale A (Vector3.Normalise A direction)
          (if A.eq x A.zero then initalstep else step))) = none ∧
      RaycastLoopCount A direction distance scene step initalstep (fuel + 1) x pos n =
        RaycastLoopCount A direction distance scene step initalstep fuel (A.add x step)
          (Vector3.Add A pos (Vector3.Scale A (Vector3.Normalise A direction)
            (if A.eq x A.zero then initalstep else step))) (n + 1)) := by
  cases hx : A.lt x distance with
  | false =>
    refine Or.inl ⟨rfl, ?_⟩
    rw [RaycastLoopCount]
    simp [hx]
  | true =>
    cases ho : scanObjects A scene.objects
        (Vector3.Add A pos (Vector3.Scale A (Vector3.Normalise A direction)
          (if A.eq x A.zero then initalstep else step))) with
    | none =>
      refine Or.inr (Or.inr ⟨rfl, rfl, ?_⟩)
      rw [RaycastLoopCount]
      simp only [hx, if_true, ho]
    | some o =>
      refine Or.inr (Or.inl ⟨rfl, o, rfl, ?_⟩)
      rw [RaycastLoopCount]
      simp only [hx, if_true, ho]

/-- The trace of the loop entered at the start of round `k`: a hit is returned in the first
round `j ≥ k` whose tested position some object contains, all rounds up to `j` having passed
the loop condition; a miss is returned at the first round `m ≥ k` whose loop variable fails
the loop condition, no round before having found an object.  The counter is the number of
rounds run. -/
theorem RaycastLoopCount_trace {S : Type} (A : Arith S) (origin direction : Vector3 S)
    (distance : S) (scene : Scene S) (step initalstep : S) (fuel : Nat) :
    ∀ (k : Nat) (r : Bool × Option (Object S) × Vector3 S) (m : Nat),
      RaycastLoopCount A direction distance scene step initalstep fuel (loopVariable A step k)
        (rayPositionAfter A origin direction step initalstep k) k = some (r, m) →
      (∃ j : Nat, k ≤ j ∧ m = j + 1 ∧
        (∀ i : Nat, k ≤ i → i ≤ j → A.lt (loopVariable A step i) distance = true) ∧
        (∃ o, scanObjects A scene.objects
            (testedPosition A origin direction step initalstep j) = some o ∧
          r = (true, some o, testedPosition A origin direction step initalstep j)) ∧
        ∀ i : Nat, k ≤ i → i < j → scanObjects A scene.objects
          (testedPosition A origin direction step initalstep i) = none) ∨
      (r = (false, none, ⟨A.zero, A.zero, A.zero⟩) ∧ k ≤ m ∧
        A.lt (loopVariable A step m) distance = false ∧
        ∀ i : Nat, k ≤ i → i < m →
          (A.lt (loopVariable A step i) distance = true ∧
            scanObjects A scene.objects
              (testedPosition A origin direction step initalstep i) = none)) := by
  induction fuel with
  | zero => intro k r m h; simp [RaycastLoopCount] at h
  | succ f ih =>
    intro k r m h
    rcases loop_round_cases A direction distance scene step initalstep f
        (loopVariable A step k) (rayPositionAfter A origin direction step initalstep k) k with
      ⟨hx, e⟩ | ⟨hx, o, ho, e⟩ | ⟨hx, ho, e⟩
    · rw [e] at h
      simp only [Option.some.injEq, Prod.mk.injEq] at h
      obtain ⟨hr, hm⟩ := h
      subst hm
      refine Or.inr ⟨hr.symm, le_refl _, hx, ?_⟩
      intro i hki hik
      omega
    · rw [e] at h
      simp only [Option.some.injEq, Prod.mk.injEq] at h
      obtain ⟨hr, hm⟩ := h
      refine Or.inl ⟨k, le_refl _, hm.symm, ?_, ⟨o, ho, hr.symm⟩, ?_⟩
      · intro i hki hik
        have : i = k := by omega
        rw [this]
        exact hx
      · intro i hki hik
        omega
    · rw [e] at h
      rcases ih (k + 1) r m h with ⟨j, hkj, hm, hrun, hhit, hbefore⟩ | ⟨hr, hkm, hstop, hall⟩
      · refine Or.inl ⟨j, by omega, hm, ?_, hhit, ?_⟩
        · intro i hki hij
          by_cases hik : i = k
          · rw [hik]; exact hx
          · exact hrun i (by omega) hij
        · intro i hki hij
          by_cases hik : i = k
          · rw [hik]; exact ho
          · exact hbefore i (by omega) hij
      · refine Or.inr ⟨hr, by omega, hstop, ?_⟩
        intro i hki him
        by_cases hik : i = k
        · rw [hik]; exact ⟨hx, ho⟩
        · exact hall i (by omega) him

/-- The loop entered at the start of round `k` returns within `d + 1` evaluations of the loop
condition if round `k + d` fails the loop condition or finds an object. -/
theorem RaycastLoopCount_returns {S : Type} (A : Arith S) (origin direction : Vector3 S)
    (distance : S) (scene : Scene S) (step initalstep : S) (d : Nat) :
    ∀ (k fuel : Nat), d < fuel →
      (A.lt (loopVariable A step (k + d)) distance = false ∨
        (scanObjects A scene.objects
          (testedPosition A origin direction step initalstep (k + d))).isSome = true) →
      ∃ (r : Bool × Option (Object S) × Vector3 S) (m : Nat),
        RaycastLoopCount A direction distance scene step initalstep fuel
          (loopVariable A step k) (rayPositionAfter A origin direction step initalstep k) k =
            some (r, m) := by
  induction d with
  | zero =>
    intro k fuel hf hend
    obtain ⟨f, rfl⟩ : ∃ f, fuel = f + 1 := ⟨fuel - 1, by omega⟩
    rcases loop_round_cases A direction distance scene step initalstep f
        (loopVariable A step k) (rayPositionAfter A origin direction step initalstep k) k with
      ⟨_, e⟩ | ⟨_, o, _, e⟩ | ⟨hx, ho, _⟩
    · exact ⟨_, _, e⟩
    · exact ⟨_, _, e⟩
    · exfalso
      simp only [Nat.add_zero] at hend
      rcases hend with h1 | h2
      · rw [hx] at h1
        simp at h1
      · have ho2 : scanObjects A scene.objects
            (testedPosition A origin direction step initalstep k) = none := ho
        rw [ho2] at h2
        simp at h2
  | succ d ih =>
    intro k fuel hf hend
    obtain ⟨f, rfl⟩ : ∃ f, fuel = f + 1 := ⟨fuel - 1, by omega⟩
    rcases loop_round_cases A direction distance scene step initalstep f
        (loopVariable A step k) (rayPositionAfter A origin direction step initalstep k) k with
      ⟨_, e⟩ | ⟨_, o, _, e⟩ | ⟨_, _, e⟩
    · exact ⟨_, _, e⟩
    · exact ⟨_, _, e⟩
    · rw [e]
      have hkd : k + 1 + d = k + (d + 1) := by omega
      exact ih (k + 1) f (by omega) (by rw [hkd]; exact hend)

end Generic

namespace Generic

theorem Raycast_eq_some {S : Type} (A : Arith S) (fuel : Nat) (origin direction : Vector3 S)
    (distance : S) (scene : Scene S) (step initalstep : S)
    (r : Bool × Option (Object S) × Vector3 S)
    (h : Raycast A fuel origin direction distance scene step initalstep = some r) :
    ∃ m, RaycastCount A fuel origin direction distance scene step initalstep = some (r, m) := by
  unfold Raycast at h
  cases hc : RaycastCount A fuel origin direction distance scene step initalstep with
  | none => rw [hc] at h; simp at h
  | some rm =>
    obtain ⟨r2, m⟩ := rm
    rw [hc] at h
    simp only [Option.map_some', Option.some.injEq] at h
    subst h
    exact ⟨m, rfl⟩

/-- The description of a returned `RaycastCount` by rounds, from round `0`. -/
theorem RaycastCount_trace {S : Type} (A : Arith S) (fuel : Nat) (origin direction : Vector3 S)
    (distance : S) (scene : Scene S) (step initalstep : S)
    (r : Bool × Option (Object S) × Vector3 S) (m : Nat)
    (h : RaycastCount A fuel origin direction distance scene step initalstep = some (r, m)) :
    (∃ j : Nat, m = j + 1 ∧
      (∀ i : Nat, i ≤ j → A.lt (loopVariable A step i) distance = true) ∧
      (∃ o, scanObjects A scene.objects
          (testedPosition A origin direction step initalstep j) = some o ∧
        r = (true, some o, testedPosition A origin direction step initalstep j)) ∧
      ∀ i : Nat, i < j → scanObjects A scene.objects
        (testedPosition A origin direction step initalstep i) = none) ∨
    (r = (false, none, ⟨A.zero, A.zero, A.zero⟩) ∧
      A.lt (loopVariable A step m) distance = false ∧
      ∀ i : Nat, i < m →
        (A.lt (loopVariable A step i) distance = true ∧
          scanObjects A scene.objects
            (testedPosition A origin direction step initalstep i) = none)) := by
  rcases RaycastLoopCount_trace A origin direction distance scene step initalstep fuel 0 r m h
    with ⟨j, _, hm, hrun, hhit, hbefore⟩ | ⟨hr, _, hstop, hall⟩
  · exact Or.inl ⟨j, hm, fun i hi => hrun i (Nat.zero_le i) hi, hhit,
      fun i hi => hbefore i (Nat.zero_le i) hi⟩
  · exact Or.inr ⟨hr, hstop, fun i hi => hall i (Nat.zero_le i) hi⟩

/-- C2 as amended: in every arithmetic, with the loop variable `x₀ = 0`, `xₖ₊₁ = xₖ + step`
and the tested positions `p₀ = origin + u·t₀`, `pₖ₊₁ = pₖ + u·tₖ₊₁` (`u = Normalise(d)`, `tₖ`
the initial step when `xₖ == 0` and `step` otherwise), all accumulated as the code computes
them, round `k` is run when `x₀, …, xₖ` are all below `distance`.  A returning `Raycast`
reports a hit iff some run round tests a position inside some scene object, and the position
returned with a hit is the tested position of the least such round; `Raycast` does return a
hit when there is such a round, and returns when some `xₙ` is not below `distance`. -/
theorem raycast_hit_iff_tested_position_inside {S : Type} (A : Arith S) (scene : Scene S)
    (origin direction : Vector3 S) (distance step initalstep : S) :
    ((loopVariable A step 0 = A.zero ∧
        ∀ k : Nat, loopVariable A step (k + 1) = A.add (loopVariable A step k) step) ∧
      (testedPosition A origin direction step initalstep 0 =
          Vector3.Add A origin (Vector3.Scale A (Vector3.Normalise A direction)
            (if A.eq A.zero A.zero then initalstep else step)) ∧
        ∀ k : Nat, testedPosition A origin direction step initalstep (k + 1) =
          Vector3.Add A (testedPosition A origin direction step initalstep k)
            (Vector3.Scale A (Vector3.Normalise A direction)
              (if A.eq (loopVariable A step (k + 1)) A.zero then initalstep else step)))) ∧
    (∀ (fuel : Nat) (r : Bool × Option (Object S) × Vector3 S),
      Raycast A fuel origin direction distance scene step initalstep = some r →
      (r.1 = true ↔ ∃ k : Nat,
        (∀ j : Nat, j ≤ k → A.lt (loopVariable A step j) distance = true) ∧
        ∃ o, o ∈ scene.objects ∧ Object.CheckIfInside A o
          (testedPosition A origin direction step initalstep k) = true) ∧
      (r.1 = true → ∃ k : Nat,
        (∀ j : Nat, j ≤ k → A.lt (loopVariable A step j) distance = true) ∧
        r.2.2 = testedPosition A origin direction step initalstep k ∧
        (∃ o, o ∈ scene.objects ∧ Object.CheckIfInside A o
          (testedPosition A origin direction step initalstep k) = true) ∧
        ∀ j : Nat, j < k → ∀ o, o ∈ scene.objects → Object.CheckIfInside A o
          (testedPosition A origin direction step initalstep j) = false)) ∧
    ((∃ k : Nat, (∀ j : Nat, j ≤ k → A.lt (loopVariable A step j) distance = true) ∧
        ∃ o, o ∈ scene.objects ∧ Object.CheckIfInside A o
          (testedPosition A origin direction step initalstep k) = true) →
      ∃ (fuel : Nat) (r : Bool × Option (Object S) × Vector3 S),
        Raycast A fuel origin direction distance scene step initalstep = some r ∧
        r.1 = true) ∧
    ((∃ n : Nat, A.lt (loopVariable A step n) distance = false) →
      ∃ (fuel : Nat) (r : Bool × Option (Object S) × Vector3 S),
        Raycast A fuel origin direction distance scene step initalstep = some r) := by
  refine ⟨⟨⟨rfl, fun _ => rfl⟩, ⟨rfl, fun _ => rfl⟩⟩, ?_, ?_, ?_⟩
  · intro fuel r h
    obtain ⟨m, hm⟩ := Raycast_eq_some A fuel origin direction distance scene step initalstep r h
    rcases RaycastCount_trace A fuel origin direction distance scene step initalstep r m hm with
      ⟨j, _, hrun, ⟨o, hso, hr⟩, hbefore⟩ | ⟨hr, hstop, hall⟩
    · have hin : ∃ o, o ∈ scene.objects ∧ Object.CheckIfInside A o
          (testedPosition A origin direction step initalstep j) = true :=
        (scan_isSome_iff_inside A _ _).mp (by rw [hso]; rfl)
      subst hr
      refine ⟨⟨fun _ => ⟨j, hrun, hin⟩, fun _ => rfl⟩, fun _ => ⟨j, hrun, rfl, hin, ?_⟩⟩
      intro i hi o ho
      exact (scan_none_iff_inside A _ _).mp (hbefore i hi) o ho
    · subst hr
      refine ⟨⟨fun hc => by simp at hc, ?_⟩, fun hc => by simp at hc⟩
      rintro ⟨k, hrun, o, ho, hin⟩
      have hkm : k < m := by
        by_contra hge
        have := hrun m (by omega)
        rw [hstop] at this
        simp at this
      have := (scan_none_iff_inside A _ _).mp (hall k hkm).2 o ho
      rw [this] at hin
      simp at hin
  · rintro ⟨k, hrun, o, ho, hin⟩
    have hsome : (scanObjects A scene.objects
        (testedPosition A origin direction step initalstep (0 + k))).isSome = true := by
      rw [Nat.zero_add]
      exact (scan_isSome_iff_inside A _ _).mpr ⟨o, ho, hin⟩
    obtain ⟨r, m, hrm⟩ := RaycastLoopCount_returns A origin direction distance scene step
      initalstep k 0 (k + 1) (Nat.lt_succ_self k) (Or.inr hsome)
    have hrm2 : RaycastCount A (k + 1) origin direction distance scene step initalstep =
        some (r, m) := hrm
    refine ⟨k + 1, r, by unfold Raycast; rw [hrm2]; rfl, ?_⟩
    rcases RaycastCount_trace A (k + 1) origin direction distance scene step initalstep r m
        hrm2 with ⟨j, _, _, ⟨o2, _, hr⟩, _⟩ | ⟨_, hstop, hall⟩
    · rw [hr]
    · exfalso
      have hkm : k < m := by
        by_contra hge
        have := hrun m (by omega)
        rw [hstop] at this
        simp at this
      have := (scan_none_iff_inside A _ _).mp (hall k hkm).2 o ho
      rw [this] at hin
      simp at hin
  · rintro ⟨n, hn⟩
    obtain ⟨r, m, hrm⟩ := RaycastLoopCount_returns A origin direction distance scene step
      initalstep n 0 (n + 1) (Nat.lt_succ_self n) (Or.inl (by rw [Nat.zero_add]; exact hn))
    have hrm2 : RaycastCount A (n + 1) origin direction distance scene step initalstep =
        some (r, m) := hrm
    exact ⟨n + 1, r, by unfold Raycast; rw [hrm2]; rfl⟩

/-- C3 as amended: in every arithmetic, if the loop variable (`0`, then `step` added once per
round, as the code accumulates it) is not below `maxDistance` after `n` rounds, and no scene
object contains the position tested in any round that is run before, then `Raycast` returns
no-hit, a nil object and the position `(0,0,0)`. -/
theorem raycast_miss_of_no_tested_position_inside {S : Type} (A : Arith S) (scene : Scene S)
    (origin direction : Vector3 S) (maxDistance step initalstep : S) (n : Nat)
    (hstop : A.lt (loopVariable A step n) maxDistance = false)
    (hclear : ∀ k : Nat, k < n →
      (∀ j : Nat, j ≤ k → A.lt (loopVariable A step j) maxDistance = true) →
      ∀ o, o ∈ scene.objects → Object.CheckIfInside A o
        (testedPosition A origin direction step initalstep k) = false) :
    Raycast A (n + 1) origin direction maxDistance scene step initalstep =
      some (false, none, ⟨A.zero, A.zero, A.zero⟩) := by
  obtain ⟨r, m, hrm⟩ := RaycastLoopCount_returns A origin direction maxDistance scene step
    initalstep n 0 (n + 1) (Nat.lt_succ_self n) (Or.inl (by rw [Nat.zero_add]; exact hstop))
  have hrm2 : RaycastCount A (n + 1) origin direction maxDistance scene step initalstep =
      some (r, m) := hrm
  unfold Raycast
  rw [hrm2]
  rcases RaycastCount_trace A (n + 1) origin direction maxDistance scene step initalstep r m
      hrm2 with ⟨j, _, hrun, ⟨o, hso, _⟩, _⟩ | ⟨hr, _, _⟩
  · exfalso
    have hjn : j < n := by
      by_contra hge
      have := hrun n (by omega)
      rw [hstop] at this
      simp at this
    have hin : ∃ o, o ∈ scene.objects ∧ Object.CheckIfInside A o
        (testedPosition A origin direction step initalstep j) = true :=
      (scan_isSome_iff_inside A _ _).mp (by rw [hso]; rfl)
    obtain ⟨o2, ho2, hin2⟩ := hin
    have := hclear j hjn hrun o2 ho2
    rw [this] at hin2
    simp at hin2
  · rw [hr]
    rfl

end Generic

namespace Generic

/-- C16 as amended: in every arithmetic, with the loop variable `x₀ = 0`, `xₖ₊₁ = xₖ + step`
as the code accumulates it, a `Raycast` that returns a miss has performed exactly `n` march
increments, `n` being the least index with `xₙ` not below `distance` (none when `0` is not
below `distance`); a hit takes at least one increment, all of whose rounds passed the loop
condition.  The count on a miss does not depend on the initial step, the origin, the direction
or the scene, and `Raycast` returns when some `xₙ` is not below `distance`. -/
theorem raycast_increments_until_loop_variable_stops {S : Type} (A : Arith S)
    (scene : Scene S) (origin direction : Vector3 S) (distance step initalstep : S) :
    (∀ (fuel : Nat) (r : Bool × Option (Object S) × Vector3 S) (n : Nat),
      RaycastCount A fuel origin direction distance scene step initalstep = some (r, n) →
      (r.1 = false →
        A.lt (loopVariable A step n) distance = false ∧
        ∀ j : Nat, j < n → A.lt (loopVariable A step j) distance = true) ∧
      (r.1 = true →
        1 ≤ n ∧ ∀ j : Nat, j < n → A.lt (loopVariable A step j) distance = true)) ∧
    (A.lt A.zero distance = false → ∀ fuel : Nat,
      RaycastCount A (fuel + 1) origin direction distance scene step initalstep =
        some ((false, none, ⟨A.zero, A.zero, A.zero⟩), 0)) ∧
    ((∃ n : Nat, A.lt (loopVariable A step n) distance = false) →
      ∃ (fuel : Nat) (r : Bool × Option (Object S) × Vector3 S) (n : Nat),
        RaycastCount A fuel origin direction distance scene step initalstep = some (r, n)) ∧
    (∀ (scene2 : Scene S) (origin2 direction2 : Vector3 S) (initalstep2 : S)
      (fuel fuel2 : Nat) (r r2 : Bool × Option (Object S) × Vector3 S) (n n2 : Nat),
      RaycastCount A fuel origin direction distance scene step initalstep = some (r, n) →
      RaycastCount A fuel2 origin2 direction2 distance scene2 step initalstep2 =
        some (r2, n2) →
      r.1 = false → r2.1 = false → n = n2) := by
  have hchar : ∀ (sc : Scene S) (o d : Vector3 S) (s0 : S) (fuel : Nat)
      (r : Bool × Option (Object S) × Vector3 S) (n : Nat),
      RaycastCount A fuel o d distance sc step s0 = some (r, n) →
      (r.1 = false →
        A.lt (loopVariable A step n) distance = false ∧
        ∀ j : Nat, j < n → A.lt (loopVariable A step j) distance = true) ∧
      (r.1 = true →
        1 ≤ n ∧ ∀ j : Nat, j < n → A.lt (loopVariable A step j) distance = true) := by
    intro sc o d s0 fuel r n h
    rcases RaycastCount_trace A fuel o d distance sc step s0 r n h with
      ⟨j, hn, hrun, ⟨ob, _, hr⟩, _⟩ | ⟨hr, hstop, hall⟩
    · subst hr
      refine ⟨fun hc => by simp at hc, fun _ => ⟨by omega, fun i hi => hrun i (by omega)⟩⟩
    · subst hr
      exact ⟨fun _ => ⟨hstop, fun i hi => (hall i hi).1⟩, fun hc => by simp at hc⟩
  refine ⟨hchar scene origin direction initalstep, ?_, ?_, ?_⟩
  · intro h0 fuel
    unfold RaycastCount
    rw [RaycastLoopCount]
    simp [h0]
  · rintro ⟨n, hn⟩
    obtain ⟨r, m, hrm⟩ := RaycastLoopCount_returns A origin direction distance scene step
      initalstep n 0 (n + 1) (Nat.lt_succ_self n) (Or.inl (by rw [Nat.zero_add]; exact hn))
    exact ⟨n + 1, r, m, hrm⟩
  · intro sc2 o2 d2 s2 fuel fuel2 r r2 n n2 h h2 hf hf2
    obtain ⟨hs, hb⟩ := (hchar scene origin direction initalstep fuel r n h).1 hf
    obtain ⟨hs2, hb2⟩ := (hchar sc2 o2 d2 s2 fuel2 r2 n2 h2).1 hf2
    by_contra hne
    rcases Nat.lt_or_gt_of_ne hne with hlt | hgt
    · have := hb2 n hlt
      rw [hs] at this
      simp at this
    · have := hb n2 hgt
      rw [hs2] at this
      simp at this

/-- The loop of `Raycast` uses its direction only through `Normalise`. -/
theorem RaycastLoopCount_congr_direction {S : Type} (A : Arith S) (d d2 : Vector3 S)
    (hd : Vector3.Normalise A d = Vector3.Normalise A d2) (distance : S) (scene : Scene S)
    (step initalstep : S) (fuel : Nat) :
    ∀ (x : S) (pos : Vector3 S) (n : Nat),
      RaycastLoopCount A d distance scene step initalstep fuel x pos n =
        RaycastLoopCount A d2 distance scene step initalstep fuel x pos n := by
  induction fuel with
  | zero => intro x pos n; rfl
  | succ f ih =>
    intro x pos n
    rw [RaycastLoopCount, RaycastLoopCount, hd]
    simp only [ih]

/-- C18 as amended: in every arithmetic `Raycast` depends on the direction only through
`Normalise(direction)` as the code computes it: two directions with the same computed
normalisation, in particular `Scale(d, k)` and `d` whenever
`Normalise(Scale(d, k)) = Normalise(d)`, give the same triple. -/
theorem raycast_same_normalised_direction {S : Type} (A : Arith S) (scene : Scene S)
    (origin d d2 : Vector3 S) (distance step initalstep : S)
    (hd : Vector3.Normalise A d2 = Vector3.Normalise A d) :
    (∀ fuel : Nat, Raycast A fuel origin d2 distance scene step initalstep =
      Raycast A fuel origin d distance scene step initalstep) ∧
    (∀ k : S, Vector3.Normalise A (Vector3.Scale A d k) = Vector3.Normalise A d →
      ∀ fuel : Nat, Raycast A fuel origin (Vector3.Scale A d k) distance scene step initalstep =
        Raycast A fuel origin d distance scene step initalstep) := by
  have key : ∀ e : Vector3 S, Vector3.Normalise A e = Vector3.Normalise A d →
      ∀ fuel : Nat, Raycast A fuel origin e distance scene step initalstep =
        Raycast A fuel origin d distance scene step initalstep := by
    intro e he fuel
    unfold Raycast RaycastCount
    rw [RaycastLoopCount_congr_direction A e d he]
  exact ⟨key d2 hd, fun k hk => key _ hk⟩

end Generic

/-! ## The code in float64 arithmetic at concrete inputs -/

namespace Generic

theorem toReal_zero : F64.toReal (.fin 0) = 0 := by
  simp [F64.toReal]

theorem toReal_one : F64.toReal (F64.ofRat 1 1) = 1 := by
  have h : F64.ofRat 1 1 = .fin (1 <<< 1074) := by decide
  rw [h]
  simp only [F64.toReal]
  norm_num [Nat.shiftLeft_eq]

theorem toReal_two : F64.toReal (F64.ofRat 2 1) = 2 := by
  have h : F64.ofRat 2 1 = .fin (1 <<< 1075) := by decide
  rw [h]
  simp only [F64.toReal]
  norm_num [Nat.shiftLeft_eq]

theorem toReal_negOne : F64.toReal (F64.ofRat (-1) 1) = -1 := by
  have h : F64.ofRat (-1) 1 = .fin (-(1 <<< 1074)) := by decide
  rw [h]
  simp only [F64.toReal]
  norm_num [Nat.shiftLeft_eq]

/-- The `float64` constant `0.1` is the real number `3602879701896397 / 2^55`. -/
theorem toReal_tenth : F64.toReal (F64.ofRat 1 10) = 3602879701896397 / 2 ^ 55 := by
  have h : F64.ofRat 1 10 = .fin (3602879701896397 <<< 1019) := by decide
  rw [h]
  simp only [F64.toReal]
  norm_num [Nat.shiftLeft_eq]

/-- The `float64` constant `1.05` is the real number `4728779608739021 / 2^52`. -/
theorem toReal_onePointZeroFive :
    F64.toReal (F64.ofRat 105 100) = 4728779608739021 / 2 ^ 52 := by
  have h : F64.ofRat 105 100 = .fin (4728779608739021 <<< 1022) := by decide
  rw [h]
  simp only [F64.toReal]
  norm_num [Nat.shiftLeft_eq]

/-- The code, in `float64`, on the ray from the origin along `(0,0,1)` with distance `1`,
step `0.1` and initial step `0.1` in `tenthScene`: it reports a hit in its 11th increment, at
`z = 1.0999999999999999`. -/
theorem tenthScene_raycastCount :
    RaycastCount binary64 12 floatOrigin floatZAxis (F64.ofRat 1 1) tenthScene (F64.ofRat 1 10)
      (F64.ofRat 1 10) =
      some ((true, some (.cube tenthCube),
        ⟨.fin 0, .fin 0, F64.ofRat 10999999999999999 10000000000000000⟩), 11) := by
  decide

end Generic

/-- C2 fails on the code: with the non-zero direction `(0,0,1)`, distance `1`, step `0.1 > 0`
and initial step `0.1` the code (in `float64`) reports a hit on `tenthCube`, in its 11th
increment, although no sample point `origin + (s0 + k·step)·Normalise(d)` with
`k·step < distance` lies inside a scene object: the accumulated loop variable is still below
`1` after ten additions of `0.1`. -/
theorem float_raycast_hits_outside_samples :
    (Generic.floatZAxis.toReal ≠ ⟨0, 0, 0⟩ ∧ 0 < F64.toReal (F64.ofRat 1 10)) ∧
    Generic.Raycast binary64 12 Generic.floatOrigin Generic.floatZAxis (F64.ofRat 1 1)
      Generic.tenthScene (F64.ofRat 1 10) (F64.ofRat 1 10) =
      some (true, some (.cube Generic.tenthCube),
        ⟨.fin 0, .fin 0, F64.ofRat 10999999999999999 10000000000000000⟩) ∧
    (∀ k : Nat, (k : ℝ) * F64.toReal (F64.ofRat 1 10) < F64.toReal (F64.ofRat 1 1) →
      ∀ o, o ∈ Generic.tenthScene.toReal.objects →
        o.CheckIfInside (samplePoint Generic.floatOrigin.toReal Generic.floatZAxis.toReal
          (F64.toReal (F64.ofRat 1 10)) (F64.toReal (F64.ofRat 1 10)) k) = false) := by
  have hdir : Generic.floatZAxis.toReal = ⟨0, 0, 1⟩ := by
    simp [Generic.floatZAxis, Generic.Vector3.toReal, Generic.toReal_zero, Generic.toReal_one]
  have horig : Generic.floatOrigin.toReal = ⟨0, 0, 0⟩ := by
    simp [Generic.floatOrigin, Generic.Vector3.toReal, Generic.toReal_zero]
  refine ⟨⟨?_, ?_⟩, ?_, ?_⟩
  · rw [hdir]
    exact zAxis_ne_zero
  · rw [Generic.toReal_tenth]
    norm_num
  · unfold Generic.Raycast
    rw [Generic.tenthScene_raycastCount]
    rfl
  · intro k hk o ho
    rw [Generic.toReal_tenth, Generic.toReal_one] at hk
    have hk10 : k < 10 := by
      by_contra hge
      push_neg at hge
      have h10 : (10 : ℝ) ≤ (k : ℝ) := by exact_mod_cast hge
      nlinarith
    have hk9 : (k : ℝ) ≤ 9 := by exact_mod_cast Nat.lt_succ_iff.mp hk10
    simp only [Generic.tenthScene, Generic.Scene.toReal, List.map_cons, List.map_nil,
      List.mem_singleton] at ho
    subst ho
    rw [hdir, horig]
    simp only [Generic.Object.toReal, Generic.Cube.toReal, Generic.tenthCube,
      Generic.Vector3.toReal, Object.CheckIfInside, Cube.CheckIfInside, samplePoint,
      normalise_zAxis, Vector3.Add, Vector3.Scale, Generic.toReal_tenth,
      Generic.toReal_onePointZeroFive]
    rw [if_neg]
    intro hc
    have h5 := hc.2.2.2.2.1
    nlinarith

/-- C2 as amended, at a concrete input: for the `float64` run of `tenthScene_raycastCount`
the returned position is the position tested in some run round, before which no round tested
a position inside an object. -/
theorem raycast_hit_iff_tested_position_inside_witness :
    ∃ k : Nat,
      (∀ j : Nat, j ≤ k →
        binary64.lt (Generic.loopVariable binary64 (F64.ofRat 1 10) j) (F64.ofRat 1 1) = true) ∧
      (⟨.fin 0, .fin 0, F64.ofRat 10999999999999999 10000000000000000⟩ :
          Generic.Vector3 F64) =
        Generic.testedPosition binary64 Generic.floatOrigin Generic.floatZAxis (F64.ofRat 1 10)
          (F64.ofRat 1 10) k ∧
      (∃ o, o ∈ Generic.tenthScene.objects ∧ Generic.Object.CheckIfInside binary64 o
        (Generic.testedPosition binary64 Generic.floatOrigin Generic.floatZAxis
          (F64.ofRat 1 10) (F64.ofRat 1 10) k) = true) ∧
      ∀ j : Nat, j < k → ∀ o, o ∈ Generic.tenthScene.objects →
        Generic.Object.CheckIfInside binary64 o
          (Generic.testedPosition binary64 Generic.floatOrigin Generic.floatZAxis
            (F64.ofRat 1 10) (F64.ofRat 1 10) j) = false :=
  ((Generic.raycast_hit_iff_tested_position_inside binary64 Generic.tenthScene
    Generic.floatOrigin Generic.floatZAxis (F64.ofRat 1 1) (F64.ofRat 1 10)
    (F64.ofRat 1 10)).2.1 12
    (true, some (.cube Generic.tenthCube),
      ⟨.fin 0, .fin 0, F64.ofRat 10999999999999999 10000000000000000⟩)
    (by unfold Generic.Raycast; rw [Generic.tenthScene_raycastCount]; rfl)).2 rfl

/-- C3 as amended, at a concrete input: in `float64`, with distance `1` and step `0.5` the
loop variable is not below `1` after two rounds, and `farFloatCube` contains neither of the two
tested positions, so `Raycast` returns the miss triple. -/
theorem raycast_miss_of_no_tested_position_inside_witness :
    Generic.Raycast binary64 3 Generic.floatOrigin Generic.floatZAxis (F64.ofRat 1 1)
      Generic.farFloatScene (F64.ofRat 1 2) (F64.ofRat 1 2) =
        some (false, none, ⟨.fin 0, .fin 0, .fin 0⟩) :=
  Generic.raycast_miss_of_no_tested_position_inside binary64 Generic.farFloatScene
    Generic.floatOrigin Generic.floatZAxis (F64.ofRat 1 1) (F64.ofRat 1 2) (F64.ofRat 1 2) 2
    (by decide) (by decide)

/-- The code, in `float64`, on the ray of `tenthScene_raycastCount` in the scene without
objects: it returns a miss after 11 increments. -/
theorem emptyScene_raycastCount :
    Generic.RaycastCount binary64 12 Generic.floatOrigin Generic.floatZAxis (F64.ofRat 1 1)
      Generic.emptyScene (F64.ofRat 1 10) (F64.ofRat 1 10) =
      some ((false, none, ⟨.fin 0, .fin 0, .fin 0⟩), 11) := by
  decide

/-- C16 fails on the code: with distance `1` and step `0.1 > 0` the code (in `float64`)
returns a miss after 11 march increments, while `⌈distance/step⌉ = 10`, both for the quotient
of the two `float64` values as real numbers and for their `float64` quotient, which is exactly
`10`. -/
theorem float_raycast_eleven_increments :
    0 < F64.toReal (F64.ofRat 1 10) ∧
    Generic.RaycastCount binary64 12 Generic.floatOrigin Generic.floatZAxis (F64.ofRat 1 1)
      Generic.emptyScene (F64.ofRat 1 10) (F64.ofRat 1 10) =
      some ((false, none, ⟨.fin 0, .fin 0, .fin 0⟩), 11) ∧
    Nat.ceil (F64.toReal (F64.ofRat 1 1) / F64.toReal (F64.ofRat 1 10)) = 10 ∧
    F64.div (F64.ofRat 1 1) (F64.ofRat 1 10) = F64.ofRat 10 1 := by
  refine ⟨?_, emptyScene_raycastCount, ?_, by decide⟩
  · rw [Generic.toReal_tenth]
    norm_num
  · rw [Generic.toReal_tenth, Generic.toReal_one, Nat.ceil_eq_iff (by norm_num)]
    constructor <;> norm_num

/-- C16 as amended, at a concrete input: in the `float64` run of `emptyScene_raycastCount`
the loop variable is below `1` in rounds `0` to `10` and not below `1` in round `11`. -/
theorem raycast_increments_until_loop_variable_stops_witness :
    binary64.lt (Generic.loopVariable binary64 (F64.ofRat 1 10) 11) (F64.ofRat 1 1) = false ∧
    ∀ j : Nat, j < 11 →
      binary64.lt (Generic.loopVariable binary64 (F64.ofRat 1 10) j) (F64.ofRat 1 1) = true :=
  ((Generic.raycast_increments_until_loop_variable_stops binary64 Generic.emptyScene
    Generic.floatOrigin Generic.floatZAxis (F64.ofRat 1 1) (F64.ofRat 1 10)
    (F64.ofRat 1 10)).1 12 _ 11 emptyScene_raycastCount).1 rfl

/-- C18 fails on the code: for the non-zero direction `d = (0,1,1)`, the step `1 > 0` and the
scalar `k = 3 > 0`, the code (in `float64`) returns different triples for `Scale(d, k)` and
for `d`: the hit positions differ in the last bit, because `Normalise((0,3,3))` and
`Normalise((0,1,1))` do. -/
theorem float_raycast_scaled_direction_differs :
    ((⟨.fin 0, F64.ofRat 1 1, F64.ofRat 1 1⟩ : Generic.Vector3 F64) ≠ ⟨.fin 0, .fin 0, .fin 0⟩ ∧
      binary64.lt (.fin 0) (F64.ofRat 1 1) = true ∧
      binary64.lt (.fin 0) (F64.ofRat 3 1) = true) ∧
    Generic.Vector3.Scale binary64 ⟨.fin 0, F64.ofRat 1 1, F64.ofRat 1 1⟩ (F64.ofRat 3 1) =
      ⟨.fin 0, F64.ofRat 3 1, F64.ofRat 3 1⟩ ∧
    Generic.Raycast binary64 1 Generic.floatOrigin ⟨.fin 0, F64.ofRat 1 1, F64.ofRat 1 1⟩
      (F64.ofRat 50 1) Generic.centredScene (F64.ofRat 1 1) (F64.ofRat 1 1) =
      some (true, some (.cube Generic.centredCube),
        ⟨.fin 0, F64.ofRat 7071067811865475 10000000000000000,
          F64.ofRat 7071067811865475 10000000000000000⟩) ∧
    Generic.Raycast binary64 1 Generic.floatOrigin
      (Generic.Vector3.Scale binary64 ⟨.fin 0, F64.ofRat 1 1, F64.ofRat 1 1⟩ (F64.ofRat 3 1))
      (F64.ofRat 50 1) Generic.centredScene (F64.ofRat 1 1) (F64.ofRat 1 1) =
      some (true, some (.cube Generic.centredCube),
        ⟨.fin 0, F64.ofRat 7071067811865476 10000000000000000,
          F64.ofRat 7071067811865476 10000000000000000⟩) ∧
    Generic.Raycast binary64 1 Generic.floatOrigin
      (Generic.Vector3.Scale binary64 ⟨.fin 0, F64.ofRat 1 1, F64.ofRat 1 1⟩ (F64.ofRat 3 1))
      (F64.ofRat 50 1) Generic.centredScene (F64.ofRat 1 1) (F64.ofRat 1 1) ≠
    Generic.Raycast binary64 1 Generic.floatOrigin ⟨.fin 0, F64.ofRat 1 1, F64.ofRat 1 1⟩
      (F64.ofRat 50 1) Generic.centredScene (F64.ofRat 1 1) (F64.ofRat 1 1) := by
  decide

/-- C18 as amended, at a concrete input: in `float64` the directions `(0,0,2)` and `(0,0,1)`
have the same computed normalisation, so `Raycast` returns the same triple for both. -/
theorem raycast_same_normalised_direction_witness :
    Generic.Vector3.Normalise binary64 ⟨.fin 0, .fin 0, F64.ofRat 2 1⟩ =
      Generic.Vector3.Normalise binary64 Generic.floatZAxis ∧
    Generic.Raycast binary64 12 Generic.floatOrigin ⟨.fin 0, .fin 0, F64.ofRat 2 1⟩
      (F64.ofRat 1 1) Generic.tenthScene (F64.ofRat 1 10) (F64.ofRat 1 10) =
    Generic.Raycast binary64 12 Generic.floatOrigin Generic.floatZAxis
      (F64.ofRat 1 1) Generic.tenthScene (F64.ofRat 1 10) (F64.ofRat 1 10) :=
  ⟨by decide,
    (Generic.raycast_same_normalised_direction binary64 Generic.tenthScene Generic.floatOrigin
      Generic.floatZAxis ⟨.fin 0, .fin 0, F64.ofRat 2 1⟩ (F64.ofRat 1 1) (F64.ofRat 1 10)
      (F64.ofRat 1 10) (by decide)).1 12⟩

/-- C20 fails on the code: for the sphere with semi-axes `a = b = c = 7 ≠ 0` around the origin
and the point `p = (2,3,6)` the code's `CheckIfInside(p)` (in `float64`) is true, the sum of
the three squares being `0.9999999999999999`, while the code's `Magnitude(p - centre)` is
exactly `7`, which is not below `|r| = 7`. -/
theorem float_sphere_test_differs_from_ball :
    Generic.sevenSphere.a ≠ .fin 0 ∧
    Generic.Sphere.CheckIfInside binary64 Generic.sevenSphere
      ⟨F64.ofRat 2 1, F64.ofRat 3 1, F64.ofRat 6 1⟩ = true ∧
    binary64.add
      (binary64.add (binary64.sq (binary64.div (F64.ofRat 2 1) (F64.ofRat 7 1)))
        (binary64.sq (binary64.div (F64.ofRat 3 1) (F64.ofRat 7 1))))
      (binary64.sq (binary64.div (F64.ofRat 6 1) (F64.ofRat 7 1))) =
      F64.ofRat 9999999999999999 10000000000000000 ∧
    Generic.Vector3.Magnitude binary64
      (Generic.Vector3.Add binary64 ⟨F64.ofRat 2 1, F64.ofRat 3 1, F64.ofRat 6 1⟩
        (Generic.Vector3.Scale binary64 Generic.sevenSphere.centre (F64.ofRat (-1) 1))) =
      F64.ofRat 7 1 ∧
    binary64.lt
      (Generic.Vector3.Magnitude binary64
        (Generic.Vector3.Add binary64 ⟨F64.ofRat 2 1, F64.ofRat 3 1, F64.ofRat 6 1⟩
          (Generic.Vector3.Scale binary64 Generic.sevenSphere.centre (F64.ofRat (-1) 1))))
      (F64.ofRat 7 1) = false := by
  decide

/-! ## Degenerate objects (C15) in float64 -/

theorem F64.round64_false_isNonNeg (n d : Nat) : (F64.round64 false n d).IsNonNeg := by
  unfold F64.round64
  simp only [Bool.false_eq_true, if_false]
  split_ifs
  · exact Or.inl rfl
  · exact Or.inr (Or.inr ⟨_, rfl⟩)

theorem F64.sq_isNonNeg (x : F64) : (F64.sq x).IsNonNeg := by
  cases x with
  | fin a => exact F64.round64_false_isNonNeg _ _
  | posInf => exact Or.inl rfl
  | negInf => exact Or.inl rfl
  | nan => exact Or.inr (Or.inl rfl)

theorem F64.IsTop.isNonNeg {x : F64} (h : x.IsTop) : x.IsNonNeg := by
  rcases h with h | h
  · exact Or.inl h
  · exact Or.inr (Or.inl h)

theorem F64.sq_div_zero_isTop (x : F64) : (F64.sq (F64.div x (.fin 0))).IsTop := by
  cases x with
  | fin a =>
    by_cases h0 : a = 0
    · right; simp [F64.div, F64.sq, h0]
    · by_cases hp : 0 < a
      · left; simp [F64.div, F64.sq, h0, hp]
      · left; simp [F64.div, F64.sq, h0, hp]
  | posInf => left; simp [F64.div, F64.sq]
  | negInf => left; simp [F64.div, F64.sq]
  | nan => right; simp [F64.div, F64.sq]

theorem F64.add_isTop_left {x y : F64} (hx : x.IsTop) (hy : y.IsNonNeg) :
    (F64.add x y).IsTop := by
  rcases hx with rfl | rfl
  · rcases hy with rfl | rfl | ⟨u, rfl⟩
    · left; rfl
    · right; rfl
    · left; rfl
  · right; cases y <;> rfl

theorem F64.add_isTop_right {x y : F64} (hx : x.IsNonNeg) (hy : y.IsTop) :
    (F64.add x y).IsTop := by
  rcases hy with rfl | rfl
  · rcases hx with rfl | rfl | ⟨u, rfl⟩
    · left; rfl
    · right; rfl
    · left; rfl
  · rcases hx with rfl | rfl | ⟨u, rfl⟩
    · right; rfl
    · right; rfl
    · right; rfl

theorem F64.add_isNonNeg {x y : F64} (hx : x.IsNonNeg) (hy : y.IsNonNeg) :
    (F64.add x y).IsNonNeg := by
  rcases hx with rfl | rfl | ⟨u, rfl⟩
  · exact (F64.add_isTop_left (Or.inl rfl) hy).isNonNeg
  · exact (F64.add_isTop_left (Or.inr rfl) hy).isNonNeg
  · rcases hy with rfl | rfl | ⟨v, rfl⟩
    · exact Or.inl rfl
    · exact Or.inr (Or.inl rfl)
    · have h : decide ((u : ℤ) + (v : ℤ) < 0) = false := by
        simp only [decide_eq_false_iff_not, not_lt]
        positivity
      show (F64.round64 (decide ((u : ℤ) + (v : ℤ) < 0)) ((u : ℤ) + (v : ℤ)).natAbs 1).IsNonNeg
      rw [h]
      exact F64.round64_false_isNonNeg _ _

theorem F64.lt_of_isTop {x : F64} (hx : x.IsTop) (y : F64) : F64.lt x y = false := by
  rcases hx with rfl | rfl
  · cases y <;> rfl
  · cases y <;> rfl

namespace Generic

/-- In `float64` a sphere with a zero semi-axis contains no point: the quotient by `0` is an
infinity or NaN, its square `+Inf` or NaN, and so is the sum, which is not below `1`. -/
theorem sphere_zero_axis_contains_nothing (s : Sphere F64) (p : Vector3 F64)
    (hzero : s.a = .fin 0 ∨ s.b = .fin 0 ∨ s.c = .fin 0) :
    Sphere.CheckIfInside binary64 s p = false := by
  have htop : (F64.add
      (F64.add (F64.sq (F64.div (F64.sub p.x s.centre.x) s.a))
        (F64.sq (F64.div (F64.sub p.y s.centre.y) s.b)))
      (F64.sq (F64.div (F64.sub p.z s.centre.z) s.c))).IsTop := by
    rcases hzero with h | h | h
    · rw [h]
      exact F64.add_isTop_left
        (F64.add_isTop_left (F64.sq_div_zero_isTop _) (F64.sq_isNonNeg _)) (F64.sq_isNonNeg _)
    · rw [h]
      exact F64.add_isTop_left
        (F64.add_isTop_right (F64.sq_isNonNeg _) (F64.sq_div_zero_isTop _)) (F64.sq_isNonNeg _)
    · rw [h]
      exact F64.add_isTop_right
        (F64.add_isNonNeg (F64.sq_isNonNeg _) (F64.sq_isNonNeg _)) (F64.sq_div_zero_isTop _)
  have hlt := F64.lt_of_isTop htop (F64.ofRat 1 1)
  unfold Sphere.CheckIfInside
  simp only [binary64]
  rw [if_neg]
  rw [hlt]
  simp

theorem scanObjects_some_inside {S : Type} (A : Arith S) (objs : List (Object S))
    (p : Vector3 S) (o : Object S) (h : scanObjects A objs p = some o) :
    Object.CheckIfInside A o p = true := by
  induction objs with
  | nil => simp [scanObjects] at h
  | cons a rest ih =>
    by_cases ha : Object.CheckIfInside A a p = true
    · simp only [scanObjects, ha, if_true, Option.some.injEq] at h
      rw [← h]
      exact ha
    · simp only [scanObjects, ha, Bool.false_eq_true, if_false] at h
      exact ih h

/-- The object returned with a hit contains the returned position. -/
theorem Raycast_hit_inside {S : Type} (A : Arith S) (fuel : Nat) (origin direction : Vector3 S)
    (distance : S) (scene : Scene S) (step initalstep : S) (o : Object S) (p : Vector3 S)
    (h : Raycast A fuel origin direction distance scene step initalstep =
      some (true, some o, p)) :
    Object.CheckIfInside A o p = true := by
  obtain ⟨m, hm⟩ := Raycast_eq_some A fuel origin direction distance scene step initalstep _ h
  rcases RaycastCount_trace A fuel origin direction distance scene step initalstep _ m hm with
    ⟨j, _, _, ⟨o2, hso, hr⟩, _⟩ | ⟨hr, _, _⟩
  · simp only [Prod.mk.injEq, true_and, Option.some.injEq] at hr
    obtain ⟨ho, hp⟩ := hr
    rw [ho, hp]
    exact scanObjects_some_inside A _ _ _ hso
  · simp at hr

end Generic

/-- C15 as amended: a degenerate object is accepted like any other and `CheckIfInside` is
evaluated for it, with the result `false` at every point: for a cube with a negative extent
because `p < position + len < position < p` is impossible, and for a sphere with a zero
semi-axis because in `float64` the quotient by `0` is an infinity or NaN, so the sum of squares
is `+Inf` or NaN and not below `1`.  Hence `Raycast` never returns such an object as the object
hit, in whatever scene it stands. -/
theorem degenerate_object_contains_nothing (c : Cube) (s : Generic.Sphere F64)
    (hneg : c.xLen < 0 ∨ c.yLen < 0 ∨ c.zLen < 0)
    (hzero : s.a = .fin 0 ∨ s.b = .fin 0 ∨ s.c = .fin 0) :
    (∀ p : Vector3, (Object.cube c).CheckIfInside p = false) ∧
    (∀ p : Generic.Vector3 F64,
      Generic.Object.CheckIfInside binary64 (.sphere s) p = false) ∧
    (∀ (fuel : Nat) (origin direction : Vector3) (distance : ℝ) (scene : Scene)
      (step initalstep : ℝ) (p : Vector3),
      Raycast fuel origin direction distance scene step initalstep ≠
        some (true, some (.cube c), p)) ∧
    (∀ (fuel : Nat) (origin direction : Generic.Vector3 F64) (distance : F64)
      (scene : Generic.Scene F64) (step initalstep : F64) (p : Generic.Vector3 F64),
      Generic.Raycast binary64 fuel origin direction distance scene step initalstep ≠
        some (true, some (.sphere s), p)) := by
  have hcube : ∀ p : Vector3, (Object.cube c).CheckIfInside p = false := by
    intro p
    simp only [Object.CheckIfInside, Cube.CheckIfInside]
    rw [if_neg]
    rintro ⟨h1, h2, h3, h4, h5, h6⟩
    rcases hneg with h | h | h <;> linarith
  have hsphere : ∀ p : Generic.Vector3 F64,
      Generic.Object.CheckIfInside binary64 (.sphere s) p = false :=
    fun p => Generic.sphere_zero_axis_contains_nothing s p hzero
  refine ⟨hcube, hsphere, ?_, ?_⟩
  · intro fuel origin direction distance scene step initalstep p h
    obtain ⟨_, hscan⟩ := RaycastLoop_hit _ _ _ _ _ fuel _ _ _ _ h
    obtain ⟨_, _, hin, _⟩ := scanObjects_some_index _ _ _ hscan
    rw [hcube p] at hin
    simp at hin
  · intro fuel origin direction distance scene step initalstep p h
    have hin := Generic.Raycast_hit_inside binary64 fuel origin direction distance scene step
      initalstep _ _ h
    rw [hsphere p] at hin
    simp at hin

/-- C15 as amended, at a concrete input: the cube with `xLen = -1` does not contain `(1,1,1)`
and the sphere with `a = 0` does not contain its centre `(0,0,0)`, where `0/0` is NaN. -/
theorem degenerate_object_contains_nothing_witness :
    (negativeCube.xLen < 0 ∧ Generic.zeroAxisSphere.a = .fin 0) ∧
    (Object.cube negativeCube).CheckIfInside ⟨1, 1, 1⟩ = false ∧
    Generic.Object.CheckIfInside binary64 (.sphere Generic.zeroAxisSphere)
      Generic.floatOrigin = false :=
  have h := degenerate_object_contains_nothing negativeCube Generic.zeroAxisSphere
    (Or.inl (by norm_num [negativeCube])) (Or.inl rfl)
  ⟨⟨by norm_num [negativeCube], rfl⟩, h.1 _, h.2.1 _⟩

/-! ## Zero-length directions (C14) in float64 -/

namespace Generic

theorem normalise_zero_vector : Vector3.Normalise binary64 floatOrigin = nanVector := by
  decide

theorem add_nanVector (v : Vector3 F64) : Vector3.Add binary64 v nanVector = nanVector := by
  obtain ⟨x, y, z⟩ := v
  simp only [Vector3.Add, nanVector, binary64]
  cases x <;> cases y <;> cases z <;> rfl

theorem scale_nanVector (t : F64) : Vector3.Scale binary64 nanVector t = nanVector := by
  simp only [Vector3.Scale, nanVector, binary64]
  cases t <;> rfl

/-- With the direction `(0,0,0)` every position `Raycast` tests is `(NaN, NaN, NaN)`. -/
theorem testedPosition_zero_direction (origin : Vector3 F64) (step initalstep : F64)
    (k : Nat) :
    testedPosition binary64 origin floatOrigin step initalstep k = nanVector := by
  unfold testedPosition
  rw [rayPositionAfter, normalise_zero_vector, scale_nanVector, add_nanVector]

/-- No object contains `(NaN, NaN, NaN)`: every comparison with NaN is false. -/
theorem checkIfInside_nanVector (o : Object F64) :
    Object.CheckIfInside binary64 o nanVector = false := by
  cases o with
  | cube c =>
    have h : F64.lt c.position.x .nan = false := by cases c.position.x <;> rfl
    simp only [Object.CheckIfInside, Cube.CheckIfInside, nanVector, binary64]
    rw [if_neg]
    rintro ⟨h1, _⟩
    rw [h] at h1
    simp at h1
  | sphere s =>
    have h1 : F64.sub .nan s.centre.x = .nan := by
      unfold F64.sub
      cases F64.neg s.centre.x <;> rfl
    have h2 : F64.div .nan s.a = .nan := by cases s.a <;> rfl
    have h3 : ∀ y : F64, F64.add .nan y = .nan := by intro y; cases y <;> rfl
    have h4 : F64.lt .nan (F64.ofRat 1 1) = false := by cases F64.ofRat 1 1 <;> rfl
    simp only [Object.CheckIfInside, Sphere.CheckIfInside, nanVector, binary64]
    rw [if_neg]
    have h5 : F64.sq .nan = .nan := rfl
    rw [h1, h2, h5, h3, h3, h4]
    simp

/-- In `float64` a `Raycast` with the direction `(0,0,0)` that returns, returns a miss. -/
theorem raycast_zero_direction_misses (fuel : Nat) (origin : Vector3 F64) (distance : F64)
    (scene : Scene F64) (step initalstep : F64) (r : Bool × Option (Object F64) × Vector3 F64)
    (h : Raycast binary64 fuel origin floatOrigin distance scene step initalstep = some r) :
    r = (false, none, ⟨.fin 0, .fin 0, .fin 0⟩) := by
  obtain ⟨m, hm⟩ := Raycast_eq_some binary64 fuel origin floatOrigin distance scene step
    initalstep r h
  rcases RaycastCount_trace binary64 fuel origin floatOrigin distance scene step initalstep r m
      hm with ⟨j, _, _, ⟨o, hso, _⟩, _⟩ | ⟨hr, _, _⟩
  · exfalso
    have hin := scanObjects_some_inside binary64 _ _ _ hso
    rw [testedPosition_zero_direction, checkIfInside_nanVector] at hin
    simp at hin
  · exact hr

end Generic

/-- C14 as amended: `Render` checks no direction.  For a pixel inside the image whose body
returns, the primary `Raycast` was invoked with `Transform(camRot, (ndcX, ndcY, 1))` and, on a
hit at `h`, the shadow `Raycast` with `light.position + h·(-1)`, whatever these vectors are.
The primary direction is the vector `(0,0,0)` when `camRot` is the zero matrix, and for a
position `h` inside a scene object the shadow direction is `(0,0,0)` exactly when `h` is the
light position.  `Raycast` does not reject the direction `(0,0,0)` either: in `float64` its
magnitude is `0`, `Normalise` yields `(NaN, NaN, NaN)` (the products `0 · (1/0)`), and the
march returns a miss whatever the origin and the scene. -/
theorem render_zero_direction_unchecked (g : Globals) (cam : Camera) (scene : Scene)
    (skybox : RGBA) (px py : Nat) (_hx : px < g.width) (_hy : py < g.height) :
    (∀ (fuel : Nat) (c : RGBA), pixelColour fuel g cam scene skybox px py = .ret c →
      ∃ r : Bool × Option Object × Vector3,
        Raycast fuel cam.position (primaryDirection g px py) 50 scene g.step g.step = some r ∧
        (r.1 = true → ∃ r2 : Bool × Option Object × Vector3,
          Raycast fuel r.2.2 (shadowDirection scene r.2.2) 50 scene g.step (g.step * 10) =
            some r2)) ∧
    (g.camRot = zeroMatrix → primaryDirection g px py = ⟨0, 0, 0⟩) ∧
    (∀ h : Vector3, (∃ o, o ∈ scene.objects ∧ o.CheckIfInside h = true) →
      (shadowDirection scene h = ⟨0, 0, 0⟩ ↔ h = scene.light.position)) ∧
    Generic.Vector3.Magnitude binary64 Generic.floatOrigin = .fin 0 ∧
    Generic.Vector3.Normalise binary64 Generic.floatOrigin = ⟨.nan, .nan, .nan⟩ ∧
    (∀ (fuel : Nat) (origin : Generic.Vector3 F64) (distance : F64)
      (fscene : Generic.Scene F64) (step initalstep : F64)
      (r : Bool × Option (Generic.Object F64) × Generic.Vector3 F64),
      Generic.Raycast binary64 fuel origin Generic.floatOrigin distance fscene step
        initalstep = some r →
      r = (false, none, ⟨.fin 0, .fin 0, .fin 0⟩)) := by
  refine ⟨?_, ?_, ?_, by decide, Generic.normalise_zero_vector, ?_⟩
  · intro fuel c h
    obtain ⟨r, hr, hcases⟩ := pixelColour_ret fuel g cam scene skybox px py c h
    refine ⟨r, hr, fun hhit => ?_⟩
    rcases hcases with ⟨hmiss, _⟩ | ⟨_, _, _, r2, hr2, _⟩
    · rw [hmiss] at hhit
      simp at hhit
    · exact ⟨r2, hr2⟩
  · intro hrot
    simp [primaryDirection, hrot, zeroMatrix, Matrix.Transform, Vector3.Dot]
  · intro h _
    unfold shadowDirection
    constructor
    · intro hz
      have hx := congrArg Vector3.x hz
      have hy := congrArg Vector3.y hz
      have hzz := congrArg Vector3.z hz
      simp only [Vector3.Add, Vector3.Scale] at hx hy hzz
      ext <;> linarith
    · intro he
      rw [he]
      ext <;> simp [Vector3.Add, Vector3.Scale]
  · intro fuel origin distance fscene step initalstep r h
    exact Generic.raycast_zero_direction_misses fuel origin distance fscene step initalstep r h

/-- C14 as amended, at a concrete input: with `camRot` the zero matrix the primary direction
of pixel `(1,1)` of a `2 × 2` image is `(0,0,0)`. -/
theorem render_zero_direction_unchecked_witness :
    primaryDirection ⟨3, 2, 2, 1, zeroMatrix⟩ ((1 : Nat) : ℝ) ((1 : Nat) : ℝ) = ⟨0, 0, 0⟩ :=
  (render_zero_direction_unchecked ⟨3, 2, 2, 1, zeroMatrix⟩ demoCamera lightInCubeScene
    ⟨0, 255, 255, 255⟩ 1 1 (by decide) (by decide)).2.1 rfl

/-! ## Rows of the rotation constructors in float64 (C11) -/

/-- Whether a row `(c, 0, s)` of `RotateX` has dot product `1` with itself in `float64`
depends on the last bit of the values `math.Cos` and `math.Sin` return: with
`c = 0.8660254037844387` and `s = -0.49999999999999994` the product `Dot` computes is `1`,
with the neighbouring values `c = 0.8660254037844386` and `s = -0.5` it is
`0.9999999999999999`. -/
theorem float_row_product_depends_on_last_bit :
    Generic.Vector3.Dot binary64
      ⟨F64.ofRat 8660254037844387 10000000000000000, .fin 0,
        F64.ofRat (-49999999999999994) 100000000000000000⟩
      ⟨F64.ofRat 8660254037844387 10000000000000000, .fin 0,
        F64.ofRat (-49999999999999994) 100000000000000000⟩ = F64.ofRat 1 1 ∧
    Generic.Vector3.Dot binary64
      ⟨F64.ofRat 8660254037844386 10000000000000000, .fin 0, F64.ofRat (-1) 2⟩
      ⟨F64.ofRat 8660254037844386 10000000000000000, .fin 0, F64.ofRat (-1) 2⟩ =
      F64.ofRat 9999999999999999 10000000000000000 := by
  decide

/-! ## The sphere test and the unit ball in float64 (C20) -/

theorem F64.log2Aux_spec : ∀ (i n acc : Nat), 0 < n → n < 2 ^ (2 ^ i) →
    ∃ e, F64.log2Aux i n acc = acc + e ∧ 2 ^ e ≤ n ∧ n < 2 ^ (e + 1) := by
  intro i
  induction i with
  | zero =>
    intro n acc hn hlt
    refine ⟨0, rfl, ?_, ?_⟩
    · simpa using hn
    · simpa using hlt
  | succ i ih =>
    intro n acc hn hlt
    rw [F64.log2Aux]
    simp only [Nat.shiftLeft_eq, one_mul, Nat.shiftRight_eq_div_pow]
    split_ifs with h
    · have hpos : 0 < 2 ^ (2 ^ i) := by positivity
      have hn2 : 0 < n / 2 ^ (2 ^ i) := Nat.div_pos h hpos
      have hlt2 : n / 2 ^ (2 ^ i) < 2 ^ (2 ^ i) := by
        rw [Nat.div_lt_iff_lt_mul hpos, ← pow_add]
        have : 2 ^ i + 2 ^ i = 2 ^ (i + 1) := by ring
        rw [this]
        exact hlt
      obtain ⟨e, he, hlo, hhi⟩ := ih (n / 2 ^ (2 ^ i)) (acc + 2 ^ i) hn2 hlt2
      refine ⟨2 ^ i + e, by rw [he]; ring, ?_, ?_⟩
      · rw [pow_add]
        calc 2 ^ (2 ^ i) * 2 ^ e ≤ 2 ^ (2 ^ i) * (n / 2 ^ (2 ^ i)) :=
              Nat.mul_le_mul_left _ hlo
          _ ≤ n := Nat.mul_div_le n _
      · have h1 : n < 2 ^ (2 ^ i) * (n / 2 ^ (2 ^ i) + 1) := Nat.lt_mul_div_succ n hpos
        have h2 : n / 2 ^ (2 ^ i) + 1 ≤ 2 ^ (e + 1) := hhi
        calc n < 2 ^ (2 ^ i) * (n / 2 ^ (2 ^ i) + 1) := h1
          _ ≤ 2 ^ (2 ^ i) * 2 ^ (e + 1) := Nat.mul_le_mul_left _ h2
          _ = 2 ^ (2 ^ i + e + 1) := by rw [← pow_add]; ring_nf
    · push_neg at h
      exact ih n acc hn h

/-- For `0 < n < 2^8192` the value `ilog2 n` is the position of the leading bit of `n`. -/
theorem F64.ilog2_spec (n : Nat) (hn : 0 < n) (hlt : n < 2 ^ 2 ^ 13) :
    2 ^ F64.ilog2 n ≤ n ∧ n < 2 ^ (F64.ilog2 n + 1) := by
  obtain ⟨e, he, hlo, hhi⟩ := F64.log2Aux_spec 13 n 0 hn hlt
  unfold F64.ilog2
  rw [he, Nat.zero_add]
  exact ⟨hlo, hhi⟩

theorem F64.roundEven_bounds (n d : Nat) :
    n / d ≤ F64.roundEven n d ∧ F64.roundEven n d ≤ n / d + 1 := by
  unfold F64.roundEven
  simp only
  split_ifs <;> omega

theorem F64.isqrtAux_spec (n : Nat) : ∀ (b r : Nat), r * r ≤ n → n < (r + 2 ^ b) * (r + 2 ^ b) →
    F64.isqrtAux n b r * F64.isqrtAux n b r ≤ n ∧
      n < (F64.isqrtAux n b r + 1) * (F64.isqrtAux n b r + 1) := by
  intro b
  induction b with
  | zero =>
    intro r h1 h2
    simpa [F64.isqrtAux] using And.intro h1 h2
  | succ b ih =>
    intro r h1 h2
    rw [F64.isqrtAux]
    simp only [Nat.shiftLeft_eq, one_mul]
    split_ifs with h
    · apply ih _ h
      have : r + 2 ^ b + 2 ^ b = r + 2 ^ (b + 1) := by ring
      rw [this]
      exact h2
    · push_neg at h
      exact ih r h1 h

/-- For `0 < n < 2^8192` the value `isqrt n` is `⌊√n⌋`. -/
theorem F64.isqrt_spec (n : Nat) (hn : 0 < n) (hlt : n < 2 ^ 2 ^ 13) :
    F64.isqrt n * F64.isqrt n ≤ n ∧ n < (F64.isqrt n + 1) * (F64.isqrt n + 1) := by
  unfold F64.isqrt
  apply F64.isqrtAux_spec
  · simp
  · obtain ⟨_, hhi⟩ := F64.ilog2_spec n hn hlt
    rw [Nat.zero_add, ← pow_add]
    calc n < 2 ^ (F64.ilog2 n + 1) := hhi
      _ ≤ 2 ^ (F64.ilog2 n / 2 + 1 + (F64.ilog2 n / 2 + 1)) :=
        Nat.pow_le_pow_right (by norm_num) (by omega)


theorem F64.shiftLeft_eq_mul (a b : Nat) : a <<< b = a * 2 ^ b := Nat.shiftLeft_eq a b

theorem F64.shiftRight_eq_div (a b : Nat) : a >>> b = a / 2 ^ b :=
  Nat.shiftRight_eq_div_pow a b

theorem F64.two_pow_mono (a b : Nat) (h : a ≤ b) : 2 ^ a ≤ 2 ^ b :=
  Nat.pow_le_pow_right (by norm_num) h

theorem F64.roundEven_one (n : Nat) : F64.roundEven n 1 = n := by
  unfold F64.roundEven
  simp [Nat.mod_one]

/-- A value rounded to the binary64 grid that is below `2^1074` units (the number `1`) is at
most `2^1074 - 2^1021` units (the number `1 - 2^-53`). -/
theorem F64.roundUnits_gap (n : Nat) (hn : n < 2 ^ 2099) (h : F64.roundUnits n 1 < 2 ^ 1074) :
    F64.roundUnits n 1 + 2 ^ 1021 ≤ 2 ^ 1074 := by
  unfold F64.roundUnits at h ⊢
  simp only [Nat.div_one, Nat.shiftLeft_eq, one_mul] at h ⊢
  split_ifs at h ⊢ with hsmall
  · rw [F64.roundEven_one] at h ⊢
    have : (2 : Nat) ^ 53 + 2 ^ 1021 ≤ 2 ^ 1074 := by norm_num
    omega
  · push_neg at hsmall
    have hn0 : 0 < n := lt_of_lt_of_le (by positivity) hsmall
    have hpow : (2 : Nat) ^ 2099 ≤ 2 ^ 2 ^ 13 := by norm_num
    have hn8 : n < 2 ^ 2 ^ 13 := by omega
    obtain ⟨hlo, hhi⟩ := F64.ilog2_spec n hn0 hn8
    obtain ⟨_, hup⟩ := F64.roundEven_bounds n (2 ^ (F64.ilog2 n - 52))
    have he53 : 53 ≤ F64.ilog2 n := by
      by_contra hc
      push_neg at hc
      have : (2 : Nat) ^ (F64.ilog2 n + 1) ≤ 2 ^ 53 := F64.two_pow_mono _ 53 hc
      omega
    by_cases he : 1073 ≤ F64.ilog2 n
    · obtain ⟨t, ht⟩ : ∃ t, F64.ilog2 n - 52 = 1021 + t := ⟨F64.ilog2 n - 52 - 1021, by omega⟩
      rw [ht, pow_add] at h ⊢
      set c := F64.roundEven n (2 ^ 1021 * 2 ^ t) * 2 ^ t with hc
      have hr : F64.roundEven n (2 ^ 1021 * 2 ^ t) * (2 ^ 1021 * 2 ^ t) = c * 2 ^ 1021 := by
        rw [hc]; ring
      rw [hr] at h ⊢
      have h74 : (2 : Nat) ^ 1074 = 2 ^ 53 * 2 ^ 1021 := by rw [← pow_add]
      rw [h74] at h ⊢
      have hc53 : c < 2 ^ 53 := Nat.lt_of_mul_lt_mul_right h
      calc c * 2 ^ 1021 + 2 ^ 1021 = (c + 1) * 2 ^ 1021 := by ring
        _ ≤ 2 ^ 53 * 2 ^ 1021 := Nat.mul_le_mul_right _ hc53
    · push_neg at he
      set s := F64.ilog2 n - 52 with hs
      have hpos : 0 < 2 ^ s := by positivity
      have h1 : F64.roundEven n (2 ^ s) * 2 ^ s ≤ n + 2 ^ s := by
        calc F64.roundEven n (2 ^ s) * 2 ^ s ≤ (n / 2 ^ s + 1) * 2 ^ s :=
              Nat.mul_le_mul_right _ hup
          _ = n / 2 ^ s * 2 ^ s + 2 ^ s := by ring
          _ ≤ n + 2 ^ s := Nat.add_le_add_right (Nat.div_mul_le_self n _) _
      have h2 : n < 2 ^ 1073 :=
        lt_of_lt_of_le hhi (F64.two_pow_mono _ 1073 (by omega))
      have h3 : 2 ^ s ≤ 2 ^ 1020 := F64.two_pow_mono _ 1020 (by omega)
      have h4 : (2 : Nat) ^ 1073 + 2 ^ 1020 + 2 ^ 1021 ≤ 2 ^ 1074 := by norm_num
      omega


theorem F64.pick_bounds (lhs rhs k0 : Nat) :
    k0 ≤ (if rhs < lhs then k0 + 1
      else if rhs = lhs then (if k0 % 2 = 0 then k0 else k0 + 1) else k0) ∧
    (if rhs < lhs then k0 + 1
      else if rhs = lhs then (if k0 % 2 = 0 then k0 else k0 + 1) else k0) ≤ k0 + 1 ∧
    ((if rhs < lhs then k0 + 1
      else if rhs = lhs then (if k0 % 2 = 0 then k0 else k0 + 1) else k0) = k0 + 1 →
      rhs ≤ lhs) := by
  split_ifs <;> omega

theorem F64.square_above (P T X Y u : Nat) (hT : 0 < T) (hu : u + T ≤ P) (hX : X ≤ T)
    (hY : Y + X = 2 * P) : 4 * u * P < Y * Y := by
  obtain ⟨w, hw⟩ : ∃ w, P = u + T + w := ⟨P - (u + T), by omega⟩
  obtain ⟨v, hv⟩ : ∃ v, T = X + v := ⟨T - X, by omega⟩
  have hYe : Y = 2 * u + T + v + 2 * w := by omega
  subst hw
  rw [hYe]
  nlinarith [Nat.zero_le u, Nat.zero_le w, Nat.zero_le v, Nat.zero_le X, hT,
    mul_pos hT hT]

/-- The rounded square root of `u` units is below `2^1074` units (the number `1`) exactly when
`u` is, for `u` on the binary64 grid. -/
theorem F64.sqrt_round_lt_one (u N s k0 K : Nat) (hu : 0 < u) (hb : u < 2 ^ 2098)
    (hgap : u < 2 ^ 1074 → u + 2 ^ 1021 ≤ 2 ^ 1074)
    (hN : N = u * 2 ^ 1074) (hs : s = F64.ilog2 N / 2 - 52)
    (hk0 : k0 = F64.isqrt (N / 2 ^ (2 * s)))
    (hK1 : k0 ≤ K) (hK2 : K ≤ k0 + 1)
    (hK3 : K = k0 + 1 → (2 * k0 + 1) * (2 * k0 + 1) * 2 ^ (2 * s) ≤ N * 2 ^ 2) :
    K * 2 ^ s < 2 ^ 1074 ↔ u < 2 ^ 1074 := by
  have hP0 : (0 : Nat) < 2 ^ 1074 := by positivity
  have hN0 : 0 < N := by rw [hN]; exact Nat.mul_pos hu hP0
  have hN8 : N < 2 ^ 2 ^ 13 := by
    have h1 : N < 2 ^ 2098 * 2 ^ 1074 := by
      rw [hN]
      exact Nat.mul_lt_mul_of_pos_right hb hP0
    have h2 : (2 : Nat) ^ 2098 * 2 ^ 1074 ≤ 2 ^ 2 ^ 13 := by norm_num
    omega
  obtain ⟨hlo, hhi⟩ := F64.ilog2_spec N hN0 hN8
  set e := F64.ilog2 N with he
  have h2s : 2 * s ≤ e := by omega
  have hpow2s : 0 < 2 ^ (2 * s) := by positivity
  have hM0 : 0 < N / 2 ^ (2 * s) :=
    Nat.div_pos (le_trans (F64.two_pow_mono _ _ h2s) hlo) hpow2s
  have hM8 : N / 2 ^ (2 * s) < 2 ^ 2 ^ 13 := lt_of_le_of_lt (Nat.div_le_self _ _) hN8
  obtain ⟨hsq1, hsq2⟩ := F64.isqrt_spec (N / 2 ^ (2 * s)) hM0 hM8
  rw [← hk0] at hsq1 hsq2
  constructor
  · intro hlt
    by_contra hge
    push_neg at hge
    have hNP : 2 ^ 1074 * 2 ^ 1074 ≤ N := by
      rw [hN]
      exact Nat.mul_le_mul_right _ hge
    have he2148 : 2148 ≤ e := by
      by_contra hc
      push_neg at hc
      have h3 : (2 : Nat) ^ (e + 1) ≤ 2 ^ 2148 := F64.two_pow_mono _ 2148 hc
      have h4 : (2 : Nat) ^ 2148 = 2 ^ 1074 * 2 ^ 1074 := by rw [← pow_add]
      omega
    have hs1022 : 1022 ≤ s := by omega
    have hM104 : 2 ^ 104 ≤ N / 2 ^ (2 * s) := by
      rw [Nat.le_div_iff_mul_le hpow2s, ← pow_add]
      exact le_trans (F64.two_pow_mono _ _ (by omega)) hlo
    have hk52 : 2 ^ 52 ≤ k0 := by
      by_contra hc
      push_neg at hc
      have h5 : (k0 + 1) * (k0 + 1) ≤ 2 ^ 52 * 2 ^ 52 := Nat.mul_le_mul hc hc
      have h6 : (2 : Nat) ^ 52 * 2 ^ 52 = 2 ^ 104 := by rw [← pow_add]
      omega
    have h7 : 2 ^ 52 * 2 ^ 1022 ≤ K * 2 ^ s :=
      Nat.mul_le_mul (le_trans hk52 hK1) (F64.two_pow_mono _ _ hs1022)
    have h8 : (2 : Nat) ^ 52 * 2 ^ 1022 = 2 ^ 1074 := by rw [← pow_add]
    omega
  · intro hlt
    have hg := hgap hlt
    have hNP : N < 2 ^ 1074 * 2 ^ 1074 := by
      rw [hN]
      exact Nat.mul_lt_mul_of_pos_right hlt hP0
    have he2147 : e ≤ 2147 := by
      by_contra hc
      push_neg at hc
      have h3 : (2 : Nat) ^ 2148 ≤ 2 ^ e := F64.two_pow_mono 2148 _ hc
      have h4 : (2 : Nat) ^ 2148 = 2 ^ 1074 * 2 ^ 1074 := by rw [← pow_add]
      omega
    have hs1021 : s ≤ 1021 := by omega
    obtain ⟨m, hm⟩ : ∃ m, 1074 = m + s := ⟨1074 - s, by omega⟩
    have hPm : (2 : Nat) ^ 1074 = 2 ^ m * 2 ^ s := by rw [← pow_add, ← hm]
    have hspos : 0 < 2 ^ s := by positivity
    have hk0m : k0 < 2 ^ m := by
      by_contra hc
      push_neg at hc
      have h5 : 2 ^ m * 2 ^ m ≤ k0 * k0 := Nat.mul_le_mul hc hc
      have h6 : k0 * k0 * 2 ^ (2 * s) ≤ N :=
        le_trans (Nat.mul_le_mul_right _ hsq1) (Nat.div_mul_le_self N _)
      have h7 : 2 ^ m * 2 ^ m * 2 ^ (2 * s) ≤ N := le_trans (Nat.mul_le_mul_right _ h5) h6
      have h8 : (2 : Nat) ^ m * 2 ^ m * 2 ^ (2 * s) = 2 ^ 1074 * 2 ^ 1074 := by
        rw [hPm]
        ring
      omega
    rw [hPm]
    apply Nat.mul_lt_mul_of_pos_right _ hspos
    by_contra hc
    push_neg at hc
    have hKe : K = k0 + 1 := by omega
    have hk0e : k0 + 1 = 2 ^ m := by omega
    have hrhs := hK3 hKe
    have hY : (2 * k0 + 1) * 2 ^ s + 2 ^ s = 2 * 2 ^ 1074 := by
      rw [hPm, ← hk0e]
      ring
    have hX : 2 ^ s ≤ 2 ^ 1021 := F64.two_pow_mono _ 1021 hs1021
    have habove := F64.square_above (2 ^ 1074) (2 ^ 1021) (2 ^ s) ((2 * k0 + 1) * 2 ^ s) u
      (by positivity) hg hX hY
    have hsq : (2 * k0 + 1) * (2 * k0 + 1) * 2 ^ (2 * s) =
        (2 * k0 + 1) * 2 ^ s * ((2 * k0 + 1) * 2 ^ s) := by
      have h2 : (2 : Nat) ^ (2 * s) = 2 ^ s * 2 ^ s := by rw [two_mul, pow_add]
      rw [h2]
      ring
    rw [hsq, hN] at hrhs
    have h4 : u * 2 ^ 1074 * 2 ^ 2 = 4 * u * 2 ^ 1074 := by ring
    omega

theorem F64.sqrt_lt_one (u : Nat) (hb : u < 2 ^ 2098)
    (hgap : u < 2 ^ 1074 → u + 2 ^ 1021 ≤ 2 ^ 1074) :
    F64.lt (F64.sqrt (.fin (u : ℤ))) (.fin ((2 ^ 1074 : Nat) : ℤ)) = decide (u < 2 ^ 1074) := by
  by_cases hu : u = 0
  · subst hu
    simp only [F64.sqrt, Nat.cast_zero, lt_self_iff_false, if_false, if_true, F64.lt]
    rw [decide_eq_decide]
    exact ⟨fun _ => by positivity, fun _ => by positivity⟩
  · have hupos : 0 < u := Nat.pos_of_ne_zero hu
    have h1 : ¬ ((u : ℤ) < 0) := by omega
    have h2 : ¬ ((u : ℤ) = 0) := by omega
    simp only [F64.sqrt, h1, h2, if_false, Int.natAbs_cast, F64.shiftLeft_eq_mul,
      F64.shiftRight_eq_div, F64.lt]
    rw [decide_eq_decide, Nat.cast_lt]
    obtain ⟨hK1, hK2, hK3⟩ := F64.pick_bounds (u * 2 ^ 1074 * 2 ^ 2)
      ((2 * F64.isqrt (u * 2 ^ 1074 / 2 ^ (2 * (F64.ilog2 (u * 2 ^ 1074) / 2 - 52))) + 1) *
        (2 * F64.isqrt (u * 2 ^ 1074 / 2 ^ (2 * (F64.ilog2 (u * 2 ^ 1074) / 2 - 52))) + 1) *
        2 ^ (2 * (F64.ilog2 (u * 2 ^ 1074) / 2 - 52)))
      (F64.isqrt (u * 2 ^ 1074 / 2 ^ (2 * (F64.ilog2 (u * 2 ^ 1074) / 2 - 52))))
    exact F64.sqrt_round_lt_one u (u * 2 ^ 1074) (F64.ilog2 (u * 2 ^ 1074) / 2 - 52)
      (F64.isqrt (u * 2 ^ 1074 / 2 ^ (2 * (F64.ilog2 (u * 2 ^ 1074) / 2 - 52)))) _ hupos hb hgap
      rfl rfl rfl hK1 hK2 hK3


theorem F64.round64_false_cases (n d : Nat) :
    (2 ^ 2098 ≤ F64.roundUnits n d ∧ F64.round64 false n d = .posInf) ∨
    (F64.roundUnits n d < 2 ^ 2098 ∧
      F64.round64 false n d = .fin ((F64.roundUnits n d : Nat) : ℤ)) := by
  unfold F64.round64
  simp only [Bool.false_eq_true, if_false, F64.shiftLeft_eq_mul, one_mul]
  split_ifs with h
  · exact Or.inl ⟨h, rfl⟩
  · exact Or.inr ⟨by omega, rfl⟩

theorem F64.round64_false_isBounded (n d : Nat) : (F64.round64 false n d).IsBounded := by
  rcases F64.round64_false_cases n d with ⟨_, h⟩ | ⟨hlt, h⟩
  · exact Or.inl h
  · exact Or.inr (Or.inr ⟨_, h, hlt⟩)

theorem F64.sq_isBounded (x : F64) : (F64.sq x).IsBounded := by
  cases x with
  | fin a => exact F64.round64_false_isBounded _ _
  | posInf => exact Or.inl rfl
  | negInf => exact Or.inl rfl
  | nan => exact Or.inr (Or.inl rfl)

theorem F64.add_fin_fin (u v : Nat) :
    F64.add (.fin (u : ℤ)) (.fin (v : ℤ)) = F64.round64 false (u + v) 1 := by
  have h1 : decide ((u : ℤ) + (v : ℤ) < 0) = false := by
    simp only [decide_eq_false_iff_not, not_lt]
    positivity
  have h2 : ((u : ℤ) + (v : ℤ)).natAbs = u + v := by
    rw [← Nat.cast_add, Int.natAbs_cast]
  show F64.round64 (decide ((u : ℤ) + (v : ℤ) < 0)) ((u : ℤ) + (v : ℤ)).natAbs 1 = _
  rw [h1, h2]

theorem F64.add_isBounded {x y : F64} (hx : x.IsBounded) (hy : y.IsBounded) :
    (F64.add x y).IsBounded := by
  rcases hx with rfl | rfl | ⟨u, rfl, _⟩
  · rcases hy with rfl | rfl | ⟨v, rfl, _⟩
    · exact Or.inl rfl
    · exact Or.inr (Or.inl rfl)
    · exact Or.inl rfl
  · exact Or.inr (Or.inl (by cases y <;> rfl))
  · rcases hy with rfl | rfl | ⟨v, rfl, _⟩
    · exact Or.inl rfl
    · exact Or.inr (Or.inl rfl)
    · rw [F64.add_fin_fin]
      exact F64.round64_false_isBounded _ _

/-- A sum of two values that are not negative is on the binary64 grid. -/
theorem F64.add_isRounded {x y : F64} (hx : x.IsBounded) (hy : y.IsBounded) :
    (F64.add x y).IsRounded := by
  rcases hx with rfl | rfl | ⟨u, rfl, hu⟩
  · rcases hy with rfl | rfl | ⟨v, rfl, _⟩
    · exact Or.inl rfl
    · exact Or.inr (Or.inl rfl)
    · exact Or.inl rfl
  · exact Or.inr (Or.inl (by cases y <;> rfl))
  · rcases hy with rfl | rfl | ⟨v, rfl, hv⟩
    · exact Or.inl rfl
    · exact Or.inr (Or.inl rfl)
    · rw [F64.add_fin_fin]
      rcases F64.round64_false_cases (u + v) 1 with ⟨_, h⟩ | ⟨hlt, h⟩
      · exact Or.inl h
      · refine Or.inr (Or.inr ⟨_, h, hlt, ?_⟩)
        have h99 : (2 : Nat) ^ 2098 + 2 ^ 2098 = 2 ^ 2099 := by norm_num
        exact F64.roundUnits_gap (u + v) (by omega)

theorem F64.one_eq : F64.ofRat 1 1 = .fin ((2 ^ 1074 : Nat) : ℤ) := by
  have h : F64.ofRat 1 1 = .fin (1 <<< 1074) := by decide
  rw [h, F64.shiftLeft_eq_mul, one_mul]

/-- On a sum of squares `math.Sqrt` preserves the comparison with `1`. -/
theorem F64.sqrt_lt_one_eq (x : F64) (hx : x.IsRounded) :
    F64.lt (F64.sqrt x) (F64.ofRat 1 1) = F64.lt x (F64.ofRat 1 1) := by
  rcases hx with rfl | rfl | ⟨u, rfl, hb, hgap⟩
  · rfl
  · rfl
  · rw [F64.one_eq, F64.sqrt_lt_one u hb hgap]
    simp only [F64.lt]
    rw [decide_eq_decide, Nat.cast_lt]

namespace Generic

/-- In `float64` the test of `Sphere.CheckIfInside` is the comparison `Magnitude(q) < 1` for
the offset from the centre divided component by component by the semi-axes: the sum of squares
in the test is the sum under the square root of `Magnitude(q)`, and the correctly rounded
square root of a `float64` is below `1` exactly when the `float64` is. -/
theorem sphere_inside_eq_scaled_magnitude_lt_one (s : Sphere F64) (p : Vector3 F64) :
    Sphere.CheckIfInside binary64 s p =
      binary64.lt
        (Vector3.Magnitude binary64
          ⟨binary64.div (binary64.sub p.x s.centre.x) s.a,
            binary64.div (binary64.sub p.y s.centre.y) s.b,
            binary64.div (binary64.sub p.z s.centre.z) s.c⟩)
        binary64.one := by
  have hr : (F64.add
      (F64.add (F64.sq (F64.div (F64.sub p.x s.centre.x) s.a))
        (F64.sq (F64.div (F64.sub p.y s.centre.y) s.b)))
      (F64.sq (F64.div (F64.sub p.z s.centre.z) s.c))).IsRounded :=
    F64.add_isRounded (F64.add_isBounded (F64.sq_isBounded _) (F64.sq_isBounded _))
      (F64.sq_isBounded _)
  have h := F64.sqrt_lt_one_eq _ hr
  unfold Sphere.CheckIfInside Vector3.Magnitude
  simp only [binary64]
  rw [h]
  simp

end Generic

/-- C20 as amended: for a sphere whose three semi-axes all equal the same `r` and every point
`p`, the code's test (in `float64`) is true iff `Magnitude(q) < 1` for the offset from the
centre divided by `r`, `q = ((p.x - centre.x)/r, (p.y - centre.y)/r, (p.z - centre.z)/r)`,
all in the `float64` operations of the code: the test is the open unit ball in the coordinates
scaled by `r`.  Over the reals (exact arithmetic, `float64` rounding left out) and for
`r ≠ 0` this is `Magnitude(p - centre) < |r|`, the open ball of radius `|r|` around the
centre. -/
theorem sphere_equal_axes_is_scaled_unit_ball (fs : Generic.Sphere F64) (fr : F64)
    (fp : Generic.Vector3 F64) (s : Sphere) (r : ℝ) (p : Vector3)
    (hfa : fs.a = fr) (hfb : fs.b = fr) (hfc : fs.c = fr)
    (hr : r ≠ 0) (ha : s.a = r) (hb : s.b = r) (hc : s.c = r) :
    (Generic.Sphere.CheckIfInside binary64 fs fp = true ↔
      binary64.lt
        (Generic.Vector3.Magnitude binary64
          ⟨binary64.div (binary64.sub fp.x fs.centre.x) fr,
            binary64.div (binary64.sub fp.y fs.centre.y) fr,
            binary64.div (binary64.sub fp.z fs.centre.z) fr⟩)
        binary64.one = true) ∧
    (s.CheckIfInside p = true ↔ (p.Add (s.centre.Scale (-1))).Magnitude < |r|) := by
  constructor
  · rw [Generic.sphere_inside_eq_scaled_magnitude_lt_one, hfa, hfb, hfc]
  · exact sphere_ball_over_reals s r p hr ha hb hc

/-- C20 as amended, at a concrete input: in `float64`, for the sphere with semi-axes `7`
around the origin and `p = (2,3,6)`, the test and `Magnitude((2/7, 3/7, 6/7)) < 1` agree (both
are true); over the reals the sphere of radius `2` around `(0,1,0)` contains `(1,1,1)` iff
`Magnitude((1,0,1)) < 2`. -/
theorem sphere_equal_axes_is_scaled_unit_ball_witness :
    (Generic.Sphere.CheckIfInside binary64 Generic.sevenSphere
        ⟨F64.ofRat 2 1, F64.ofRat 3 1, F64.ofRat 6 1⟩ = true ↔
      binary64.lt
        (Generic.Vector3.Magnitude binary64
          ⟨binary64.div (binary64.sub (F64.ofRat 2 1) Generic.sevenSphere.centre.x)
              (F64.ofRat 7 1),
            binary64.div (binary64.sub (F64.ofRat 3 1) Generic.sevenSphere.centre.y)
              (F64.ofRat 7 1),
            binary64.div (binary64.sub (F64.ofRat 6 1) Generic.sevenSphere.centre.z)
              (F64.ofRat 7 1)⟩)
        binary64.one = true) ∧
    ((⟨⟨0, 1, 0⟩, 2, 2, 2, ⟨0, 0, 255, 255⟩⟩ : Sphere).CheckIfInside ⟨1, 1, 1⟩ = true ↔
      ((⟨1, 1, 1⟩ : Vector3).Add ((⟨0, 1, 0⟩ : Vector3).Scale (-1))).Magnitude < |(2 : ℝ)|) :=
  sphere_equal_axes_is_scaled_unit_ball Generic.sevenSphere (F64.ofRat 7 1)
    ⟨F64.ofRat 2 1, F64.ofRat 3 1, F64.ofRat 6 1⟩ ⟨⟨0, 1, 0⟩, 2, 2, 2, ⟨0, 0, 255, 255⟩⟩ 2
    ⟨1, 1, 1⟩ rfl rfl rfl (by norm_num) rfl rfl rfl

end RayMarch

end
